import Mathlib

/-!
# Column vector batches and decimal literals of `orc` (`c++/src/orc/Vector.cc`)

A shallow embedding of `Vector.cc`: the base batch `ColumnVectorBatch`, the nine
concrete batch kinds with their constructors and `resize` members, and the
`Decimal` constructor that reads a literal.

Conventions.
* `uint64_t` values are natural numbers; the only arithmetic the file performs
  on them, `cap + 1`, is taken modulo `2 ^ 64`.
* `int32_t` values are integers; `static_cast<int32_t>` is `toInt32`.
* `std::string` is a list of characters.
* A child batch held through a pointer is embedded as the value it points to;
  an unset pointer is `none`.
-/

set_option autoImplicit false

namespace orc

/-! ## Machine integers -/

/-- Number of values of `uint64_t`. -/
def UINT64_MOD : Nat := 2 ^ 64

/-- Conversion `static_cast<int32_t>(n)` of an unsigned value: the
representative of `n` modulo `2 ^ 32` in `[-2 ^ 31, 2 ^ 31)`. -/
def toInt32 (n : Nat) : Int :=
  ((n : Int) + 2 ^ 31) % 2 ^ 32 - 2 ^ 31

/-! ## External collaborators: memory pool and typed buffer -/

/-- Content of one buffer element. `Vector.hh` is not part of the sources, so
the element types of the buffers are not visible, and no function of
`Vector.cc` reads or writes an element; every element is recorded as an
integer. -/
abbrev Cell : Type := Int

/-- Modelled from the spec: the memory pool (`MemoryPool.hh`, absent). The pool
supplies the storage of every buffer, and the content of storage that was never
written is unspecified (spec §6). `fresh slot i` is the content found at index
`i` of the `slot`-th buffer a batch owns directly, so that every statement
proved for all pools holds for every possible content. Spec §7: an allocation
the pool cannot satisfy fails, and the failure propagates to the caller.
`supplies slot n` tells whether the pool satisfies a request for `n` elements
for the `slot`-th buffer. A buffer lives in the 64-bit address space together
with the batch that owns it and every element takes at least one byte, so no
pool satisfies a request for `2 ^ 64 - 1` elements or more (`bounded`). -/
structure MemoryPool where
  fresh : Nat → Nat → Cell
  supplies : Nat → Nat → Bool
  bounded : ∀ slot n, supplies slot n = true → n + 1 < UINT64_MOD

/-- Modelled from the spec: the typed buffer `DataBuffer<T>` (`MemoryPool.hh`,
absent), a contiguous array that exposes its current length. -/
structure DataBuffer where
  buf : List Cell
  deriving DecidableEq, Repr

namespace DataBuffer

/-- Current length of the buffer, `DataBuffer::size()`. -/
def size (b : DataBuffer) : Nat := b.buf.length

/-- Modelled from the spec: `DataBuffer::resize(newSize)` (absent). Spec §6: a
no-op when `newSize` is at most the current length, and otherwise grows
preserving prior contents; indices beyond the previous length have unspecified
content, here the content `init` reports for them. -/
def resize (b : DataBuffer) (newSize : Nat) (init : Nat → Cell) : DataBuffer :=
  if newSize ≤ b.size then b
  else ⟨b.buf ++ (List.range' b.size (newSize - b.size)).map init⟩

/-- Modelled from the spec: the constructor `DataBuffer(pool, size)` (absent),
which allocates a buffer of length `size`. -/
def construct (init : Nat → Cell) (size : Nat) : DataBuffer :=
  resize ⟨[]⟩ size init

end DataBuffer

/-! ## The base batch -/

/-- State of `ColumnVectorBatch`: the members `Vector.cc` initialises in the
constructor (lines 29-37). -/
structure ColumnVectorBatch where
  capacity : Nat
  numElements : Nat
  notNull : DataBuffer
  hasNulls : Bool
  memoryPool : MemoryPool

namespace ColumnVectorBatch

/-- Constructor `ColumnVectorBatch::ColumnVectorBatch(cap, pool)`, lines 29-37. -/
def construct (cap : Nat) (pool : MemoryPool) : ColumnVectorBatch :=
  { capacity := cap
    numElements := 0
    notNull := DataBuffer.construct (pool.fresh 0) cap
    hasNulls := false
    memoryPool := pool }

/-- Member `ColumnVectorBatch::resize(cap)`, lines 43-48. -/
def resize (b : ColumnVectorBatch) (cap : Nat) : ColumnVectorBatch :=
  if b.capacity < cap then
    { b with capacity := cap, notNull := b.notNull.resize cap (b.memoryPool.fresh 0) }
  else b

end ColumnVectorBatch

/-! ## Scalar and variable-length batches -/

/-- State of `LongVectorBatch`. -/
structure LongVectorBatch extends ColumnVectorBatch where
  data : DataBuffer

namespace LongVectorBatch

/-- Constructor `LongVectorBatch::LongVectorBatch(capacity, pool)`, lines 50-54. -/
def construct (capacity : Nat) (pool : MemoryPool) : LongVectorBatch :=
  { toColumnVectorBatch := ColumnVectorBatch.construct capacity pool
    data := DataBuffer.construct (pool.fresh 1) capacity }

/-- Member `LongVectorBatch::resize(cap)`, lines 66-71. -/
def resize (b : LongVectorBatch) (cap : Nat) : LongVectorBatch :=
  if b.capacity < cap then
    { toColumnVectorBatch := b.toColumnVectorBatch.resize cap
      data := b.data.resize cap (b.memoryPool.fresh 1) }
  else b

end LongVectorBatch

/-- State of `DoubleVectorBatch`. -/
structure DoubleVectorBatch extends ColumnVectorBatch where
  data : DataBuffer

namespace DoubleVectorBatch

/-- Constructor `DoubleVectorBatch::DoubleVectorBatch(capacity, pool)`, lines 73-77. -/
def construct (capacity : Nat) (pool : MemoryPool) : DoubleVectorBatch :=
  { toColumnVectorBatch := ColumnVectorBatch.construct capacity pool
    data := DataBuffer.construct (pool.fresh 1) capacity }

/-- Member `DoubleVectorBatch::resize(cap)`, lines 89-94. -/
def resize (b : DoubleVectorBatch) (cap : Nat) : DoubleVectorBatch :=
  if b.capacity < cap then
    { toColumnVectorBatch := b.toColumnVectorBatch.resize cap
      data := b.data.resize cap (b.memoryPool.fresh 1) }
  else b

end DoubleVectorBatch

/-- State of `StringVectorBatch`. -/
structure StringVectorBatch extends ColumnVectorBatch where
  data : DataBuffer
  length : DataBuffer

namespace StringVectorBatch

/-- Constructor `StringVectorBatch::StringVectorBatch(capacity, pool)`, lines 96-101. -/
def construct (capacity : Nat) (pool : MemoryPool) : StringVectorBatch :=
  { toColumnVectorBatch := ColumnVectorBatch.construct capacity pool
    data := DataBuffer.construct (pool.fresh 1) capacity
    length := DataBuffer.construct (pool.fresh 2) capacity }

/-- Member `StringVectorBatch::resize(cap)`, lines 113-119. -/
def resize (b : StringVectorBatch) (cap : Nat) : StringVectorBatch :=
  if b.capacity < cap then
    { toColumnVectorBatch := b.toColumnVectorBatch.resize cap
      data := b.data.resize cap (b.memoryPool.fresh 1)
      length := b.length.resize cap (b.memoryPool.fresh 2) }
  else b

end StringVectorBatch

/-- State of `Decimal64VectorBatch`. -/
structure Decimal64VectorBatch extends ColumnVectorBatch where
  values : DataBuffer
  readScales : DataBuffer

namespace Decimal64VectorBatch

/-- Constructor `Decimal64VectorBatch::Decimal64VectorBatch(cap, pool)`, lines 232-237. -/
def construct (cap : Nat) (pool : MemoryPool) : Decimal64VectorBatch :=
  { toColumnVectorBatch := ColumnVectorBatch.construct cap pool
    values := DataBuffer.construct (pool.fresh 1) cap
    readScales := DataBuffer.construct (pool.fresh 2) cap }

/-- Member `Decimal64VectorBatch::resize(cap)`, lines 250-256. -/
def resize (b : Decimal64VectorBatch) (cap : Nat) : Decimal64VectorBatch :=
  if b.capacity < cap then
    { toColumnVectorBatch := b.toColumnVectorBatch.resize cap
      values := b.values.resize cap (b.memoryPool.fresh 1)
      readScales := b.readScales.resize cap (b.memoryPool.fresh 2) }
  else b

end Decimal64VectorBatch

/-- State of `Decimal128VectorBatch`. -/
structure Decimal128VectorBatch extends ColumnVectorBatch where
  values : DataBuffer
  readScales : DataBuffer

namespace Decimal128VectorBatch

/-- Constructor `Decimal128VectorBatch::Decimal128VectorBatch(cap, pool)`, lines 258-263. -/
def construct (cap : Nat) (pool : MemoryPool) : Decimal128VectorBatch :=
  { toColumnVectorBatch := ColumnVectorBatch.construct cap pool
    values := DataBuffer.construct (pool.fresh 1) cap
    readScales := DataBuffer.construct (pool.fresh 2) cap }

/-- Member `Decimal128VectorBatch::resize(cap)`, lines 276-282. -/
def resize (b : Decimal128VectorBatch) (cap : Nat) : Decimal128VectorBatch :=
  if b.capacity < cap then
    { toColumnVectorBatch := b.toColumnVectorBatch.resize cap
      values := b.values.resize cap (b.memoryPool.fresh 1)
      readScales := b.readScales.resize cap (b.memoryPool.fresh 2) }
  else b

end Decimal128VectorBatch

/-! ## Composite batches

The composite kinds are generic in the type `β` of a child batch; the knot is
tied by `Batch` below. -/

/-- State of `StructVectorBatch`: the base and the vector `fields`. -/
structure StructVectorBatch (β : Type) extends ColumnVectorBatch where
  fields : List β

namespace StructVectorBatch

/-- Constructor `StructVectorBatch::StructVectorBatch(cap, pool)`, lines 121-124;
the vector `fields` starts empty. -/
def construct {β : Type} (cap : Nat) (pool : MemoryPool) : StructVectorBatch β :=
  { toColumnVectorBatch := ColumnVectorBatch.construct cap pool
    fields := [] }

/-- Member `StructVectorBatch::resize(cap)`, lines 145-147: an unguarded call of
the base `resize`. -/
def resize {β : Type} (b : StructVectorBatch β) (cap : Nat) : StructVectorBatch β :=
  { b with toColumnVectorBatch := b.toColumnVectorBatch.resize cap }

end StructVectorBatch

/-- State of `ListVectorBatch`: the base, `offsets` and the child `elements`. -/
structure ListVectorBatch (β : Type) extends ColumnVectorBatch where
  offsets : DataBuffer
  elements : Option β

namespace ListVectorBatch

/-- Constructor `ListVectorBatch::ListVectorBatch(cap, pool)`, lines 149-153;
`cap+1` is a `uint64_t` sum, and `elements` is left unset. -/
def construct {β : Type} (cap : Nat) (pool : MemoryPool) : ListVectorBatch β :=
  { toColumnVectorBatch := ColumnVectorBatch.construct cap pool
    offsets := DataBuffer.construct (pool.fresh 1) ((cap + 1) % UINT64_MOD)
    elements := none }

/-- Member `ListVectorBatch::resize(cap)`, lines 166-171. -/
def resize {β : Type} (b : ListVectorBatch β) (cap : Nat) : ListVectorBatch β :=
  if b.capacity < cap then
    { b with
      toColumnVectorBatch := b.toColumnVectorBatch.resize cap
      offsets := b.offsets.resize ((cap + 1) % UINT64_MOD) (b.memoryPool.fresh 1) }
  else b

end ListVectorBatch

/-- State of `MapVectorBatch`: the base, `offsets` and the children `keys` and
`elements`. -/
structure MapVectorBatch (β : Type) extends ColumnVectorBatch where
  offsets : DataBuffer
  keys : Option β
  elements : Option β

namespace MapVectorBatch

/-- Constructor `MapVectorBatch::MapVectorBatch(cap, pool)`, lines 173-177. -/
def construct {β : Type} (cap : Nat) (pool : MemoryPool) : MapVectorBatch β :=
  { toColumnVectorBatch := ColumnVectorBatch.construct cap pool
    offsets := DataBuffer.construct (pool.fresh 1) ((cap + 1) % UINT64_MOD)
    keys := none
    elements := none }

/-- Member `MapVectorBatch::resize(cap)`, lines 191-196. -/
def resize {β : Type} (b : MapVectorBatch β) (cap : Nat) : MapVectorBatch β :=
  if b.capacity < cap then
    { b with
      toColumnVectorBatch := b.toColumnVectorBatch.resize cap
      offsets := b.offsets.resize ((cap + 1) % UINT64_MOD) (b.memoryPool.fresh 1) }
  else b

end MapVectorBatch

/-- State of `UnionVectorBatch`: the base, `tags`, `offsets` and the vector
`children`. -/
structure UnionVectorBatch (β : Type) extends ColumnVectorBatch where
  tags : DataBuffer
  offsets : DataBuffer
  children : List β

namespace UnionVectorBatch

/-- Constructor `UnionVectorBatch::UnionVectorBatch(cap, pool)`, lines 198-203. -/
def construct {β : Type} (cap : Nat) (pool : MemoryPool) : UnionVectorBatch β :=
  { toColumnVectorBatch := ColumnVectorBatch.construct cap pool
    tags := DataBuffer.construct (pool.fresh 1) cap
    offsets := DataBuffer.construct (pool.fresh 2) cap
    children := [] }

/-- Member `UnionVectorBatch::resize(cap)`, lines 224-230. -/
def resize {β : Type} (b : UnionVectorBatch β) (cap : Nat) : UnionVectorBatch β :=
  if b.capacity < cap then
    { b with
      toColumnVectorBatch := b.toColumnVectorBatch.resize cap
      tags := b.tags.resize cap (b.memoryPool.fresh 1)
      offsets := b.offsets.resize cap (b.memoryPool.fresh 2) }
  else b

end UnionVectorBatch

/-! ## The family of concrete batches -/

/-- A batch of one of the nine concrete kinds; a composite holds batches of any
kind. `ColumnVectorBatch*` in the source is a value of this type. -/
inductive Batch where
  | long (b : LongVectorBatch)
  | double (b : DoubleVectorBatch)
  | string (b : StringVectorBatch)
  | struct (b : StructVectorBatch Batch)
  | list (b : ListVectorBatch Batch)
  | map (b : MapVectorBatch Batch)
  | union (b : UnionVectorBatch Batch)
  | decimal64 (b : Decimal64VectorBatch)
  | decimal128 (b : Decimal128VectorBatch)

/-- The nine concrete kinds. -/
inductive Kind where
  | long | double | string | struct | list | map | union | decimal64 | decimal128
  deriving DecidableEq, Repr

namespace Batch

/-- Dynamic type of a batch. -/
def kind : Batch → Kind
  | .long _ => .long
  | .double _ => .double
  | .string _ => .string
  | .struct _ => .struct
  | .list _ => .list
  | .map _ => .map
  | .union _ => .union
  | .decimal64 _ => .decimal64
  | .decimal128 _ => .decimal128

/-- The `ColumnVectorBatch` subobject of a batch. -/
def base : Batch → ColumnVectorBatch
  | .long b => b.toColumnVectorBatch
  | .double b => b.toColumnVectorBatch
  | .string b => b.toColumnVectorBatch
  | .struct b => b.toColumnVectorBatch
  | .list b => b.toColumnVectorBatch
  | .map b => b.toColumnVectorBatch
  | .union b => b.toColumnVectorBatch
  | .decimal64 b => b.toColumnVectorBatch
  | .decimal128 b => b.toColumnVectorBatch

/-- Member `capacity` of the base subobject. -/
def capacity (b : Batch) : Nat := b.base.capacity

/-- Member `numElements` of the base subobject. -/
def numElements (b : Batch) : Nat := b.base.numElements

/-- Member `hasNulls` of the base subobject. -/
def hasNulls (b : Batch) : Bool := b.base.hasNulls

/-- Member `notNull` of the base subobject. -/
def notNull (b : Batch) : DataBuffer := b.base.notNull

/-- The virtual call `batch->resize(cap)`: the `resize` of the dynamic type. -/
def resize : Batch → Nat → Batch
  | .long b, cap => .long (b.resize cap)
  | .double b, cap => .double (b.resize cap)
  | .string b, cap => .string (b.resize cap)
  | .struct b, cap => .struct (b.resize cap)
  | .list b, cap => .list (b.resize cap)
  | .map b, cap => .map (b.resize cap)
  | .union b, cap => .union (b.resize cap)
  | .decimal64 b, cap => .decimal64 (b.resize cap)
  | .decimal128 b, cap => .decimal128 (b.resize cap)

/-- Construction of a batch of the given kind with capacity `cap`: the
constructor of that class. -/
def construct : Kind → Nat → MemoryPool → Batch
  | .long, cap, pool => .long (LongVectorBatch.construct cap pool)
  | .double, cap, pool => .double (DoubleVectorBatch.construct cap pool)
  | .string, cap, pool => .string (StringVectorBatch.construct cap pool)
  | .struct, cap, pool => .struct (StructVectorBatch.construct cap pool)
  | .list, cap, pool => .list (ListVectorBatch.construct cap pool)
  | .map, cap, pool => .map (MapVectorBatch.construct cap pool)
  | .union, cap, pool => .union (UnionVectorBatch.construct cap pool)
  | .decimal64, cap, pool => .decimal64 (Decimal64VectorBatch.construct cap pool)
  | .decimal128, cap, pool => .decimal128 (Decimal128VectorBatch.construct cap pool)

/-- Child batches a composite refers to, in member order: the fields of a
struct, `elements` of a list, `keys` then `elements` of a map, the children of
a union. -/
def children : Batch → List Batch
  | .struct b => b.fields
  | .list b => b.elements.toList
  | .map b => b.keys.toList ++ b.elements.toList
  | .union b => b.children
  | _ => []

/-- Buffers a batch owns directly that its constructor allocates with `cap`
elements, in member order, `notNull` first. -/
def capacityBuffers : Batch → List DataBuffer
  | .long b => [b.notNull, b.data]
  | .double b => [b.notNull, b.data]
  | .string b => [b.notNull, b.data, b.length]
  | .struct b => [b.notNull]
  | .list b => [b.notNull]
  | .map b => [b.notNull]
  | .union b => [b.notNull, b.tags, b.offsets]
  | .decimal64 b => [b.notNull, b.values, b.readScales]
  | .decimal128 b => [b.notNull, b.values, b.readScales]

/-- Buffers a batch owns directly that its constructor allocates with `cap+1`
elements: `offsets` of a list and of a map. -/
def offsetsBuffers : Batch → List DataBuffer
  | .list b => [b.offsets]
  | .map b => [b.offsets]
  | _ => []

/-- Every buffer a batch owns directly. -/
def ownedBuffers (b : Batch) : List DataBuffer :=
  b.capacityBuffers ++ b.offsetsBuffers

/-- The directly owned buffers have the lengths the constructor of the kind
gives them for the current capacity. -/
def Sized (b : Batch) : Prop :=
  (∀ x ∈ b.capacityBuffers, x.size = b.capacity) ∧
    ∀ x ∈ b.offsetsBuffers, x.size = (b.capacity + 1) % UINT64_MOD

end Batch

/-- A state of a batch of some kind reached by constructing it with a
`uint64_t` capacity and then calling `resize` with `uint64_t` arguments. -/
inductive Reachable : Batch → Prop where
  | construct (k : Kind) (cap : Nat) (pool : MemoryPool) (h : cap < UINT64_MOD) :
      Reachable (Batch.construct k cap pool)
  | resize (b : Batch) (cap : Nat) (h : cap < UINT64_MOD) (hb : Reachable b) :
      Reachable (b.resize cap)

/-- A state of a bare `ColumnVectorBatch` reached by construction and `resize`
calls. -/
inductive ColumnVectorBatch.Reachable : ColumnVectorBatch → Prop where
  | construct (cap : Nat) (pool : MemoryPool) (h : cap < UINT64_MOD) :
      ColumnVectorBatch.Reachable (ColumnVectorBatch.construct cap pool)
  | resize (b : ColumnVectorBatch) (cap : Nat) (h : cap < UINT64_MOD)
      (hb : ColumnVectorBatch.Reachable b) : ColumnVectorBatch.Reachable (b.resize cap)

/-! ## Calls that can fail

The members above give the state a call leaves when every allocation it
requests is satisfied. The members below are the same code with the pool
allowed to refuse: a refused request raises the failure of spec §7, which no
batch operation catches, and the call yields no state. -/

/-- The resource-exhaustion condition of spec §7. -/
inductive ResourceError where
  | allocationFailure
  deriving DecidableEq, Repr

namespace DataBuffer

/-- Modelled from the spec: `DataBuffer::resize(newSize)` (absent) with the
pool allowed to refuse. Nothing is requested when `newSize` is at most the
current length; otherwise `newSize` elements are requested for the buffer in
position `slot`. -/
def tryResize (b : DataBuffer) (newSize : Nat) (pool : MemoryPool) (slot : Nat) :
    Except ResourceError DataBuffer :=
  if newSize ≤ b.size then .ok b
  else if pool.supplies slot newSize then .ok (b.resize newSize (pool.fresh slot))
  else .error .allocationFailure

/-- Modelled from the spec: the constructor `DataBuffer(pool, size)` (absent)
with the pool allowed to refuse. -/
def tryConstruct (pool : MemoryPool) (slot : Nat) (size : Nat) : Except ResourceError DataBuffer :=
  tryResize ⟨[]⟩ size pool slot

end DataBuffer

namespace ColumnVectorBatch

/-- Constructor `ColumnVectorBatch::ColumnVectorBatch(cap, pool)`, lines 29-37,
with the pool allowed to refuse. -/
def tryConstruct (cap : Nat) (pool : MemoryPool) : Except ResourceError ColumnVectorBatch := do
  let notNull ← DataBuffer.tryConstruct pool 0 cap
  pure { capacity := cap, numElements := 0, notNull := notNull, hasNulls := false,
         memoryPool := pool }

/-- Member `ColumnVectorBatch::resize(cap)`, lines 43-48, with the pool allowed
to refuse. -/
def tryResize (b : ColumnVectorBatch) (cap : Nat) : Except ResourceError ColumnVectorBatch :=
  if b.capacity < cap then do
    let notNull ← b.notNull.tryResize cap b.memoryPool 0
    pure { b with capacity := cap, notNull := notNull }
  else pure b

end ColumnVectorBatch

namespace LongVectorBatch

/-- Constructor `LongVectorBatch::LongVectorBatch(capacity, pool)`, lines 50-54,
with the pool allowed to refuse. -/
def tryConstruct (capacity : Nat) (pool : MemoryPool) : Except ResourceError LongVectorBatch := do
  let base ← ColumnVectorBatch.tryConstruct capacity pool
  let data ← DataBuffer.tryConstruct pool 1 capacity
  pure { toColumnVectorBatch := base, data := data }

/-- Member `LongVectorBatch::resize(cap)`, lines 66-71, with the pool allowed to
refuse. -/
def tryResize (b : LongVectorBatch) (cap : Nat) : Except ResourceError LongVectorBatch :=
  if b.capacity < cap then do
    let base ← b.toColumnVectorBatch.tryResize cap
    let data ← b.data.tryResize cap b.memoryPool 1
    pure { toColumnVectorBatch := base, data := data }
  else pure b

end LongVectorBatch

namespace DoubleVectorBatch

/-- Constructor `DoubleVectorBatch::DoubleVectorBatch(capacity, pool)`, lines
73-77, with the pool allowed to refuse. -/
def tryConstruct (capacity : Nat) (pool : MemoryPool) :
    Except ResourceError DoubleVectorBatch := do
  let base ← ColumnVectorBatch.tryConstruct capacity pool
  let data ← DataBuffer.tryConstruct pool 1 capacity
  pure { toColumnVectorBatch := base, data := data }

/-- Member `DoubleVectorBatch::resize(cap)`, lines 89-94, with the pool allowed
to refuse. -/
def tryResize (b : DoubleVectorBatch) (cap : Nat) : Except ResourceError DoubleVectorBatch :=
  if b.capacity < cap then do
    let base ← b.toColumnVectorBatch.tryResize cap
    let data ← b.data.tryResize cap b.memoryPool 1
    pure { toColumnVectorBatch := base, data := data }
  else pure b

end DoubleVectorBatch

namespace StringVectorBatch

/-- Constructor `StringVectorBatch::StringVectorBatch(capacity, pool)`, lines
96-101, with the pool allowed to refuse. -/
def tryConstruct (capacity : Nat) (pool : MemoryPool) :
    Except ResourceError StringVectorBatch := do
  let base ← ColumnVectorBatch.tryConstruct capacity pool
  let data ← DataBuffer.tryConstruct pool 1 capacity
  let length ← DataBuffer.tryConstruct pool 2 capacity
  pure { toColumnVectorBatch := base, data := data, length := length }

/-- Member `StringVectorBatch::resize(cap)`, lines 113-119, with the pool
allowed to refuse. -/
def tryResize (b : StringVectorBatch) (cap : Nat) : Except ResourceError StringVectorBatch :=
  if b.capacity < cap then do
    let base ← b.toColumnVectorBatch.tryResize cap
    let data ← b.data.tryResize cap b.memoryPool 1
    let length ← b.length.tryResize cap b.memoryPool 2
    pure { toColumnVectorBatch := base, data := data, length := length }
  else pure b

end StringVectorBatch

namespace Decimal64VectorBatch

/-- Constructor `Decimal64VectorBatch::Decimal64VectorBatch(cap, pool)`, lines
232-237, with the pool allowed to refuse. -/
def tryConstruct (cap : Nat) (pool : MemoryPool) :
    Except ResourceError Decimal64VectorBatch := do
  let base ← ColumnVectorBatch.tryConstruct cap pool
  let values ← DataBuffer.tryConstruct pool 1 cap
  let readScales ← DataBuffer.tryConstruct pool 2 cap
  pure { toColumnVectorBatch := base, values := values, readScales := readScales }

/-- Member `Decimal64VectorBatch::resize(cap)`, lines 250-256, with the pool
allowed to refuse. -/
def tryResize (b : Decimal64VectorBatch) (cap : Nat) :
    Except ResourceError Decimal64VectorBatch :=
  if b.capacity < cap then do
    let base ← b.toColumnVectorBatch.tryResize cap
    let values ← b.values.tryResize cap b.memoryPool 1
    let readScales ← b.readScales.tryResize cap b.memoryPool 2
    pure { toColumnVectorBatch := base, values := values, readScales := readScales }
  else pure b

end Decimal64VectorBatch

namespace Decimal128VectorBatch

/-- Constructor `Decimal128VectorBatch::Decimal128VectorBatch(cap, pool)`, lines
258-263, with the pool allowed to refuse. -/
def tryConstruct (cap : Nat) (pool : MemoryPool) :
    Except ResourceError Decimal128VectorBatch := do
  let base ← ColumnVectorBatch.tryConstruct cap pool
  let values ← DataBuffer.tryConstruct pool 1 cap
  let readScales ← DataBuffer.tryConstruct pool 2 cap
  pure { toColumnVectorBatch := base, values := values, readScales := readScales }

/-- Member `Decimal128VectorBatch::resize(cap)`, lines 276-282, with the pool
allowed to refuse. -/
def tryResize (b : Decimal128VectorBatch) (cap : Nat) :
    Except ResourceError Decimal128VectorBatch :=
  if b.capacity < cap then do
    let base ← b.toColumnVectorBatch.tryResize cap
    let values ← b.values.tryResize cap b.memoryPool 1
    let readScales ← b.readScales.tryResize cap b.memoryPool 2
    pure { toColumnVectorBatch := base, values := values, readScales := readScales }
  else pure b

end Decimal128VectorBatch

namespace StructVectorBatch

/-- Constructor `StructVectorBatch::StructVectorBatch(cap, pool)`, lines
121-124, with the pool allowed to refuse. -/
def tryConstruct {β : Type} (cap : Nat) (pool : MemoryPool) :
    Except ResourceError (StructVectorBatch β) := do
  let base ← ColumnVectorBatch.tryConstruct cap pool
  pure { toColumnVectorBatch := base, fields := [] }

/-- Member `StructVectorBatch::resize(cap)`, lines 145-147, with the pool
allowed to refuse. -/
def tryResize {β : Type} (b : StructVectorBatch β) (cap : Nat) :
    Except ResourceError (StructVectorBatch β) := do
  let base ← b.toColumnVectorBatch.tryResize cap
  pure { b with toColumnVectorBatch := base }

end StructVectorBatch

namespace ListVectorBatch

/-- Constructor `ListVectorBatch::ListVectorBatch(cap, pool)`, lines 149-153,
with the pool allowed to refuse. -/
def tryConstruct {β : Type} (cap : Nat) (pool : MemoryPool) :
    Except ResourceError (ListVectorBatch β) := do
  let base ← ColumnVectorBatch.tryConstruct cap pool
  let offsets ← DataBuffer.tryConstruct pool 1 ((cap + 1) % UINT64_MOD)
  pure { toColumnVectorBatch := base, offsets := offsets, elements := none }

/-- Member `ListVectorBatch::resize(cap)`, lines 166-171, with the pool allowed
to refuse. -/
def tryResize {β : Type} (b : ListVectorBatch β) (cap : Nat) :
    Except ResourceError (ListVectorBatch β) :=
  if b.capacity < cap then do
    let base ← b.toColumnVectorBatch.tryResize cap
    let offsets ← b.offsets.tryResize ((cap + 1) % UINT64_MOD) b.memoryPool 1
    pure { b with toColumnVectorBatch := base, offsets := offsets }
  else pure b

end ListVectorBatch

namespace MapVectorBatch

/-- Constructor `MapVectorBatch::MapVectorBatch(cap, pool)`, lines 173-177, with
the pool allowed to refuse. -/
def tryConstruct {β : Type} (cap : Nat) (pool : MemoryPool) :
    Except ResourceError (MapVectorBatch β) := do
  let base ← ColumnVectorBatch.tryConstruct cap pool
  let offsets ← DataBuffer.tryConstruct pool 1 ((cap + 1) % UINT64_MOD)
  pure { toColumnVectorBatch := base, offsets := offsets, keys := none, elements := none }

/-- Member `MapVectorBatch::resize(cap)`, lines 191-196, with the pool allowed
to refuse. -/
def tryResize {β : Type} (b : MapVectorBatch β) (cap : Nat) :
    Except ResourceError (MapVectorBatch β) :=
  if b.capacity < cap then do
    let base ← b.toColumnVectorBatch.tryResize cap
    let offsets ← b.offsets.tryResize ((cap + 1) % UINT64_MOD) b.memoryPool 1
    pure { b with toColumnVectorBatch := base, offsets := offsets }
  else pure b

end MapVectorBatch

namespace UnionVectorBatch

/-- Constructor `UnionVectorBatch::UnionVectorBatch(cap, pool)`, lines 198-203,
with the pool allowed to refuse. -/
def tryConstruct {β : Type} (cap : Nat) (pool : MemoryPool) :
    Except ResourceError (UnionVectorBatch β) := do
  let base ← ColumnVectorBatch.tryConstruct cap pool
  let tags ← DataBuffer.tryConstruct pool 1 cap
  let offsets ← DataBuffer.tryConstruct pool 2 cap
  pure { toColumnVectorBatch := base, tags := tags, offsets := offsets, children := [] }

/-- Member `UnionVectorBatch::resize(cap)`, lines 224-230, with the pool allowed
to refuse. -/
def tryResize {β : Type} (b : UnionVectorBatch β) (cap : Nat) :
    Except ResourceError (UnionVectorBatch β) :=
  if b.capacity < cap then do
    let base ← b.toColumnVectorBatch.tryResize cap
    let tags ← b.tags.tryResize cap b.memoryPool 1
    let offsets ← b.offsets.tryResize cap b.memoryPool 2
    pure { b with toColumnVectorBatch := base, tags := tags, offsets := offsets }
  else pure b

end UnionVectorBatch

namespace Batch

/-- The virtual call `batch->resize(cap)` with the pool allowed to refuse. -/
def tryResize : Batch → Nat → Except ResourceError Batch
  | .long b, cap => (b.tryResize cap).map .long
  | .double b, cap => (b.tryResize cap).map .double
  | .string b, cap => (b.tryResize cap).map .string
  | .struct b, cap => (b.tryResize cap).map .struct
  | .list b, cap => (b.tryResize cap).map .list
  | .map b, cap => (b.tryResize cap).map .map
  | .union b, cap => (b.tryResize cap).map .union
  | .decimal64 b, cap => (b.tryResize cap).map .decimal64
  | .decimal128 b, cap => (b.tryResize cap).map .decimal128

/-- Construction of a batch of the given kind with the pool allowed to
refuse. -/
def tryConstruct : Kind → Nat → MemoryPool → Except ResourceError Batch
  | .long, cap, pool => (LongVectorBatch.tryConstruct cap pool).map .long
  | .double, cap, pool => (DoubleVectorBatch.tryConstruct cap pool).map .double
  | .string, cap, pool => (StringVectorBatch.tryConstruct cap pool).map .string
  | .struct, cap, pool => (StructVectorBatch.tryConstruct cap pool).map .struct
  | .list, cap, pool => (ListVectorBatch.tryConstruct cap pool).map .list
  | .map, cap, pool => (MapVectorBatch.tryConstruct cap pool).map .map
  | .union, cap, pool => (UnionVectorBatch.tryConstruct cap pool).map .union
  | .decimal64, cap, pool => (Decimal64VectorBatch.tryConstruct cap pool).map .decimal64
  | .decimal128, cap, pool => (Decimal128VectorBatch.tryConstruct cap pool).map .decimal128

end Batch

/-- A state of a batch in a run of the program: it was constructed with a
`uint64_t` capacity by a constructor call that returned, and every later
`resize` call, with a `uint64_t` argument, returned as well. -/
inductive Attained : Batch → Prop where
  | construct (k : Kind) (cap : Nat) (pool : MemoryPool) (b : Batch) (h : cap < UINT64_MOD)
      (hb : Batch.tryConstruct k cap pool = .ok b) : Attained b
  | resize (b : Batch) (cap : Nat) (b' : Batch) (h : cap < UINT64_MOD) (hb : Attained b)
      (hr : b.tryResize cap = .ok b') : Attained b'

/-! ## Decimal literals -/

/-- The call `str.find(".")` of `std::string`: the index of the first
occurrence of the character, `none` for `npos`. -/
def find : List Char → Char → Option Nat
  | [], _ => none
  | x :: xs, c => if x = c then some 0 else (find xs c).map (· + 1)

/-- The call `copy.replace(pos, 1, "")` of `std::string`: the string without
the character at index `pos`. -/
def replace1 (copy : List Char) (pos : Nat) : List Char :=
  copy.eraseIdx pos

/-- The failure of a conversion from text, spec §7. -/
inductive ParseError where
  | invalidNumericLiteral
  deriving DecidableEq, Repr

namespace Int128

/-- Modelled from the spec: reading of an unsigned run of decimal digits
(`Int128.cc` is not part of the sources). The result is `none` when a character
is not a decimal digit. -/
def digits (acc : Nat) : List Char → Option Nat
  | [] => some acc
  | c :: cs =>
    if 48 ≤ c.toNat ∧ c.toNat ≤ 57 then digits (acc * 10 + (c.toNat - 48)) cs else none

/-- Modelled from the spec: reading of a non-empty run of decimal digits. -/
def magnitude (str : List Char) : Except ParseError Nat :=
  match str with
  | [] => .error .invalidNumericLiteral
  | c :: cs =>
    match digits 0 (c :: cs) with
    | some n => .ok n
    | none => .error .invalidNumericLiteral

/-- Modelled from the spec: the constructor `Int128(const std::string&)`
(`Int128.cc` is not part of the sources). Spec §4.7 and §7: the text is parsed
as a signed integer literal, an optional `-` followed by one or more decimal
digits, and anything else fails with the invalid-numeric-literal condition;
spec §3 makes the value an integer of arbitrary precision. -/
def construct (str : List Char) : Except ParseError Int :=
  match str with
  | '-' :: rest => (magnitude rest).map fun n => -(n : Int)
  | _ => (magnitude str).map fun n => (n : Int)

end Int128

/-- State of `Decimal`: the members `value` (an `Int128`) and `scale` (an
`int32_t`). -/
structure Decimal where
  value : Int
  scale : Int
  deriving DecidableEq, Repr

namespace Decimal

/-- Constructor `Decimal::Decimal(const std::string& str)`, lines 289-300. It
yields the constructed value, or the failure raised by `Int128(...)`. -/
def construct (str : List Char) : Except ParseError Decimal :=
  match find str '.' with
  | none =>
    (Int128.construct str).map fun value => { value := value, scale := 0 }
  | some foundPoint =>
    let scale := toInt32 (str.length - foundPoint)
    (Int128.construct (replace1 str foundPoint)).map fun value =>
      { value := value, scale := scale }

end Decimal

/-! ## Text output -/

/-- The character of a decimal digit `d < 10`. -/
def digitChar (d : Nat) : Char := Char.ofNat (d + 48)

/-- Decimal digits of `n`, most significant first; `fuel` bounds the number of
digits produced and `n + 1` is always enough. -/
def decimalDigits : Nat → Nat → List Char
  | 0, _ => []
  | fuel + 1, n =>
    if n < 10 then [digitChar n] else decimalDigits fuel (n / 10) ++ [digitChar (n % 10)]

/-- The text `buffer << n` appends to a stream for an unsigned integer `n`: its
decimal rendering. -/
def natToString (n : Nat) : List Char := decimalDigits (n + 1) n

/-- Modelled from the spec: the declaration of the members `elements` and
`keys` of the list and map batches (`Vector.hh`, absent). Spec §3 and §9: they
are references to externally managed children and never imply ownership, so
destroying such a member releases nothing. The vectors `fields` and `children`
hold plain pointers (lines 128, 136, 207), whose destruction releases nothing
either. -/
def releaseAttachedReference {β : Type} (_p : Option β) : List β := []

namespace LongVectorBatch

/-- Member `LongVectorBatch::toString()`, lines 60-64. -/
def toString (b : LongVectorBatch) : List Char :=
  "Long vector <".toList ++ natToString b.numElements ++ " of ".toList ++
    natToString b.capacity ++ ">".toList

end LongVectorBatch

namespace DoubleVectorBatch

/-- Member `DoubleVectorBatch::toString()`, lines 83-87. -/
def toString (b : DoubleVectorBatch) : List Char :=
  "Double vector <".toList ++ natToString b.numElements ++ " of ".toList ++
    natToString b.capacity ++ ">".toList

end DoubleVectorBatch

namespace StringVectorBatch

/-- Member `StringVectorBatch::toString()`, lines 107-111. -/
def toString (b : StringVectorBatch) : List Char :=
  "Byte vector <".toList ++ natToString b.numElements ++ " of ".toList ++
    natToString b.capacity ++ ">".toList

end StringVectorBatch

namespace Decimal64VectorBatch

/-- Member `Decimal64VectorBatch::toString()`, lines 243-248. -/
def toString (b : Decimal64VectorBatch) : List Char :=
  "Decimal64 vector  with ".toList ++ natToString b.numElements ++ " of ".toList ++
    natToString b.capacity ++ ">".toList

end Decimal64VectorBatch

namespace Decimal128VectorBatch

/-- Member `Decimal128VectorBatch::toString()`, lines 269-274. -/
def toString (b : Decimal128VectorBatch) : List Char :=
  "Decimal128 vector  with ".toList ++ natToString b.numElements ++ " of ".toList ++
    natToString b.capacity ++ ">".toList

end Decimal128VectorBatch

namespace StructVectorBatch

/-- The loop of `StructVectorBatch::toString()`, lines 136-139, over the texts
the fields return, in iteration order: each is appended with `"; "` after it. -/
def toStringLoop (buffer : List Char) : List (List Char) → List Char
  | [] => buffer
  | s :: rest => toStringLoop (buffer ++ s ++ "; ".toList) rest

/-- Member `StructVectorBatch::toString()`, lines 132-142; `fieldStrings` are
the results of `(*ptr)->toString()` for the fields, in field order. -/
def toString {β : Type} (b : StructVectorBatch β) (fieldStrings : List (List Char)) :
    List Char :=
  toStringLoop
    ("Struct vector <".toList ++ natToString b.numElements ++ " of ".toList ++
      natToString b.capacity ++ "; ".toList)
    fieldStrings ++ ">".toList

/-- Destructor `StructVectorBatch::~StructVectorBatch()`, lines 126-130: the
pointers passed to `delete`, in execution order, for `i` from 0 to
`fields.size() - 1`. -/
def destructor {β : Type} (b : StructVectorBatch β) : List β :=
  (List.range b.fields.length).filterMap fun i => b.fields[i]?

end StructVectorBatch

namespace ListVectorBatch

/-- Member `ListVectorBatch::toString()`, lines 159-164; `elementsString` is the
result of `elements->toString()`. -/
def toString {β : Type} (b : ListVectorBatch β) (elementsString : List Char) : List Char :=
  "List vector <".toList ++ elementsString ++ " with ".toList ++
    natToString b.numElements ++ " of ".toList ++ natToString b.capacity ++ ">".toList

/-- Destructor `ListVectorBatch::~ListVectorBatch()`, lines 155-157: the
pointers released, in order. The body deletes nothing; then the member
`elements` is destroyed. -/
def destructor {β : Type} (b : ListVectorBatch β) : List β :=
  [] ++ releaseAttachedReference b.elements

end ListVectorBatch

namespace MapVectorBatch

/-- Member `MapVectorBatch::toString()`, lines 183-189; the arguments are the
results of `keys->toString()` and `elements->toString()`. -/
def toString {β : Type} (b : MapVectorBatch β) (keysString elementsString : List Char) :
    List Char :=
  "Map vector <".toList ++ keysString ++ ", ".toList ++ elementsString ++ " with ".toList ++
    natToString b.numElements ++ " of ".toList ++ natToString b.capacity ++ ">".toList

/-- Destructor `MapVectorBatch::~MapVectorBatch()`, lines 179-181: the
pointers released, in order. The body deletes nothing; then the members
`elements` and `keys` are destroyed, in reverse order of declaration. -/
def destructor {β : Type} (b : MapVectorBatch β) : List β :=
  [] ++ releaseAttachedReference b.elements ++ releaseAttachedReference b.keys

end MapVectorBatch

namespace UnionVectorBatch

/-- The loop of `UnionVectorBatch::toString()`, lines 214-219, over the texts
the children return: before every child but the one at index 0 comes `", "`. -/
def toStringLoop (buffer : List Char) (i : Nat) : List (List Char) → List Char
  | [] => buffer
  | s :: rest =>
    toStringLoop ((if i ≠ 0 then buffer ++ ", ".toList else buffer) ++ s) (i + 1) rest

/-- Member `UnionVectorBatch::toString()`, lines 211-222; `childStrings` are the
results of `children[i]->toString()`, in index order. -/
def toString {β : Type} (b : UnionVectorBatch β) (childStrings : List (List Char)) :
    List Char :=
  toStringLoop "Union vector <".toList 0 childStrings ++ "; with ".toList ++
    natToString b.numElements ++ " of ".toList ++ natToString b.capacity ++ ">".toList

/-- Destructor `UnionVectorBatch::~UnionVectorBatch()`, lines 205-209: the
pointers passed to `delete`, in execution order, for `i` from 0 to
`children.size() - 1`. -/
def destructor {β : Type} (b : UnionVectorBatch β) : List β :=
  (List.range b.children.length).filterMap fun i => b.children[i]?

end UnionVectorBatch

mutual
/-- The virtual call `batch->toString()`. The result is `none` when the call
reaches a list or map batch whose `elements` or `keys` pointer is unset, which
the source dereferences without a check. -/
def Batch.toString : Batch → Option (List Char)
  | .long b => some b.toString
  | .double b => some b.toString
  | .string b => some b.toString
  | .struct ⟨base, fields⟩ =>
    match Batch.toStrings fields with
    | some strs => some (StructVectorBatch.toString (⟨base, fields⟩ : StructVectorBatch Batch) strs)
    | none => none
  | .list ⟨base, offsets, elements⟩ =>
    match elements with
    | some e =>
      match e.toString with
      | some s =>
        some (ListVectorBatch.toString (⟨base, offsets, elements⟩ : ListVectorBatch Batch) s)
      | none => none
    | none => none
  | .map ⟨base, offsets, keys, elements⟩ =>
    match keys, elements with
    | some k, some e =>
      match k.toString, e.toString with
      | some sk, some se =>
        some (MapVectorBatch.toString (⟨base, offsets, keys, elements⟩ : MapVectorBatch Batch)
          sk se)
      | _, _ => none
    | _, _ => none
  | .union ⟨base, tags, offsets, children⟩ =>
    match Batch.toStrings children with
    | some strs =>
      some (UnionVectorBatch.toString (⟨base, tags, offsets, children⟩ : UnionVectorBatch Batch)
        strs)
    | none => none
  | .decimal64 b => some b.toString
  | .decimal128 b => some b.toString
/-- The calls `toString()` on each batch of a vector of batches, in order. -/
def Batch.toStrings : List Batch → Option (List (List Char))
  | [] => some []
  | x :: xs =>
    match x.toString, Batch.toStrings xs with
    | some s, some ss => some (s :: ss)
    | _, _ => none
end

mutual
/-- Every `elements` and `keys` pointer in the batch and below it is set. -/
def Batch.attached : Batch → Bool
  | .struct ⟨_, fields⟩ => Batch.allAttached fields
  | .list ⟨_, _, some e⟩ => e.attached
  | .list ⟨_, _, none⟩ => false
  | .map ⟨_, _, some k, some e⟩ => k.attached && e.attached
  | .map ⟨_, _, _, _⟩ => false
  | .union ⟨_, _, _, children⟩ => Batch.allAttached children
  | _ => true
/-- Every batch of the vector is `attached`. -/
def Batch.allAttached : List Batch → Bool
  | [] => true
  | x :: xs => x.attached && Batch.allAttached xs
end

/-- The kind labels of spec §6. -/
def Kind.label : Kind → List Char
  | .long => "Long vector".toList
  | .double => "Double vector".toList
  | .string => "Byte vector".toList
  | .struct => "Struct vector".toList
  | .list => "List vector".toList
  | .map => "Map vector".toList
  | .union => "Union vector".toList
  | .decimal64 => "Decimal64 vector".toList
  | .decimal128 => "Decimal128 vector".toList

namespace Int128

/-- Modelled from the spec: `Int128::toString()` (`Int128.cc` is not part of the
sources), the decimal-string renderer of the integer: a `-` for a negative
value, then the decimal digits of the magnitude. -/
def toString (value : Int) : List Char :=
  if value < 0 then '-' :: natToString value.natAbs else natToString value.natAbs

/-- Modelled from the spec: `Int128::toDecimalString(scale)` (`Int128.cc` is not
part of the sources). Spec §4.7: the value is rendered with the decimal point
reinserted `scale` digits from the right. The digits of the magnitude are
padded with zeros on the left until one digit stands before the point. Spec §3
makes the scale non-negative; for a scale that is not positive the integer is
rendered alone. -/
def toDecimalString (value : Int) (scale : Int) : List Char :=
  if scale ≤ 0 then toString value
  else
    let ds := natToString value.natAbs
    let padded := List.replicate (scale.toNat + 1 - ds.length) '0' ++ ds
    let body := padded.take (padded.length - scale.toNat) ++
      '.' :: padded.drop (padded.length - scale.toNat)
    if value < 0 then '-' :: body else body

end Int128

namespace Decimal

/-- Member `Decimal::toString()`, lines 302-304. -/
def toString (d : Decimal) : List Char :=
  Int128.toDecimalString d.value d.scale

/-- The rational number a decimal denotes: `value / 10 ^ scale` (spec §3, the
scale is the number of digits the decimal point is shifted left). -/
def toRat (d : Decimal) : ℚ :=
  (d.value : ℚ) / (10 : ℚ) ^ d.scale

end Decimal

/-- A signed integer literal: an optional `-`, then one or more decimal
digits. -/
def isSignedIntegerLiteral : List Char → Bool
  | '-' :: ds => !ds.isEmpty && ds.all Char.isDigit
  | ds => !ds.isEmpty && ds.all Char.isDigit

/-- A canonical signed integer literal: `0`, or an optional `-` followed by a
digit other than `0` and any further digits. Neither `-0` nor `007` is
canonical. -/
def isCanonicalLiteral : List Char → Bool
  | ['0'] => true
  | '-' :: d :: ds => d.isDigit && d != '0' && ds.all Char.isDigit
  | d :: ds => d.isDigit && d != '0' && ds.all Char.isDigit
  | [] => false

/-- A pool whose storage reads as zero everywhere and that satisfies requests
for up to 1000 elements, for concrete instances. -/
def zeroPool : MemoryPool :=
  { fresh := fun _ _ => 0
    supplies := fun _ n => decide (n ≤ 1000)
    bounded := fun _ n h => by
      have h' : n ≤ 1000 := of_decide_eq_true h
      unfold UINT64_MOD
      omega }

/-- A long batch of capacity 2 with both rows filled by the caller. -/
def sampleLong : Batch :=
  .long { LongVectorBatch.construct 2 zeroPool with numElements := 2 }

/-- A union batch of capacity 4 with one child, a row count and a null flag set
by the caller. -/
def sampleUnion : Batch :=
  .union { (UnionVectorBatch.construct 4 zeroPool : UnionVectorBatch Batch) with
    numElements := 2, hasNulls := true, children := [sampleLong] }

/-- A list batch constructed with capacity 1, then resized to 3 and to 2. -/
def sampleList : ListVectorBatch Batch :=
  ((ListVectorBatch.construct 1 zeroPool).resize 3).resize 2

/-- A double batch of capacity 4 with one row filled by the caller. -/
def sampleDouble : Batch :=
  .double { DoubleVectorBatch.construct 4 zeroPool with numElements := 1 }

/-- A struct batch of capacity 3 with two rows and two scalar fields. -/
def sampleStruct : StructVectorBatch Batch :=
  { (StructVectorBatch.construct 3 zeroPool : StructVectorBatch Batch) with
    numElements := 2, fields := [sampleLong, sampleDouble] }

/-- A list batch of three rows with offsets `[0, 2, 2, 5]` over a long batch
of five elements. -/
def sampleListRows : ListVectorBatch Batch :=
  { toColumnVectorBatch := { ColumnVectorBatch.construct 3 zeroPool with numElements := 3 }
    offsets := ⟨[0, 2, 2, 5]⟩
    elements := some (.long { LongVectorBatch.construct 5 zeroPool with numElements := 5 }) }

theorem DataBuffer_resize_of_le (b : DataBuffer) (n : Nat) (f : Nat → Cell)
    (h : n ≤ b.size) : b.resize n f = b := by
  simp [DataBuffer.resize, h]

theorem DataBuffer_size_resize (b : DataBuffer) (n : Nat) (f : Nat → Cell) :
    (b.resize n f).size = max b.size n := by
  unfold DataBuffer.resize
  split
  · next h => simp [Nat.max_eq_left h]
  · next h =>
    simp only [DataBuffer.size, List.length_append, List.length_map, List.length_range'] at h ⊢
    omega

theorem DataBuffer_size_resize_of_le (b : DataBuffer) (n : Nat) (f : Nat → Cell)
    (h : b.size ≤ n) : (b.resize n f).size = n := by
  rw [DataBuffer_size_resize]; exact Nat.max_eq_right h

theorem DataBuffer_size_construct (f : Nat → Cell) (n : Nat) :
    (DataBuffer.construct f n).size = n := by
  unfold DataBuffer.construct
  rw [DataBuffer_size_resize]
  simp [DataBuffer.size]

theorem DataBuffer_getElem?_resize (b : DataBuffer) (n : Nat) (f : Nat → Cell) (i : Nat)
    (h : i < b.size) : (b.resize n f).buf[i]? = b.buf[i]? := by
  unfold DataBuffer.resize
  split
  · rfl
  · exact List.getElem?_append_left h

/-! ## Facts about the base `resize` -/

theorem ColumnVectorBatch_resize_of_le (b : ColumnVectorBatch) (c : Nat)
    (h : c ≤ b.capacity) : b.resize c = b := by
  simp [ColumnVectorBatch.resize, Nat.not_lt.mpr h]

theorem ColumnVectorBatch_capacity_resize (b : ColumnVectorBatch) (c : Nat) :
    (b.resize c).capacity = max b.capacity c := by
  unfold ColumnVectorBatch.resize
  split
  · next h => simp [Nat.max_eq_right (Nat.le_of_lt h)]
  · next h => simp [Nat.max_eq_left (Nat.not_lt.mp h)]

theorem ColumnVectorBatch_resize_of_lt (b : ColumnVectorBatch) (c : Nat)
    (h : b.capacity < c) :
    b.resize c =
      { b with capacity := c, notNull := b.notNull.resize c (b.memoryPool.fresh 0) } := by
  simp [ColumnVectorBatch.resize, h]

/-! ## Facts about the dispatching `resize` -/

theorem Batch_resize_of_le (b : Batch) (c : Nat) (h : c ≤ b.capacity) : b.resize c = b := by
  have h' : ¬ b.capacity < c := Nat.not_lt.mpr h
  cases b <;>
    simp only [Batch.capacity, Batch.base] at h' <;>
    simp [Batch.resize, LongVectorBatch.resize, DoubleVectorBatch.resize,
      StringVectorBatch.resize, StructVectorBatch.resize, ListVectorBatch.resize,
      MapVectorBatch.resize, UnionVectorBatch.resize, Decimal64VectorBatch.resize,
      Decimal128VectorBatch.resize, h', ColumnVectorBatch.resize]

theorem Batch_base_resize (b : Batch) (c : Nat) : (b.resize c).base = b.base.resize c := by
  by_cases h : b.capacity < c
  · cases b <;>
      simp only [Batch.capacity, Batch.base] at h <;>
      simp [Batch.resize, Batch.base, LongVectorBatch.resize, DoubleVectorBatch.resize,
        StringVectorBatch.resize, StructVectorBatch.resize, ListVectorBatch.resize,
        MapVectorBatch.resize, UnionVectorBatch.resize, Decimal64VectorBatch.resize,
        Decimal128VectorBatch.resize, h]
  · rw [Batch_resize_of_le b c (Nat.not_lt.mp h),
      ColumnVectorBatch_resize_of_le _ c (Nat.not_lt.mp h)]

theorem Batch_capacity_resize (b : Batch) (c : Nat) :
    (b.resize c).capacity = max b.capacity c := by
  unfold Batch.capacity
  rw [Batch_base_resize, ColumnVectorBatch_capacity_resize]

theorem Batch_capacity_le_foldl_resize (cs : List Nat) (b : Batch) :
    b.capacity ≤ (cs.foldl Batch.resize b).capacity := by
  induction cs generalizing b with
  | nil => exact Nat.le_refl _
  | cons c cs ih =>
    refine Nat.le_trans ?_ (ih (b.resize c))
    rw [Batch_capacity_resize]
    exact Nat.le_max_left _ _

theorem ColumnVectorBatch_capacity_le_foldl_resize (cs : List Nat) (b : ColumnVectorBatch) :
    b.capacity ≤ (cs.foldl ColumnVectorBatch.resize b).capacity := by
  induction cs generalizing b with
  | nil => exact Nat.le_refl _
  | cons c cs ih =>
    refine Nat.le_trans ?_ (ih (b.resize c))
    rw [ColumnVectorBatch_capacity_resize]
    exact Nat.le_max_left _ _

/-! ## Capacity is monotone (C1) -/

/-- C1. For the base batch and for every concrete kind, in every state and for
every requested capacity `c`, the capacity after `resize(c)` is the maximum of
the capacity before and `c`; hence `resize` never decreases the capacity, and
along any sequence of `resize` calls the capacity after a longer run of the
sequence is at least the capacity after a shorter run. -/
theorem resize_capacity_eq_max :
    (∀ (b : ColumnVectorBatch) (c : Nat), (b.resize c).capacity = max b.capacity c) ∧
    (∀ (b : Batch) (c : Nat), (b.resize c).capacity = max b.capacity c) ∧
    (∀ (b : ColumnVectorBatch) (c : Nat), b.capacity ≤ (b.resize c).capacity) ∧
    (∀ (b : Batch) (c : Nat), b.capacity ≤ (b.resize c).capacity) ∧
    (∀ (b : ColumnVectorBatch) (cs ds : List Nat),
      (cs.foldl ColumnVectorBatch.resize b).capacity ≤
        ((cs ++ ds).foldl ColumnVectorBatch.resize b).capacity) ∧
    (∀ (b : Batch) (cs ds : List Nat),
      (cs.foldl Batch.resize b).capacity ≤ ((cs ++ ds).foldl Batch.resize b).capacity) := by
  refine ⟨ColumnVectorBatch_capacity_resize, Batch_capacity_resize, ?_, ?_, ?_, ?_⟩
  · intro b c
    rw [ColumnVectorBatch_capacity_resize]
    exact Nat.le_max_left _ _
  · intro b c
    rw [Batch_capacity_resize]
    exact Nat.le_max_left _ _
  · intro b cs ds
    rw [List.foldl_append]
    exact ColumnVectorBatch_capacity_le_foldl_resize ds _
  · intro b cs ds
    rw [List.foldl_append]
    exact Batch_capacity_le_foldl_resize ds _

/-! ## A request that does not exceed the capacity changes nothing (C2) -/

/-- C2. For the base batch and for every concrete kind, `resize(c)` with `c` at
most the current capacity returns the state it was given, equal in every
component: capacity, numElements, hasNulls, every buffer with its length and
contents, the pool and the child batches. The call is a total function of the
state, so nothing is raised. -/
theorem resize_le_capacity_noop :
    (∀ (b : ColumnVectorBatch) (c : Nat), c ≤ b.capacity → b.resize c = b) ∧
    (∀ (b : Batch) (c : Nat), c ≤ b.capacity → b.resize c = b) :=
  ⟨ColumnVectorBatch_resize_of_le, Batch_resize_of_le⟩

/-- Instance of C2: the sample union batch of capacity 4 resized to 3, and a
bare base batch of capacity 4 resized to 4. -/
theorem resize_le_capacity_noop_witness :
    sampleUnion.resize 3 = sampleUnion ∧
    (ColumnVectorBatch.construct 4 zeroPool).resize 4 = ColumnVectorBatch.construct 4 zeroPool :=
  ⟨resize_le_capacity_noop.2 sampleUnion 3 (by decide),
    resize_le_capacity_noop.1 (ColumnVectorBatch.construct 4 zeroPool) 4 (by decide)⟩

/-! ## Idempotence (C3) -/

/-- C3. For the base batch and for every concrete kind, in every state and for
every `c`, a second `resize(c)` leaves the state produced by the first one
unchanged. -/
theorem resize_idempotent :
    (∀ (b : ColumnVectorBatch) (c : Nat), (b.resize c).resize c = b.resize c) ∧
    (∀ (b : Batch) (c : Nat), (b.resize c).resize c = b.resize c) := by
  constructor
  · intro b c
    apply ColumnVectorBatch_resize_of_le
    rw [ColumnVectorBatch_capacity_resize]
    exact Nat.le_max_right _ _
  · intro b c
    apply Batch_resize_of_le
    rw [Batch_capacity_resize]
    exact Nat.le_max_right _ _

/-! ## Row count and null flag are never touched (C7) -/

theorem ColumnVectorBatch_numElements_resize (b : ColumnVectorBatch) (c : Nat) :
    (b.resize c).numElements = b.numElements := by
  unfold ColumnVectorBatch.resize
  split <;> rfl

theorem ColumnVectorBatch_hasNulls_resize (b : ColumnVectorBatch) (c : Nat) :
    (b.resize c).hasNulls = b.hasNulls := by
  unfold ColumnVectorBatch.resize
  split <;> rfl

theorem ColumnVectorBatch_memoryPool_resize (b : ColumnVectorBatch) (c : Nat) :
    (b.resize c).memoryPool = b.memoryPool := by
  unfold ColumnVectorBatch.resize
  split <;> rfl

/-- C7. For the base batch and for every concrete kind, in every state (also
one whose numElements exceeds the capacity, or whose hasNulls disagrees with
the notNull buffer) and for every `c`, growing or not, `resize(c)` returns a
state with the same numElements and the same hasNulls. -/
theorem resize_keeps_numElements_hasNulls :
    (∀ (b : ColumnVectorBatch) (c : Nat),
      (b.resize c).numElements = b.numElements ∧ (b.resize c).hasNulls = b.hasNulls) ∧
    (∀ (b : Batch) (c : Nat),
      (b.resize c).numElements = b.numElements ∧ (b.resize c).hasNulls = b.hasNulls) := by
  refine ⟨fun b c => ⟨ColumnVectorBatch_numElements_resize b c, ColumnVectorBatch_hasNulls_resize b c⟩, fun b c => ?_⟩
  unfold Batch.numElements Batch.hasNulls
  rw [Batch_base_resize]
  exact ⟨ColumnVectorBatch_numElements_resize b.base c, ColumnVectorBatch_hasNulls_resize b.base c⟩

/-! ## Children are never touched (C8) -/

theorem StructVectorBatch_fields_resize {β : Type} (b : StructVectorBatch β) (c : Nat) :
    (b.resize c).fields = b.fields := rfl

theorem ListVectorBatch_elements_resize {β : Type} (b : ListVectorBatch β) (c : Nat) :
    (b.resize c).elements = b.elements := by
  unfold ListVectorBatch.resize
  split <;> rfl

theorem MapVectorBatch_keys_resize {β : Type} (b : MapVectorBatch β) (c : Nat) :
    (b.resize c).keys = b.keys := by
  unfold MapVectorBatch.resize
  split <;> rfl

theorem MapVectorBatch_elements_resize {β : Type} (b : MapVectorBatch β) (c : Nat) :
    (b.resize c).elements = b.elements := by
  unfold MapVectorBatch.resize
  split <;> rfl

theorem UnionVectorBatch_children_resize {β : Type} (b : UnionVectorBatch β) (c : Nat) :
    (b.resize c).children = b.children := by
  unfold UnionVectorBatch.resize
  split <;> rfl

/-- C8. Resizing a composite batch leaves its children as they are. For a struct
batch `resize(c)` returns the same fields, numElements, hasNulls and pool (the
base part is the base `resize` of the old base part), so that only capacity and
notNull can differ; for a list batch `elements` is the same, for a map batch
`keys` and `elements` are the same, for a union batch `children` is the same.
Children are embedded as values, so an equal child has the same capacity,
buffers and counts. -/
theorem resize_keeps_children (c : Nat) :
    (∀ (β : Type) (b : StructVectorBatch β),
      (b.resize c).fields = b.fields ∧
      (b.resize c).numElements = b.numElements ∧
      (b.resize c).hasNulls = b.hasNulls ∧
      (b.resize c).memoryPool = b.memoryPool ∧
      (b.resize c).toColumnVectorBatch = b.toColumnVectorBatch.resize c) ∧
    (∀ (β : Type) (b : ListVectorBatch β), (b.resize c).elements = b.elements) ∧
    (∀ (β : Type) (b : MapVectorBatch β),
      (b.resize c).keys = b.keys ∧ (b.resize c).elements = b.elements) ∧
    (∀ (β : Type) (b : UnionVectorBatch β), (b.resize c).children = b.children) ∧
    (∀ b : Batch, (b.resize c).children = b.children) := by
  refine ⟨fun β b => ⟨rfl, ?_, ?_, ?_, rfl⟩, fun β b => ListVectorBatch_elements_resize b c,
    fun β b => ⟨MapVectorBatch_keys_resize b c, MapVectorBatch_elements_resize b c⟩, fun β b => UnionVectorBatch_children_resize b c, ?_⟩
  · exact ColumnVectorBatch_numElements_resize b.toColumnVectorBatch c
  · exact ColumnVectorBatch_hasNulls_resize b.toColumnVectorBatch c
  · exact ColumnVectorBatch_memoryPool_resize b.toColumnVectorBatch c
  · intro b
    cases b with
    | struct b => rfl
    | list b => simp [Batch.resize, Batch.children, ListVectorBatch_elements_resize]
    | map b =>
      simp [Batch.resize, Batch.children, MapVectorBatch_elements_resize,
        MapVectorBatch_keys_resize]
    | union b => simp [Batch.resize, Batch.children, UnionVectorBatch_children_resize]
    | _ => rfl

/-! ## Lengths of the directly owned buffers -/

theorem Batch_capacity_construct (k : Kind) (cap : Nat) (pool : MemoryPool) :
    (Batch.construct k cap pool).capacity = cap := by
  cases k <;> rfl

theorem Batch_numElements_construct (k : Kind) (cap : Nat) (pool : MemoryPool) :
    (Batch.construct k cap pool).numElements = 0 := by
  cases k <;> rfl

theorem Batch_hasNulls_construct (k : Kind) (cap : Nat) (pool : MemoryPool) :
    (Batch.construct k cap pool).hasNulls = false := by
  cases k <;> rfl

theorem Batch_kind_construct (k : Kind) (cap : Nat) (pool : MemoryPool) :
    (Batch.construct k cap pool).kind = k := by
  cases k <;> rfl

theorem Batch_kind_resize (b : Batch) (c : Nat) : (b.resize c).kind = b.kind := by
  cases b <;> rfl

theorem Batch_capacityBuffers_size_construct (k : Kind) (cap : Nat) (pool : MemoryPool) :
    ∀ x ∈ (Batch.construct k cap pool).capacityBuffers, x.size = cap := by
  cases k <;>
    simp [Batch.construct, Batch.capacityBuffers, LongVectorBatch.construct,
      DoubleVectorBatch.construct, StringVectorBatch.construct, StructVectorBatch.construct,
      ListVectorBatch.construct, MapVectorBatch.construct, UnionVectorBatch.construct,
      Decimal64VectorBatch.construct, Decimal128VectorBatch.construct,
      ColumnVectorBatch.construct, DataBuffer_size_construct]

theorem Batch_offsetsBuffers_size_construct (k : Kind) (cap : Nat) (pool : MemoryPool) :
    ∀ x ∈ (Batch.construct k cap pool).offsetsBuffers, x.size = (cap + 1) % UINT64_MOD := by
  cases k <;>
    simp [Batch.construct, Batch.offsetsBuffers, ListVectorBatch.construct,
      MapVectorBatch.construct, DataBuffer_size_construct]

theorem Batch_capacityBuffers_size_resize (b : Batch) (c : Nat) (h : b.capacity < c)
    (hs : ∀ x ∈ b.capacityBuffers, x.size = b.capacity) :
    ∀ x ∈ (b.resize c).capacityBuffers, x.size = c := by
  have hle : b.capacity ≤ c := Nat.le_of_lt h
  cases b <;>
    simp only [Batch.capacity, Batch.base] at h hle <;>
    simp only [Batch.capacityBuffers, Batch.capacity, Batch.base, List.mem_cons,
      List.mem_singleton, List.not_mem_nil, or_false, forall_eq_or_imp, forall_eq] at hs <;>
    simp [Batch.resize, Batch.capacityBuffers, LongVectorBatch.resize,
      DoubleVectorBatch.resize, StringVectorBatch.resize, StructVectorBatch.resize,
      ListVectorBatch.resize, MapVectorBatch.resize, UnionVectorBatch.resize,
      Decimal64VectorBatch.resize, Decimal128VectorBatch.resize, ColumnVectorBatch.resize, h,
      DataBuffer_size_resize, hs, hle]

theorem Batch_offsetsBuffers_size_resize (b : Batch) (c : Nat) (h : b.capacity < c)
    (hc : c + 1 < UINT64_MOD) (hs : ∀ x ∈ b.offsetsBuffers, x.size = b.capacity + 1) :
    ∀ x ∈ (b.resize c).offsetsBuffers, x.size = c + 1 := by
  have hle : b.capacity + 1 ≤ c + 1 := by omega
  have hmod : (c + 1) % UINT64_MOD = c + 1 := Nat.mod_eq_of_lt hc
  cases b <;>
    simp only [Batch.capacity, Batch.base] at h hle <;>
    simp only [Batch.offsetsBuffers, Batch.capacity, Batch.base, List.mem_singleton,
      List.not_mem_nil, forall_eq, false_imp_iff, implies_true] at hs <;>
    simp [Batch.resize, Batch.offsetsBuffers, ListVectorBatch.resize, MapVectorBatch.resize, h,
      DataBuffer_size_resize, hs, hle, hmod]

theorem Batch_ownedBuffers_getElem?_resize (b : Batch) (c n : Nat)
    (hs : ∀ x ∈ b.ownedBuffers, n ≤ x.size) :
    List.Forall₂ (fun o x => ∀ i, i < n → x.buf[i]? = o.buf[i]?)
      b.ownedBuffers (b.resize c).ownedBuffers := by
  have key : ∀ (o : DataBuffer) (m : Nat) (f : Nat → Cell), n ≤ o.size →
      ∀ i, i < n → (o.resize m f).buf[i]? = o.buf[i]? :=
    fun o m f ho i hi => DataBuffer_getElem?_resize o m f i (Nat.lt_of_lt_of_le hi ho)
  by_cases h : b.capacity < c
  · cases b <;>
      simp only [Batch.capacity, Batch.base] at h <;>
      simp only [Batch.ownedBuffers, Batch.capacityBuffers, Batch.offsetsBuffers,
        List.cons_append, List.nil_append, List.append_nil, List.mem_cons, List.mem_singleton,
        List.not_mem_nil, or_false, forall_eq_or_imp, forall_eq] at hs <;>
      simp only [Batch.resize, Batch.ownedBuffers, Batch.capacityBuffers, Batch.offsetsBuffers,
        LongVectorBatch.resize, DoubleVectorBatch.resize, StringVectorBatch.resize,
        StructVectorBatch.resize, ListVectorBatch.resize, MapVectorBatch.resize,
        UnionVectorBatch.resize, Decimal64VectorBatch.resize, Decimal128VectorBatch.resize,
        ColumnVectorBatch.resize, h, if_true, List.cons_append, List.nil_append,
        List.append_nil, List.forall₂_cons, List.forall₂_nil_left_iff, and_true] <;>
      first
        | exact key _ _ _ hs
        | exact ⟨key _ _ _ hs.1, key _ _ _ hs.2⟩
        | exact ⟨key _ _ _ hs.1, key _ _ _ hs.2.1, key _ _ _ hs.2.2⟩
  · rw [Batch_resize_of_le b c (Nat.not_lt.mp h)]
    exact List.forall₂_same.mpr fun _ _ _ _ => rfl

/-- Invariant of the reachable states: every buffer allocated with `cap`
elements has length `capacity`, and, as long as `capacity + 1` does not wrap,
every buffer allocated with `cap+1` elements has length `capacity + 1`. -/
theorem Reachable_sizes {b : Batch} (hb : Reachable b) :
    (∀ x ∈ b.capacityBuffers, x.size = b.capacity) ∧
    (b.capacity + 1 < UINT64_MOD → ∀ x ∈ b.offsetsBuffers, x.size = b.capacity + 1) := by
  induction hb with
  | construct k cap pool _ =>
    rw [Batch_capacity_construct]
    refine ⟨Batch_capacityBuffers_size_construct k cap pool, fun hc x hx => ?_⟩
    rw [Batch_offsetsBuffers_size_construct k cap pool x hx, Nat.mod_eq_of_lt hc]
  | resize b c _ _ ih =>
    by_cases h : b.capacity < c
    · have hcap : (b.resize c).capacity = c := by
        rw [Batch_capacity_resize]; exact Nat.max_eq_right (Nat.le_of_lt h)
      rw [hcap]
      refine ⟨Batch_capacityBuffers_size_resize b c h ih.1, fun hc => ?_⟩
      exact Batch_offsetsBuffers_size_resize b c h hc (ih.2 (by omega))
    · rw [Batch_resize_of_le b c (Nat.not_lt.mp h)]
      exact ih

theorem ColumnVectorBatch_Reachable_size_notNull {b : ColumnVectorBatch}
    (hb : ColumnVectorBatch.Reachable b) : b.notNull.size = b.capacity := by
  induction hb with
  | construct cap pool _ => exact DataBuffer_size_construct _ _
  | resize b c _ _ ih =>
    unfold ColumnVectorBatch.resize
    split
    · next h =>
      show (b.notNull.resize c _).size = c
      exact DataBuffer_size_resize_of_le _ _ _ (by omega)
    · exact ih

theorem Batch_offsetsBuffers_eq_nil (b : Batch) (hk : ¬ (b.kind = .list ∨ b.kind = .map)) :
    b.offsetsBuffers = [] := by
  cases b <;> first | rfl | exact absurd (by simp [Batch.kind]) hk

theorem Batch_sized_construct (k : Kind) (cap : Nat) (pool : MemoryPool) :
    (Batch.construct k cap pool).Sized := by
  unfold Batch.Sized
  rw [Batch_capacity_construct]
  exact ⟨Batch_capacityBuffers_size_construct k cap pool,
    Batch_offsetsBuffers_size_construct k cap pool⟩

/-! ## Growth of the directly owned buffers -/

/-- Growth when `cap + 1` does not wrap: for a batch whose directly owned buffers
have the lengths its constructor gave them and every `c` above its capacity,
where for a list or a map batch `c + 1 < 2 ^ 64`, the state `resize(c)` leaves
has capacity `c`, buffers of length `c` (offsets of a list or map: `c + 1`), and
the old entries below the prior capacity. -/
theorem Batch_resize_grows_owned_buffers :
    (∀ (b : ColumnVectorBatch) (c : Nat), b.notNull.size = b.capacity → b.capacity < c →
      (b.resize c).capacity = c ∧ (b.resize c).notNull.size = c ∧
      ∀ i, i < b.capacity → (b.resize c).notNull.buf[i]? = b.notNull.buf[i]?) ∧
    (∀ (b : Batch) (c : Nat), b.Sized → b.capacity < c →
      (b.kind = .list ∨ b.kind = .map → c + 1 < UINT64_MOD) →
      (b.resize c).capacity = c ∧
      (∀ x ∈ (b.resize c).capacityBuffers, x.size = c) ∧
      (∀ x ∈ (b.resize c).offsetsBuffers, x.size = c + 1) ∧
      List.Forall₂ (fun o n => ∀ i, i < b.capacity → n.buf[i]? = o.buf[i]?)
        b.ownedBuffers (b.resize c).ownedBuffers) := by
  constructor
  · intro b c hs hc
    rw [ColumnVectorBatch_resize_of_lt b c hc]
    refine ⟨rfl, DataBuffer_size_resize_of_le _ _ _ (by omega), fun i hi => ?_⟩
    exact DataBuffer_getElem?_resize _ _ _ _ (by omega)
  · intro b c hs hc hk
    have hoff : ∀ x ∈ b.offsetsBuffers, x.size = b.capacity + 1 := by
      intro x hx
      by_cases hk' : b.kind = .list ∨ b.kind = .map
      · rw [hs.2 x hx]
        exact Nat.mod_eq_of_lt (by have := hk hk'; omega)
      · rw [Batch_offsetsBuffers_eq_nil b hk'] at hx
        exact absurd hx (List.not_mem_nil x)
    refine ⟨?_, Batch_capacityBuffers_size_resize b c hc hs.1, ?_, ?_⟩
    · rw [Batch_capacity_resize]; exact Nat.max_eq_right (Nat.le_of_lt hc)
    · by_cases hk' : b.kind = .list ∨ b.kind = .map
      · exact Batch_offsetsBuffers_size_resize b c hc (hk hk') hoff
      · rw [Batch_offsetsBuffers_eq_nil (b.resize c) (by rwa [Batch_kind_resize])]
        intro x hx
        exact absurd hx (List.not_mem_nil x)
    · apply Batch_ownedBuffers_getElem?_resize
      intro x hx
      rcases List.mem_append.mp hx with hx | hx
      · exact Nat.le_of_eq (hs.1 x hx).symm
      · rw [hoff x hx]; exact Nat.le_succ _

/-! ## Buffers sized by the capacity (C6) -/

/-- C6. Construction of a base batch, or of a batch of any kind other than list
and map, with capacity `cap` yields capacity `cap`, numElements 0, hasNulls
false and every directly owned buffer of length `cap`; and in every state
reachable from construction by `resize` calls every directly owned buffer of
such a batch has length exactly the capacity. -/
theorem construct_and_reachable_sizes :
    (∀ (cap : Nat) (pool : MemoryPool),
      (ColumnVectorBatch.construct cap pool).capacity = cap ∧
      (ColumnVectorBatch.construct cap pool).numElements = 0 ∧
      (ColumnVectorBatch.construct cap pool).hasNulls = false ∧
      (ColumnVectorBatch.construct cap pool).notNull.size = cap) ∧
    (∀ (k : Kind) (cap : Nat) (pool : MemoryPool), k ≠ .list → k ≠ .map →
      (Batch.construct k cap pool).capacity = cap ∧
      (Batch.construct k cap pool).numElements = 0 ∧
      (Batch.construct k cap pool).hasNulls = false ∧
      ∀ x ∈ (Batch.construct k cap pool).ownedBuffers, x.size = cap) ∧
    (∀ b : ColumnVectorBatch, ColumnVectorBatch.Reachable b → b.notNull.size = b.capacity) ∧
    (∀ b : Batch, Reachable b → b.kind ≠ .list → b.kind ≠ .map →
      ∀ x ∈ b.ownedBuffers, x.size = b.capacity) := by
  refine ⟨fun cap pool => ⟨rfl, rfl, rfl, DataBuffer_size_construct _ _⟩, ?_,
    fun b hb => ColumnVectorBatch_Reachable_size_notNull hb, ?_⟩
  · intro k cap pool hl hm
    refine ⟨Batch_capacity_construct k cap pool, Batch_numElements_construct k cap pool,
      Batch_hasNulls_construct k cap pool, ?_⟩
    have hk : ¬ ((Batch.construct k cap pool).kind = .list ∨
        (Batch.construct k cap pool).kind = .map) := by
      rw [Batch_kind_construct]; exact fun h => h.elim hl hm
    unfold Batch.ownedBuffers
    rw [Batch_offsetsBuffers_eq_nil _ hk, List.append_nil]
    exact Batch_capacityBuffers_size_construct k cap pool
  · intro b hb hl hm
    unfold Batch.ownedBuffers
    rw [Batch_offsetsBuffers_eq_nil b (fun h => h.elim hl hm), List.append_nil]
    exact (Reachable_sizes hb).1

/-- Instance of C6: the union batch constructed with capacity 2 and resized to
5 has every directly owned buffer of length 5, and a decimal64 batch fresh from
its constructor has the stated fields. -/
theorem construct_and_reachable_sizes_witness :
    (∀ x ∈ ((Batch.construct .union 2 zeroPool).resize 5).ownedBuffers,
      x.size = ((Batch.construct .union 2 zeroPool).resize 5).capacity) ∧
    ((Batch.construct .decimal64 3 zeroPool).capacity = 3 ∧
      (Batch.construct .decimal64 3 zeroPool).numElements = 0 ∧
      (Batch.construct .decimal64 3 zeroPool).hasNulls = false ∧
      ∀ x ∈ (Batch.construct .decimal64 3 zeroPool).ownedBuffers, x.size = 3) :=
  ⟨construct_and_reachable_sizes.2.2.2 ((Batch.construct .union 2 zeroPool).resize 5)
      (Reachable.resize _ 5 (by decide) (Reachable.construct .union 2 zeroPool (by decide)))
      (by decide) (by decide),
    construct_and_reachable_sizes.2.1 .decimal64 3 zeroPool (by decide) (by decide)⟩

/-! ## Facts about `find` and the digit reader -/

theorem find_eq_none {s : List Char} {c : Char} (h : c ∉ s) : find s c = none := by
  induction s with
  | nil => rfl
  | cons x xs ih =>
    have hx : x ≠ c := fun e => h (e ▸ List.mem_cons_self x xs)
    have hxs : c ∉ xs := fun m => h (List.mem_cons_of_mem x m)
    simp [find, hx, ih hxs]

theorem find_eq_some {c : Char} (s : List Char) (p : Nat) (hdot : s[p]? = some c)
    (hfirst : ∀ i, i < p → s[i]? ≠ some c) : find s c = some p := by
  induction s generalizing p with
  | nil => simp at hdot
  | cons x xs ih =>
    cases p with
    | zero =>
      have hx : x = c := by simpa using hdot
      simp [find, hx]
    | succ p =>
      have hx : x ≠ c := by
        have := hfirst 0 (Nat.succ_pos p)
        simpa using this
      have hrec := ih p (by simpa using hdot) (fun i hi => by
        have := hfirst (i + 1) (Nat.succ_lt_succ hi)
        simpa using this)
      simp [find, hx, hrec]

theorem toInt32_of_lt (n : Nat) (h : n < 2 ^ 31) : toInt32 n = (n : Int) := by
  unfold toInt32
  omega

theorem Int128_digits_replicate_zero (n acc : Nat) :
    Int128.digits acc (List.replicate n '0') = some (acc * 10 ^ n) := by
  induction n generalizing acc with
  | zero => simp [Int128.digits]
  | succ n ih =>
    have h0 : ('0' : Char).toNat = 48 := by decide
    rw [List.replicate_succ, Int128.digits, h0, if_pos (by decide), ih]
    congr 1
    rw [Nat.sub_self, Nat.add_zero, Nat.pow_succ, Nat.mul_assoc, Nat.mul_comm 10]

theorem Int128_construct_replicate_zero (n : Nat) :
    Int128.construct (List.replicate (n + 1) '0') = .ok 0 := by
  have h := Int128_digits_replicate_zero (n + 1) 0
  rw [List.replicate_succ] at h ⊢
  simp only [Int128.construct, Int128.magnitude, h]
  simp [Except.map]

theorem Decimal_construct_point_zeros (n : Nat) :
    Decimal.construct ('.' :: List.replicate (n + 1) '0') =
      .ok { value := 0, scale := toInt32 (n + 2) } := by
  have hf : find ('.' :: List.replicate (n + 1) '0') '.' = some 0 := by
    rw [find, if_pos rfl]
  have hl : ('.' :: List.replicate (n + 1) '0').length - 0 = n + 2 := by
    rw [List.length_cons, List.length_replicate]; rfl
  have he : replace1 ('.' :: List.replicate (n + 1) '0') 0 = List.replicate (n + 1) '0' := rfl
  simp only [Decimal.construct, hf, hl, he, Int128_construct_replicate_zero]
  rfl

/-! ## Literals with a decimal point (C9) -/

/-- C9, as stated, fails on a literal whose tail from the point on has `2 ^ 31`
characters: for the text made of a point followed by `2 ^ 31 - 1` zeros, the
first point is at index 0 and `length - p` is `2 ^ 31`, the text without the
point is a valid literal of value 0, and the constructor stores the scale
`-2 ^ 31`, the `int32_t` the difference converts to. -/
theorem decimal_scale_int32_counterexample :
    find ('.' :: List.replicate (2 ^ 31 - 1) '0') '.' = some 0 ∧
    ('.' :: List.replicate (2 ^ 31 - 1) '0').length - 0 = 2 ^ 31 ∧
    Decimal.construct ('.' :: List.replicate (2 ^ 31 - 1) '0') =
      .ok { value := 0, scale := -2 ^ 31 } := by
  have hn : (2 ^ 31 - 1 : Nat) = (2 ^ 31 - 2) + 1 := by norm_num
  have hs : toInt32 (2 ^ 31 - 2 + 2) = -2 ^ 31 := by norm_num [toInt32]
  refine ⟨by rw [find, if_pos rfl], ?_, ?_⟩
  · rw [List.length_cons, List.length_replicate]; norm_num
  · rw [hn, Decimal_construct_point_zeros, hs]

/-- C9, amended. For every string `s` that contains a point, with `p` the index
of its first point, the constructor succeeds exactly when the text of `s` with
the character at index `p` removed is a valid integer literal; the value is the
integer read from that text, and the scale is `length(s) - p` converted to
`int32_t`. Whenever `length(s) - p` is below `2 ^ 31` the scale is
`length(s) - p` itself, which is `d + 1` for a literal with `d` characters after
the first point. -/
theorem decimal_construct_with_point (s : List Char) (p : Nat)
    (hdot : s[p]? = some '.') (hfirst : ∀ i, i < p → s[i]? ≠ some '.') :
    Decimal.construct s =
      (Int128.construct (s.take p ++ s.drop (p + 1))).map
        (fun v => { value := v, scale := toInt32 (s.length - p) }) ∧
    (s.length - p < 2 ^ 31 →
      toInt32 (s.length - p) = ((s.length - p : Nat) : Int) ∧
      toInt32 (s.length - p) = (((s.drop (p + 1)).length + 1 : Nat) : Int)) := by
  have hp : p < s.length := by
    by_contra h
    rw [List.getElem?_eq_none (Nat.not_lt.mp h)] at hdot
    exact absurd hdot (by simp)
  constructor
  · simp only [Decimal.construct, find_eq_some s p hdot hfirst, replace1,
      List.eraseIdx_eq_take_drop_succ]
  · intro hlt
    have hd : (s.drop (p + 1)).length + 1 = s.length - p := by
      rw [List.length_drop]; omega
    rw [hd]
    exact ⟨toInt32_of_lt _ hlt, toInt32_of_lt _ hlt⟩

/-- Instance of C9: the literal `12.5` gives value 125 and scale 2. -/
theorem decimal_construct_with_point_witness :
    Decimal.construct ['1', '2', '.', '5'] = .ok { value := 125, scale := 2 } :=
  (decimal_construct_with_point ['1', '2', '.', '5'] 2 (by decide)
    (by decide)).1.trans (by rfl)

/-! ## Literals without a decimal point (C10) -/

/-- C10. For every string `s` that contains no point, the constructor reads the
whole of `s` as a signed integer: it succeeds exactly when `s` is a valid
integer literal, the value is the integer read from `s`, and the scale is 0;
when `s` is not a valid literal the failure of the reader is the result. -/
theorem decimal_construct_without_point (s : List Char) (h : '.' ∉ s) :
    Decimal.construct s =
      (Int128.construct s).map (fun v => { value := v, scale := 0 }) ∧
    (∀ v, Int128.construct s = .ok v →
      Decimal.construct s = .ok { value := v, scale := 0 }) ∧
    (∀ e, Int128.construct s = .error e → Decimal.construct s = .error e) := by
  have heq : Decimal.construct s =
      (Int128.construct s).map (fun v => { value := v, scale := 0 }) := by
    simp only [Decimal.construct, find_eq_none h]
  refine ⟨heq, fun v hv => ?_, fun e he => ?_⟩
  · rw [heq, hv]; rfl
  · rw [heq, he]; rfl

/-- Instance of C10: the literal `-45` gives value -45 and scale 0. -/
theorem decimal_construct_without_point_witness :
    Decimal.construct ['-', '4', '5'] = .ok { value := -45, scale := 0 } :=
  (decimal_construct_without_point ['-', '4', '5'] (by decide)).2.1 (-45) (by rfl)

/-! ## Facts about digits and literals -/

theorem isDigit_iff (c : Char) : c.isDigit = true ↔ (48 ≤ c.toNat ∧ c.toNat ≤ 57) := by
  simp only [Char.isDigit, Bool.and_eq_true, decide_eq_true_eq]
  exact Iff.rfl

theorem digitChar_sub (c : Char) (h : 48 ≤ c.toNat) : digitChar (c.toNat - 48) = c := by
  unfold digitChar
  rw [Nat.sub_add_cancel h, Char.ofNat_toNat]

theorem decimalDigits_fuel (fuel₁ fuel₂ n : Nat) (h₁ : n < fuel₁) (h₂ : n < fuel₂) :
    decimalDigits fuel₁ n = decimalDigits fuel₂ n := by
  induction fuel₁ generalizing fuel₂ n with
  | zero => omega
  | succ f ih =>
    cases fuel₂ with
    | zero => omega
    | succ g =>
      simp only [decimalDigits]
      split
      · rfl
      · rw [ih g (n / 10) (by omega) (by omega)]

theorem natToString_of_lt (n : Nat) (h : n < 10) : natToString n = [digitChar n] := by
  simp [natToString, decimalDigits, h]

theorem natToString_of_ge (n : Nat) (h : 10 ≤ n) :
    natToString n = natToString (n / 10) ++ [digitChar (n % 10)] := by
  unfold natToString
  rw [decimalDigits, if_neg (by omega)]
  rw [decimalDigits_fuel n (n / 10 + 1) (n / 10) (by omega) (by omega)]

theorem Int128_digits_isSome (ds : List Char) (acc : Nat)
    (h : ds.all Char.isDigit = true) : ∃ m, Int128.digits acc ds = some m := by
  induction ds generalizing acc with
  | nil => exact ⟨acc, rfl⟩
  | cons c cs ih =>
    simp only [List.all_cons, Bool.and_eq_true] at h
    rw [Int128.digits, if_pos ((isDigit_iff c).mp h.1)]
    exact ih _ h.2

theorem Int128_digits_all (ds : List Char) (acc m : Nat)
    (h : Int128.digits acc ds = some m) : ds.all Char.isDigit = true := by
  induction ds generalizing acc with
  | nil => rfl
  | cons c cs ih =>
    rw [Int128.digits] at h
    split at h
    · next hc =>
      simp only [List.all_cons, Bool.and_eq_true]
      exact ⟨(isDigit_iff c).mpr hc, ih _ h⟩
    · exact absurd h (by simp)

theorem Int128_magnitude_ok (s : List Char) (h1 : s ≠ []) (h2 : s.all Char.isDigit = true) :
    Int128.magnitude s = .ok ((Int128.digits 0 s).getD 0) ∧
      ∃ m, Int128.digits 0 s = some m := by
  obtain ⟨m, hm⟩ := Int128_digits_isSome s 0 h2
  cases s with
  | nil => exact absurd rfl h1
  | cons c cs =>
    refine ⟨?_, m, hm⟩
    simp only [Int128.magnitude, hm, Option.getD_some]

theorem Int128_magnitude_error (s : List Char)
    (h : s = [] ∨ s.all Char.isDigit = false) :
    Int128.magnitude s = .error .invalidNumericLiteral := by
  cases s with
  | nil => rfl
  | cons c cs =>
    rcases h with h | h
    · exact absurd h (by simp)
    · cases hd : Int128.digits 0 (c :: cs) with
      | none => simp only [Int128.magnitude, hd]
      | some m => rw [Int128_digits_all _ _ _ hd] at h; exact absurd h (by simp)

theorem literal_tail (ds : List Char) (h : (!ds.isEmpty && ds.all Char.isDigit) = true) :
    ds ≠ [] ∧ ds.all Char.isDigit = true := by
  cases ds with
  | nil => simp at h
  | cons c cs => exact ⟨List.cons_ne_nil c cs, by simpa using h⟩

theorem not_literal_tail (ds : List Char) (h : (!ds.isEmpty && ds.all Char.isDigit) = false) :
    ds = [] ∨ ds.all Char.isDigit = false := by
  cases ds with
  | nil => exact Or.inl rfl
  | cons c cs => right; simpa using h

theorem Int128_construct_of_literal (s : List Char) (h : isSignedIntegerLiteral s = true) :
    ∃ v, Int128.construct s = .ok v := by
  unfold Int128.construct
  split
  · next rest =>
    have h' := literal_tail rest (by simpa [isSignedIntegerLiteral] using h)
    rw [(Int128_magnitude_ok rest h'.1 h'.2).1]
    exact ⟨_, rfl⟩
  · next hneg =>
    unfold isSignedIntegerLiteral at h
    split at h
    · next rest => exact absurd rfl (hneg rest)
    · have h' := literal_tail s h
      rw [(Int128_magnitude_ok s h'.1 h'.2).1]
      exact ⟨_, rfl⟩

theorem Int128_construct_of_not_literal (s : List Char) (h : isSignedIntegerLiteral s = false) :
    Int128.construct s = .error .invalidNumericLiteral := by
  unfold Int128.construct
  split
  · next rest =>
    rw [Int128_magnitude_error rest (not_literal_tail rest (by simpa [isSignedIntegerLiteral] using h))]
    rfl
  · next hneg =>
    unfold isSignedIntegerLiteral at h
    split at h
    · next rest => exact absurd rfl (hneg rest)
    · rw [Int128_magnitude_error s (not_literal_tail s h)]
      rfl

theorem erase_of_find_none (s : List Char) (c : Char) (h : find s c = none) : s.erase c = s := by
  induction s with
  | nil => rfl
  | cons x xs ih =>
    rw [find] at h
    split at h
    · exact absurd h (by simp)
    · next hx =>
      have hxs : find xs c = none := by
        cases hf : find xs c with
        | none => rfl
        | some p => rw [hf] at h; exact absurd h (by simp)
      rw [List.erase_cons, if_neg (by simpa using hx), ih hxs]

theorem erase_of_find_some (s : List Char) (c : Char) (p : Nat) (h : find s c = some p) :
    replace1 s p = s.erase c := by
  induction s generalizing p with
  | nil => exact absurd h (by simp [find])
  | cons x xs ih =>
    rw [find] at h
    split at h
    · next hx =>
      have hp : p = 0 := by simpa using h.symm
      subst hp
      rw [List.erase_cons, if_pos (by simpa using hx)]
      rfl
    · next hx =>
      cases hf : find xs c with
      | none => rw [hf] at h; exact absurd h (by simp)
      | some q =>
        rw [hf] at h
        have hp : p = q + 1 := by simpa using h.symm
        subst hp
        rw [List.erase_cons, if_neg (by simpa using hx), ← ih q hf]
        rfl

theorem Decimal_construct_erase (s : List Char) :
    ∃ sc : Int, Decimal.construct s =
      (Int128.construct (s.erase '.')).map (fun v => { value := v, scale := sc }) := by
  unfold Decimal.construct
  cases hf : find s '.' with
  | none => exact ⟨0, by rw [erase_of_find_none s '.' hf]⟩
  | some p => exact ⟨toInt32 (s.length - p), by rw [← erase_of_find_some s '.' p hf]⟩

theorem not_literal_of_mem (t : List Char) (c : Char) (hc : c ∈ t) (hd : c.isDigit = false)
    (hm : c ≠ '-') : isSignedIntegerLiteral t = false := by
  have key : ∀ ds : List Char, c ∈ ds → (!ds.isEmpty && ds.all Char.isDigit) = false := by
    intro ds hds
    have : ds.all Char.isDigit = false := by
      rw [List.all_eq_false]
      exact ⟨c, hds, by simp [hd]⟩
    simp [this]
  unfold isSignedIntegerLiteral
  split
  · next ds =>
    rcases List.mem_cons.mp hc with h | h
    · exact absurd h hm
    · exact key ds h
  · exact key t hc

/-! ## Malformed literals (C12) -/

/-- C12. Constructing a Decimal from a string fails with the
invalid-numeric-literal condition exactly when the string with its first point
removed is not a signed integer literal (an optional `-`, then one or more
digits), and yields a Decimal exactly when it is one. In particular the
constructor fails for every string with two or more points, for every string
holding a character that is neither a digit, a `-` nor a point, for the empty
string, for `.` and for `12a`. -/
theorem decimal_construct_fails_iff :
    (∀ s : List Char, Decimal.construct s = .error .invalidNumericLiteral ↔
      isSignedIntegerLiteral (s.erase '.') = false) ∧
    (∀ s : List Char, (∃ d, Decimal.construct s = .ok d) ↔
      isSignedIntegerLiteral (s.erase '.') = true) ∧
    (∀ s : List Char, 2 ≤ s.count '.' →
      Decimal.construct s = .error .invalidNumericLiteral) ∧
    (∀ s : List Char, (∃ c ∈ s, c.isDigit = false ∧ c ≠ '-' ∧ c ≠ '.') →
      Decimal.construct s = .error .invalidNumericLiteral) ∧
    Decimal.construct [] = .error .invalidNumericLiteral ∧
    Decimal.construct ['.'] = .error .invalidNumericLiteral ∧
    Decimal.construct ['1', '2', 'a'] = .error .invalidNumericLiteral := by
  have hfail : ∀ s : List Char, isSignedIntegerLiteral (s.erase '.') = false →
      Decimal.construct s = .error .invalidNumericLiteral := by
    intro s h
    obtain ⟨sc, hsc⟩ := Decimal_construct_erase s
    rw [hsc, Int128_construct_of_not_literal _ h]
    rfl
  have hok : ∀ s : List Char, isSignedIntegerLiteral (s.erase '.') = true →
      ∃ d, Decimal.construct s = .ok d := by
    intro s h
    obtain ⟨sc, hsc⟩ := Decimal_construct_erase s
    obtain ⟨v, hv⟩ := Int128_construct_of_literal _ h
    rw [hsc, hv]
    exact ⟨_, rfl⟩
  refine ⟨fun s => ⟨fun h => ?_, hfail s⟩, fun s => ⟨fun h => ?_, hok s⟩, fun s h => ?_,
    fun s h => ?_, rfl, rfl, rfl⟩
  · cases hl : isSignedIntegerLiteral (s.erase '.') with
    | false => rfl
    | true =>
      obtain ⟨d, hd⟩ := hok s hl
      rw [hd] at h
      exact absurd h (by simp)
  · cases hl : isSignedIntegerLiteral (s.erase '.') with
    | true => rfl
    | false =>
      obtain ⟨d, hd⟩ := h
      rw [hfail s hl] at hd
      exact absurd hd (by simp)
  · apply hfail
    apply not_literal_of_mem _ '.' _ (by decide) (by decide)
    rw [← List.count_pos_iff, List.count_erase_self]
    omega
  · obtain ⟨c, hc, hd, hm, hp⟩ := h
    apply hfail
    exact not_literal_of_mem _ c ((List.mem_erase_of_ne hp).mpr hc) hd hm

/-- Instance of C12: `1.2.3` holds two points and is rejected. -/
theorem decimal_construct_fails_iff_witness :
    Decimal.construct ['1', '.', '2', '.', '3'] = .error .invalidNumericLiteral :=
  decimal_construct_fails_iff.2.2.1 ['1', '.', '2', '.', '3'] (by decide)

/-! ## Round trip of integer literals (C11) -/

theorem natToString_zero : natToString 0 = ['0'] := rfl

theorem Int128_digits_render (ds : List Char) (acc : Nat) (hacc : 0 < acc)
    (h : ds.all Char.isDigit = true) :
    ∃ m, Int128.digits acc ds = some m ∧ 0 < m ∧ natToString m = natToString acc ++ ds := by
  induction ds generalizing acc with
  | nil => exact ⟨acc, rfl, hacc, by simp⟩
  | cons c cs ih =>
    simp only [List.all_cons, Bool.and_eq_true] at h
    have hc := (isDigit_iff c).mp h.1
    obtain ⟨m, hm, hpos, hstr⟩ := ih (acc * 10 + (c.toNat - 48)) (by omega) h.2
    refine ⟨m, ?_, hpos, ?_⟩
    · rw [Int128.digits, if_pos hc, hm]
    · rw [hstr, natToString_of_ge _ (by omega)]
      have h1 : (acc * 10 + (c.toNat - 48)) / 10 = acc := by omega
      have h2 : (acc * 10 + (c.toNat - 48)) % 10 = c.toNat - 48 := by omega
      rw [h1, h2, digitChar_sub c hc.1]
      simp

theorem Int128_magnitude_canonical (d : Char) (ds : List Char) (hd : d.isDigit = true)
    (h0 : d ≠ '0') (hds : ds.all Char.isDigit = true) :
    ∃ m, Int128.magnitude (d :: ds) = .ok m ∧ 0 < m ∧ natToString m = d :: ds := by
  have hc := (isDigit_iff d).mp hd
  have hne : d.toNat ≠ 48 := by
    intro h
    apply h0
    rw [← Char.ofNat_toNat d, h]
  obtain ⟨m, hm, hpos, hstr⟩ := Int128_digits_render ds (d.toNat - 48) (by omega) hds
  refine ⟨m, ?_, hpos, ?_⟩
  · have : Int128.digits 0 (d :: ds) = some m := by
      rw [Int128.digits, if_pos hc]
      simpa using hm
    simp only [Int128.magnitude, this]
  · rw [hstr, natToString_of_lt _ (by omega), digitChar_sub d hc.1]
    rfl

theorem not_mem_of_all_isDigit (ds : List Char) (c : Char) (hc : c.isDigit = false)
    (h : ds.all Char.isDigit = true) : c ∉ ds := by
  intro hm
  have := List.all_eq_true.mp h c hm
  rw [hc] at this
  exact absurd this (by simp)

theorem Decimal_round_trip_canonical (s : List Char) (h : isCanonicalLiteral s = true) :
    ∃ v : Int, Decimal.construct s = .ok { value := v, scale := 0 } ∧
      Decimal.toString { value := v, scale := 0 } = s := by
  unfold isCanonicalLiteral at h
  split at h
  · exact ⟨0, rfl, rfl⟩
  · next d ds =>
    simp only [Bool.and_eq_true, bne_iff_ne, ne_eq] at h
    obtain ⟨⟨hd, h0⟩, hds⟩ := h
    obtain ⟨m, hm, hpos, hstr⟩ := Int128_magnitude_canonical d ds hd h0 hds
    have hdot : '.' ∉ '-' :: d :: ds := by
      intro hmem
      rcases List.mem_cons.mp hmem with e | hmem
      · exact absurd e (by decide)
      · exact not_mem_of_all_isDigit (d :: ds) '.' (by decide)
          (by simp [hd, hds]) hmem
    refine ⟨-(m : Int), ?_, ?_⟩
    · simp only [Decimal.construct, find_eq_none hdot, Int128.construct, hm]
      rfl
    · have hneg : (-(m : Int)) < 0 := by omega
      have habs : (-(m : Int)).natAbs = m := by omega
      simp only [Decimal.toString, Int128.toDecimalString, Int128.toString, le_refl, if_true,
        hneg, habs, hstr]
  · next d ds hz hm' =>
    simp only [Bool.and_eq_true, bne_iff_ne, ne_eq] at h
    obtain ⟨⟨hd, h0⟩, hds⟩ := h
    obtain ⟨m, hm, hpos, hstr⟩ := Int128_magnitude_canonical d ds hd h0 hds
    have hdot : '.' ∉ d :: ds :=
      not_mem_of_all_isDigit (d :: ds) '.' (by decide) (by simp [hd, hds])
    have hminus : d ≠ '-' := by
      intro e
      rw [e] at hd
      exact absurd hd (by decide)
    refine ⟨(m : Int), ?_, ?_⟩
    · have hc : Int128.construct (d :: ds) = .ok (m : Int) := by
        unfold Int128.construct
        split
        · next rest heq =>
          exact absurd (List.cons.inj heq).1 hminus
        · rw [hm]; rfl
      simp only [Decimal.construct, find_eq_none hdot, hc]
      rfl
    · have hneg : ¬ ((m : Int) < 0) := by omega
      have habs : ((m : Int)).natAbs = m := by omega
      simp only [Decimal.toString, Int128.toDecimalString, Int128.toString, le_refl, if_true,
        hneg, if_false, habs, hstr]
  · exact absurd h (by simp)

/-- C11. For every canonical signed integer literal `s` without a point (`0`,
or an optional `-`, then a digit other than `0`, then any digits), whatever its
size and so in particular within the 128-bit range, constructing a Decimal from
`s` succeeds with scale 0 and `toString()` of the result is `s`. -/
theorem decimal_integer_round_trip (s : List Char) (h : isCanonicalLiteral s = true) :
    ∃ d : Decimal, Decimal.construct s = .ok d ∧ d.scale = 0 ∧ d.toString = s := by
  obtain ⟨v, hv, hs⟩ := Decimal_round_trip_canonical s h
  exact ⟨{ value := v, scale := 0 }, hv, rfl, hs⟩

/-- Instance of C11: the literals `123` and `-45`. -/
theorem decimal_integer_round_trip_witness :
    (∃ d : Decimal, Decimal.construct ['1', '2', '3'] = .ok d ∧ d.scale = 0 ∧
      d.toString = ['1', '2', '3']) ∧
    (∃ d : Decimal, Decimal.construct ['-', '4', '5'] = .ok d ∧ d.scale = 0 ∧
      d.toString = ['-', '4', '5']) :=
  ⟨decimal_integer_round_trip ['1', '2', '3'] (by decide),
    decimal_integer_round_trip ['-', '4', '5'] (by decide)⟩

/-- Boundary of the canonical literals: `-0` is a valid literal that is not
canonical; it reads as value 0 with scale 0 and renders as `0`. -/
theorem Decimal_minus_zero_renders_zero :
    isCanonicalLiteral ['-', '0'] = false ∧
    Decimal.construct ['-', '0'] = .ok { value := 0, scale := 0 } ∧
    Decimal.toString { value := 0, scale := 0 } = ['0'] :=
  ⟨by decide, by rfl, by decide⟩

/-! ## Facts about `toString` of batches -/

theorem Batch_toStrings_eq_some (l : List Batch) (ss : List (List Char)) :
    Batch.toStrings l = some ss ↔ List.Forall₂ (fun b s => b.toString = some s) l ss := by
  induction l generalizing ss with
  | nil =>
    cases ss with
    | nil => simp [Batch.toStrings]
    | cons s ss => simp [Batch.toStrings]
  | cons x xs ih =>
    cases ss with
    | nil =>
      simp only [Batch.toStrings, List.forall₂_nil_right_iff]
      cases x.toString <;> cases Batch.toStrings xs <;> simp
    | cons s ss =>
      simp only [Batch.toStrings, List.forall₂_cons, ← ih ss]
      cases x.toString <;> cases Batch.toStrings xs <;> simp

theorem Batch_toString_struct (b : StructVectorBatch Batch) :
    Batch.toString (.struct b) = (Batch.toStrings b.fields).map (StructVectorBatch.toString b) := by
  cases b with
  | mk base fields =>
    simp only [Batch.toString]
    cases Batch.toStrings fields <;> rfl

theorem Batch_toString_union (b : UnionVectorBatch Batch) :
    Batch.toString (.union b) =
      (Batch.toStrings b.children).map (UnionVectorBatch.toString b) := by
  cases b with
  | mk base tags offsets children =>
    simp only [Batch.toString]
    cases Batch.toStrings children <;> rfl

theorem Batch_toString_list (b : ListVectorBatch Batch) (e : Batch) (se : List Char)
    (he : b.elements = some e) (hse : e.toString = some se) :
    Batch.toString (.list b) = some (ListVectorBatch.toString b se) := by
  cases b with
  | mk base offsets elements =>
    simp only at he
    subst he
    simp only [Batch.toString, hse]

theorem Batch_toString_map (b : MapVectorBatch Batch) (k e : Batch) (sk se : List Char)
    (hk : b.keys = some k) (he : b.elements = some e) (hsk : k.toString = some sk)
    (hse : e.toString = some se) :
    Batch.toString (.map b) = some (MapVectorBatch.toString b sk se) := by
  cases b with
  | mk base offsets keys elements =>
    simp only at hk he
    subst hk he
    simp only [Batch.toString, hsk, hse]

theorem StructVectorBatch_toStringLoop_eq (buffer : List Char) (ss : List (List Char)) :
    StructVectorBatch.toStringLoop buffer ss =
      buffer ++ (ss.map (· ++ "; ".toList)).flatten := by
  induction ss generalizing buffer with
  | nil => simp [StructVectorBatch.toStringLoop]
  | cons s rest ih =>
    rw [StructVectorBatch.toStringLoop, ih]
    simp [List.append_assoc]

theorem UnionVectorBatch_toStringLoop_succ (buffer : List Char) (i : Nat)
    (ss : List (List Char)) :
    UnionVectorBatch.toStringLoop buffer (i + 1) ss =
      buffer ++ (ss.map (", ".toList ++ ·)).flatten := by
  induction ss generalizing buffer i with
  | nil => simp [UnionVectorBatch.toStringLoop]
  | cons s rest ih =>
    rw [UnionVectorBatch.toStringLoop, if_pos (Nat.succ_ne_zero i), ih]
    simp [List.append_assoc]

theorem intercalate_cons (sep s : List Char) (rest : List (List Char)) :
    sep.intercalate (s :: rest) = s ++ (rest.map (sep ++ ·)).flatten := by
  induction rest generalizing s with
  | nil => simp [List.intercalate]
  | cons t rest ih =>
    have := ih t
    simp only [List.intercalate, List.intersperse, List.flatten, List.map_cons] at this ⊢
    rw [this, List.append_assoc]

theorem UnionVectorBatch_toStringLoop_zero (buffer : List Char) (ss : List (List Char)) :
    UnionVectorBatch.toStringLoop buffer 0 ss = buffer ++ ", ".toList.intercalate ss := by
  cases ss with
  | nil => simp [UnionVectorBatch.toStringLoop, List.intercalate]
  | cons s rest =>
    rw [UnionVectorBatch.toStringLoop, if_neg (by simp), UnionVectorBatch_toStringLoop_succ,
      intercalate_cons, List.append_assoc]

mutual
theorem Batch_toString_isSome : ∀ b : Batch, b.attached = true → ∃ s, b.toString = some s
  | .long b, _ => ⟨_, rfl⟩
  | .double b, _ => ⟨_, rfl⟩
  | .string b, _ => ⟨_, rfl⟩
  | .decimal64 b, _ => ⟨_, rfl⟩
  | .decimal128 b, _ => ⟨_, rfl⟩
  | .struct ⟨base, fields⟩, h => by
    have ⟨ss, hss⟩ := Batch_toStrings_isSome fields (by simpa [Batch.attached] using h)
    exact ⟨StructVectorBatch.toString (⟨base, fields⟩ : StructVectorBatch Batch) ss, by
      simp only [Batch.toString, hss]⟩
  | .union ⟨base, tags, offsets, children⟩, h => by
    have ⟨ss, hss⟩ := Batch_toStrings_isSome children (by simpa [Batch.attached] using h)
    exact ⟨UnionVectorBatch.toString
      (⟨base, tags, offsets, children⟩ : UnionVectorBatch Batch) ss, by
      simp only [Batch.toString, hss]⟩
  | .list ⟨base, offsets, some e⟩, h => by
    have ⟨s, hs⟩ := Batch_toString_isSome e (by simpa [Batch.attached] using h)
    exact ⟨_, Batch_toString_list ⟨base, offsets, some e⟩ e s rfl hs⟩
  | .list ⟨base, offsets, none⟩, h => by simp [Batch.attached] at h
  | .map ⟨base, offsets, some k, some e⟩, h => by
    have h' : k.attached = true ∧ e.attached = true := by simpa [Batch.attached] using h
    have ⟨sk, hsk⟩ := Batch_toString_isSome k h'.1
    have ⟨se, hse⟩ := Batch_toString_isSome e h'.2
    exact ⟨_, Batch_toString_map ⟨base, offsets, some k, some e⟩ k e sk se rfl rfl hsk hse⟩
  | .map ⟨base, offsets, none, _⟩, h => by simp [Batch.attached] at h
  | .map ⟨base, offsets, some _, none⟩, h => by simp [Batch.attached] at h
theorem Batch_toStrings_isSome :
    ∀ l : List Batch, Batch.allAttached l = true → ∃ ss, Batch.toStrings l = some ss
  | [], _ => ⟨[], rfl⟩
  | x :: xs, h => by
    have h' : x.attached = true ∧ Batch.allAttached xs = true := by
      simpa [Batch.allAttached] using h
    have ⟨s, hs⟩ := Batch_toString_isSome x h'.1
    have ⟨ss, hss⟩ := Batch_toStrings_isSome xs h'.2
    exact ⟨s :: ss, by simp only [Batch.toStrings, hs, hss]⟩
end

/-! ## Description of a struct batch (C13) -/

/-- C13. For every struct batch whose fields return the texts `strs`, in field
order, `toString()` returns `Struct vector <`, numElements, ` of `, capacity,
`; `, then each field text followed by `; `, in field order, then `>`. For two
fields the result is the wrapper around the first field text, `; `, the second
field text, `; `. -/
theorem struct_toString_fields_in_order :
    (∀ (b : StructVectorBatch Batch) (strs : List (List Char)),
      List.Forall₂ (fun f s => f.toString = some s) b.fields strs →
      Batch.toString (.struct b) =
        some ("Struct vector <".toList ++ natToString b.numElements ++ " of ".toList ++
          natToString b.capacity ++ "; ".toList ++
          (strs.map (· ++ "; ".toList)).flatten ++ ">".toList)) ∧
    (∀ (b : StructVectorBatch Batch) (f₀ f₁ : Batch) (s₀ s₁ : List Char),
      b.fields = [f₀, f₁] → f₀.toString = some s₀ → f₁.toString = some s₁ →
      Batch.toString (.struct b) =
        some ("Struct vector <".toList ++ natToString b.numElements ++ " of ".toList ++
          natToString b.capacity ++ "; ".toList ++
          s₀ ++ "; ".toList ++ s₁ ++ "; ".toList ++ ">".toList)) := by
  have main : ∀ (b : StructVectorBatch Batch) (strs : List (List Char)),
      List.Forall₂ (fun f s => f.toString = some s) b.fields strs →
      Batch.toString (.struct b) =
        some ("Struct vector <".toList ++ natToString b.numElements ++ " of ".toList ++
          natToString b.capacity ++ "; ".toList ++
          (strs.map (· ++ "; ".toList)).flatten ++ ">".toList) := by
    intro b strs h
    rw [Batch_toString_struct, (Batch_toStrings_eq_some _ _).mpr h]
    simp only [Option.map_some', StructVectorBatch.toString, StructVectorBatch_toStringLoop_eq]
  refine ⟨main, fun b f₀ f₁ s₀ s₁ hf h₀ h₁ => ?_⟩
  have h : List.Forall₂ (fun f s => f.toString = some s) b.fields [s₀, s₁] := by
    rw [hf]
    exact List.Forall₂.cons h₀ (List.Forall₂.cons h₁ List.Forall₂.nil)
  rw [main b [s₀, s₁] h]
  simp [List.append_assoc]

/-- Instance of C13: a struct batch with a long field and a double field. -/
theorem struct_toString_fields_in_order_witness :
    Batch.toString (.struct sampleStruct) =
      some "Struct vector <2 of 3; Long vector <2 of 2>; Double vector <1 of 4>; >".toList :=
  (struct_toString_fields_in_order.2 sampleStruct sampleLong sampleDouble
    "Long vector <2 of 2>".toList "Double vector <1 of 4>".toList rfl (by decide)
    (by decide)).trans (by decide)

/-! ## Label and counts in every description (C14) -/

theorem Batch_toString_label_counts (b : Batch) (str : List Char)
    (h : b.toString = some str) :
    b.kind.label <+: str ∧
      (natToString b.numElements ++ " of ".toList ++ natToString b.capacity) <:+: str := by
  cases b with
  | long b =>
    obtain rfl : b.toString = str := by simpa [Batch.toString] using h
    exact ⟨⟨" <".toList ++ natToString b.numElements ++ " of ".toList ++
        natToString b.capacity ++ ">".toList, by
        simp [Batch.kind, Kind.label, LongVectorBatch.toString]⟩,
      ⟨"Long vector <".toList, ">".toList, by
        simp [LongVectorBatch.toString, Batch.numElements, Batch.capacity, Batch.base]⟩⟩
  | double b =>
    obtain rfl : b.toString = str := by simpa [Batch.toString] using h
    exact ⟨⟨" <".toList ++ natToString b.numElements ++ " of ".toList ++
        natToString b.capacity ++ ">".toList, by
        simp [Batch.kind, Kind.label, DoubleVectorBatch.toString]⟩,
      ⟨"Double vector <".toList, ">".toList, by
        simp [DoubleVectorBatch.toString, Batch.numElements, Batch.capacity, Batch.base]⟩⟩
  | string b =>
    obtain rfl : b.toString = str := by simpa [Batch.toString] using h
    exact ⟨⟨" <".toList ++ natToString b.numElements ++ " of ".toList ++
        natToString b.capacity ++ ">".toList, by
        simp [Batch.kind, Kind.label, StringVectorBatch.toString]⟩,
      ⟨"Byte vector <".toList, ">".toList, by
        simp [StringVectorBatch.toString, Batch.numElements, Batch.capacity, Batch.base]⟩⟩
  | decimal64 b =>
    obtain rfl : b.toString = str := by simpa [Batch.toString] using h
    exact ⟨⟨"  with ".toList ++ natToString b.numElements ++ " of ".toList ++
        natToString b.capacity ++ ">".toList, by
        simp [Batch.kind, Kind.label, Decimal64VectorBatch.toString]⟩,
      ⟨"Decimal64 vector  with ".toList, ">".toList, by
        simp [Decimal64VectorBatch.toString, Batch.numElements, Batch.capacity, Batch.base]⟩⟩
  | decimal128 b =>
    obtain rfl : b.toString = str := by simpa [Batch.toString] using h
    exact ⟨⟨"  with ".toList ++ natToString b.numElements ++ " of ".toList ++
        natToString b.capacity ++ ">".toList, by
        simp [Batch.kind, Kind.label, Decimal128VectorBatch.toString]⟩,
      ⟨"Decimal128 vector  with ".toList, ">".toList, by
        simp [Decimal128VectorBatch.toString, Batch.numElements, Batch.capacity, Batch.base]⟩⟩
  | struct b =>
    rw [Batch_toString_struct] at h
    cases hss : Batch.toStrings b.fields with
    | none => rw [hss] at h; exact absurd h (by simp)
    | some ss =>
      rw [hss] at h
      obtain rfl : StructVectorBatch.toString b ss = str := by simpa using h
      exact ⟨⟨" <".toList ++ natToString b.numElements ++ " of ".toList ++
          natToString b.capacity ++ "; ".toList ++ (ss.map (· ++ "; ".toList)).flatten ++
          ">".toList, by
          simp [Batch.kind, Kind.label, StructVectorBatch.toString,
            StructVectorBatch_toStringLoop_eq]⟩,
        ⟨"Struct vector <".toList,
          "; ".toList ++ (ss.map (· ++ "; ".toList)).flatten ++ ">".toList, by
          simp [StructVectorBatch.toString, StructVectorBatch_toStringLoop_eq,
            Batch.numElements, Batch.capacity, Batch.base]⟩⟩
  | union b =>
    rw [Batch_toString_union] at h
    cases hss : Batch.toStrings b.children with
    | none => rw [hss] at h; exact absurd h (by simp)
    | some ss =>
      rw [hss] at h
      obtain rfl : UnionVectorBatch.toString b ss = str := by simpa using h
      exact ⟨⟨" <".toList ++ ", ".toList.intercalate ss ++ "; with ".toList ++
          natToString b.numElements ++ " of ".toList ++ natToString b.capacity ++ ">".toList, by
          simp [Batch.kind, Kind.label, UnionVectorBatch.toString,
            UnionVectorBatch_toStringLoop_zero]⟩,
        ⟨"Union vector <".toList ++ ", ".toList.intercalate ss ++ "; with ".toList,
          ">".toList, by
          simp [UnionVectorBatch.toString, UnionVectorBatch_toStringLoop_zero,
            Batch.numElements, Batch.capacity, Batch.base]⟩⟩
  | list b =>
    cases he : b.elements with
    | none =>
      cases b with
      | mk base offsets elements =>
        simp only at he
        subst he
        simp [Batch.toString] at h
    | some e =>
      cases hse : e.toString with
      | none =>
        cases b with
        | mk base offsets elements =>
          simp only at he
          subst he
          simp [Batch.toString, hse] at h
      | some se =>
        rw [Batch_toString_list b e se he hse] at h
        obtain rfl : ListVectorBatch.toString b se = str := by simpa using h
        exact ⟨⟨" <".toList ++ se ++ " with ".toList ++ natToString b.numElements ++
            " of ".toList ++ natToString b.capacity ++ ">".toList, by
            simp [Batch.kind, Kind.label, ListVectorBatch.toString]⟩,
          ⟨"List vector <".toList ++ se ++ " with ".toList, ">".toList, by
            simp [ListVectorBatch.toString, Batch.numElements, Batch.capacity, Batch.base]⟩⟩
  | map b =>
    cases hk : b.keys with
    | none =>
      cases b with
      | mk base offsets keys elements =>
        simp only at hk
        subst hk
        simp [Batch.toString] at h
    | some k =>
      cases he : b.elements with
      | none =>
        cases b with
        | mk base offsets keys elements =>
          simp only at hk he
          subst hk he
          simp [Batch.toString] at h
      | some e =>
        cases hsk : k.toString with
        | none =>
          cases b with
          | mk base offsets keys elements =>
            simp only at hk he
            subst hk he
            simp [Batch.toString, hsk] at h
        | some sk =>
          cases hse : e.toString with
          | none =>
            cases b with
            | mk base offsets keys elements =>
              simp only at hk he
              subst hk he
              simp [Batch.toString, hsk, hse] at h
          | some se =>
            rw [Batch_toString_map b k e sk se hk he hsk hse] at h
            obtain rfl : MapVectorBatch.toString b sk se = str := by simpa using h
            exact ⟨⟨" <".toList ++ sk ++ ", ".toList ++ se ++ " with ".toList ++
                natToString b.numElements ++ " of ".toList ++ natToString b.capacity ++
                ">".toList, by
                simp [Batch.kind, Kind.label, MapVectorBatch.toString]⟩,
              ⟨"Map vector <".toList ++ sk ++ ", ".toList ++ se ++ " with ".toList,
                ">".toList, by
                simp [MapVectorBatch.toString, Batch.numElements, Batch.capacity,
                  Batch.base]⟩⟩

/-- C14. For each of the nine concrete kinds and every state in which every
`elements` and `keys` pointer of the batch and of the batches below it is set,
`toString()` returns a text that begins with the label of the kind and contains
the decimal rendering of numElements, then ` of `, then the decimal rendering
of capacity. -/
theorem toString_label_and_counts (b : Batch) (h : b.attached = true) :
    ∃ str, b.toString = some str ∧ b.kind.label <+: str ∧
      (natToString b.numElements ++ " of ".toList ++ natToString b.capacity) <:+: str := by
  obtain ⟨str, hstr⟩ := Batch_toString_isSome b h
  exact ⟨str, hstr, Batch_toString_label_counts b str hstr⟩

/-- Instance of C14: the sample union batch with a long child. -/
theorem toString_label_and_counts_witness :
    ∃ str, sampleUnion.toString = some str ∧ "Union vector".toList <+: str ∧
      "2 of 4".toList <:+: str :=
  toString_label_and_counts sampleUnion (by decide)

/-! ## Descriptions are structural (C15) -/

theorem ListVectorBatch_toString_congr (b b' : ListVectorBatch Batch) (s : List Char)
    (hn : b.numElements = b'.numElements) (hc : b.capacity = b'.capacity) :
    b.toString s = b'.toString s := by
  simp only [ListVectorBatch.toString, hn, hc]

theorem MapVectorBatch_toString_congr (b b' : MapVectorBatch Batch) (sk se : List Char)
    (hn : b.numElements = b'.numElements) (hc : b.capacity = b'.capacity) :
    b.toString sk se = b'.toString sk se := by
  simp only [MapVectorBatch.toString, hn, hc]

theorem UnionVectorBatch_toString_congr (b b' : UnionVectorBatch Batch) (ss : List (List Char))
    (hn : b.numElements = b'.numElements) (hc : b.capacity = b'.capacity) :
    b.toString ss = b'.toString ss := by
  simp only [UnionVectorBatch.toString, hn, hc]

theorem Batch_toString_list_congr (b b' : ListVectorBatch Batch)
    (hn : b.numElements = b'.numElements) (hc : b.capacity = b'.capacity)
    (he : b.elements = b'.elements) :
    Batch.toString (.list b) = Batch.toString (.list b') := by
  have hcg := ListVectorBatch_toString_congr b b'
  cases b with
  | mk base offsets elements =>
    cases b' with
    | mk base' offsets' elements' =>
      simp only at he
      subst he
      cases elements with
      | none => simp only [Batch.toString]
      | some e =>
        cases hse : e.toString with
        | none => simp only [Batch.toString, hse]
        | some se =>
          simp only [Batch.toString, hse]
          exact congrArg some (hcg se hn hc)

theorem Batch_toString_map_congr (b b' : MapVectorBatch Batch)
    (hn : b.numElements = b'.numElements) (hc : b.capacity = b'.capacity)
    (hk : b.keys = b'.keys) (he : b.elements = b'.elements) :
    Batch.toString (.map b) = Batch.toString (.map b') := by
  have hcg := MapVectorBatch_toString_congr b b'
  cases b with
  | mk base offsets keys elements =>
    cases b' with
    | mk base' offsets' keys' elements' =>
      simp only at hk he
      subst hk he
      cases keys with
      | none => simp only [Batch.toString]
      | some k =>
        cases elements with
        | none => simp only [Batch.toString]
        | some e =>
          cases hsk : k.toString with
          | none => simp only [Batch.toString, hsk]
          | some sk =>
            cases hse : e.toString with
            | none => simp only [Batch.toString, hsk, hse]
            | some se =>
              simp only [Batch.toString, hsk, hse]
              exact congrArg some (hcg sk se hn hc)

theorem Batch_toString_union_congr (b b' : UnionVectorBatch Batch)
    (hn : b.numElements = b'.numElements) (hc : b.capacity = b'.capacity)
    (hch : b.children = b'.children) :
    Batch.toString (.union b) = Batch.toString (.union b') := by
  rw [Batch_toString_union, Batch_toString_union, hch]
  cases Batch.toStrings b'.children with
  | none => rfl
  | some ss => exact congrArg some (UnionVectorBatch_toString_congr b b' ss hn hc)

/-- C15. The description of a list, map or union batch is built from the
descriptions of its children and its two counts only. A list batch whose
`elements` child returns `se` returns `List vector <`, `se`, ` with `, the
counts, `>`; a map batch returns `Map vector <`, the text of `keys`, `, `, the
text of `elements`, ` with `, the counts, `>`; a union batch returns
`Union vector <`, the texts of all children in index order separated by `, `,
`; with `, the counts, `>`. The call succeeds whenever every child pointer of
the batch and below it is set. Two list (map, union) batches with the same
numElements, capacity and children have the same description, whatever their
offsets, tags and notNull buffers hold. -/
theorem toString_structural :
    (∀ (b : ListVectorBatch Batch) (e : Batch) (se : List Char),
      b.elements = some e → e.toString = some se →
      Batch.toString (.list b) =
        some ("List vector <".toList ++ se ++ " with ".toList ++
          natToString b.numElements ++ " of ".toList ++ natToString b.capacity ++
          ">".toList)) ∧
    (∀ (b : MapVectorBatch Batch) (k e : Batch) (sk se : List Char),
      b.keys = some k → b.elements = some e → k.toString = some sk → e.toString = some se →
      Batch.toString (.map b) =
        some ("Map vector <".toList ++ sk ++ ", ".toList ++ se ++ " with ".toList ++
          natToString b.numElements ++ " of ".toList ++ natToString b.capacity ++
          ">".toList)) ∧
    (∀ (b : UnionVectorBatch Batch) (strs : List (List Char)),
      List.Forall₂ (fun c s => c.toString = some s) b.children strs →
      Batch.toString (.union b) =
        some ("Union vector <".toList ++ ", ".toList.intercalate strs ++ "; with ".toList ++
          natToString b.numElements ++ " of ".toList ++ natToString b.capacity ++
          ">".toList)) ∧
    (∀ b : Batch, b.attached = true → ∃ str, b.toString = some str) ∧
    (∀ b b' : ListVectorBatch Batch, b.numElements = b'.numElements →
      b.capacity = b'.capacity → b.elements = b'.elements →
      Batch.toString (.list b) = Batch.toString (.list b')) ∧
    (∀ b b' : MapVectorBatch Batch, b.numElements = b'.numElements →
      b.capacity = b'.capacity → b.keys = b'.keys → b.elements = b'.elements →
      Batch.toString (.map b) = Batch.toString (.map b')) ∧
    (∀ b b' : UnionVectorBatch Batch, b.numElements = b'.numElements →
      b.capacity = b'.capacity → b.children = b'.children →
      Batch.toString (.union b) = Batch.toString (.union b')) := by
  refine ⟨fun b e se he hse => ?_, fun b k e sk se hk he hsk hse => ?_, fun b strs h => ?_,
    Batch_toString_isSome, Batch_toString_list_congr, Batch_toString_map_congr,
    Batch_toString_union_congr⟩
  · rw [Batch_toString_list b e se he hse]; rfl
  · rw [Batch_toString_map b k e sk se hk he hsk hse]; rfl
  · rw [Batch_toString_union, (Batch_toStrings_eq_some _ _).mpr h]
    simp only [Option.map_some', UnionVectorBatch.toString, UnionVectorBatch_toStringLoop_zero]

/-- Instance of C15: the list batch of three rows with offsets `[0, 2, 2, 5]`
over a long batch of five elements; its description holds the description of
the elements child, and is the same after the offsets are overwritten. -/
theorem toString_structural_witness :
    Batch.toString (.list sampleListRows) =
      some "List vector <Long vector <5 of 5> with 3 of 3>".toList ∧
    Batch.toString (.list { sampleListRows with offsets := ⟨[0, 0, 0, 0]⟩ }) =
      Batch.toString (.list sampleListRows) :=
  ⟨(toString_structural.1 sampleListRows
      (.long { LongVectorBatch.construct 5 zeroPool with numElements := 5 })
      "Long vector <5 of 5>".toList rfl (by decide)).trans (by decide),
    toString_structural.2.2.2.2.1 _ sampleListRows rfl rfl rfl⟩

/-! ## Destruction (C16) -/

theorem range_filterMap_getElem? {β : Type} (l : List β) :
    (List.range l.length).filterMap (fun i => l[i]?) = l := by
  induction l with
  | nil => rfl
  | cons x xs ih =>
    rw [List.length_cons, List.range_succ_eq_map, List.filterMap_cons]
    simp only [List.getElem?_cons_zero, List.filterMap_map]
    congr 1
    have hfun : ((fun i => (x :: xs)[i]?) ∘ Nat.succ) = fun i => xs[i]? := by
      funext i
      simp
    rw [hfun]
    exact ih

/-- C16. The destructor of a struct batch passes to `delete` exactly the
entries `fields[0]`, ..., `fields[k-1]`, in index order, one call per entry,
and the destructor of a union batch does the same for `children`. When the
entries are pairwise distinct every one of them is released exactly once and
nothing else is released. The destructors of the list and map batches release
nothing. -/
theorem destructor_releases_each_child_once :
    (∀ (β : Type) (b : StructVectorBatch β), b.destructor = b.fields) ∧
    (∀ (β : Type) (b : UnionVectorBatch β), b.destructor = b.children) ∧
    (∀ (β : Type) [DecidableEq β] (b : StructVectorBatch β), b.fields.Nodup →
      (∀ x ∈ b.fields, b.destructor.count x = 1) ∧
      (∀ x, x ∉ b.fields → b.destructor.count x = 0)) ∧
    (∀ (β : Type) [DecidableEq β] (b : UnionVectorBatch β), b.children.Nodup →
      (∀ x ∈ b.children, b.destructor.count x = 1) ∧
      (∀ x, x ∉ b.children → b.destructor.count x = 0)) ∧
    (∀ (β : Type) (b : ListVectorBatch β), b.destructor = []) ∧
    (∀ (β : Type) (b : MapVectorBatch β), b.destructor = []) := by
  have hs : ∀ (β : Type) (b : StructVectorBatch β), b.destructor = b.fields :=
    fun β b => range_filterMap_getElem? b.fields
  have hu : ∀ (β : Type) (b : UnionVectorBatch β), b.destructor = b.children :=
    fun β b => range_filterMap_getElem? b.children
  refine ⟨hs, hu, ?_, ?_, fun _ _ => rfl, fun _ _ => rfl⟩
  · intro β _ b hnd
    rw [hs]
    exact ⟨fun x hx => List.count_eq_one_of_mem hnd hx,
      fun x hx => List.count_eq_zero_of_not_mem hx⟩
  · intro β _ b hnd
    rw [hu]
    exact ⟨fun x hx => List.count_eq_one_of_mem hnd hx,
      fun x hx => List.count_eq_zero_of_not_mem hx⟩

/-- Instance of C16: a struct batch over the three distinct handles 7, 3, 9. -/
theorem destructor_releases_each_child_once_witness :
    ({ (StructVectorBatch.construct 2 zeroPool : StructVectorBatch Nat) with
        fields := [7, 3, 9] }).destructor = [7, 3, 9] ∧
    ({ (StructVectorBatch.construct 2 zeroPool : StructVectorBatch Nat) with
        fields := [7, 3, 9] }).destructor.count 3 = 1 :=
  ⟨destructor_releases_each_child_once.1 Nat _,
    (destructor_releases_each_child_once.2.2.1 Nat
      { (StructVectorBatch.construct 2 zeroPool : StructVectorBatch Nat) with
        fields := [7, 3, 9] } (by decide)).1 3 (by decide)⟩

/-! ## Facts about the buffers a derived `resize` touches -/

theorem DataBuffer_resize_resize (x : DataBuffer) (a c : Nat) (f : Nat → Cell) (h : a ≤ c) :
    (x.resize a f).resize c f = x.resize c f := by
  by_cases ha : a ≤ x.size
  · rw [DataBuffer_resize_of_le x a f ha]
  · have hsz : (x.resize a f).size = a := DataBuffer_size_resize_of_le x a f (by omega)
    by_cases hc : c ≤ a
    · have hac : a = c := Nat.le_antisymm h hc
      subst hac
      exact DataBuffer_resize_of_le _ _ _ (Nat.le_of_eq hsz.symm)
    · have h1 : ¬ c ≤ (x.resize a f).size := by omega
      have h2 : ¬ c ≤ x.size := by omega
      have h3 : DataBuffer.size { buf := x.buf ++ List.map f (List.range' x.size (a - x.size)) }
          = a := by
        have := hsz
        rwa [DataBuffer.resize, if_neg ha] at this
      rw [DataBuffer.resize, if_neg h1, DataBuffer.resize, if_neg ha, h3]
      rw [DataBuffer.resize, if_neg h2]
      have hr : List.range' x.size (c - x.size) =
          List.range' x.size (a - x.size) ++ List.range' a (c - a) := by
        have := List.range'_append x.size (a - x.size) (c - a) 1
        rw [Nat.one_mul, Nat.add_sub_of_le (by omega : x.size ≤ a)] at this
        rw [this]
        congr 1
        omega
      rw [hr, List.map_append, List.append_assoc]

theorem ColumnVectorBatch_resize_resize (b : ColumnVectorBatch) (a c : Nat) (h : a ≤ c) :
    (b.resize a).resize c = b.resize c := by
  by_cases ha : b.capacity < a
  · have hc : b.capacity < c := by omega
    by_cases hac : a < c
    · simp [ColumnVectorBatch.resize, ha, hc, hac, DataBuffer_resize_resize _ _ _ _ h]
    · have e : a = c := by omega
      subst e
      simp [ColumnVectorBatch.resize, ha]
  · rw [ColumnVectorBatch_resize_of_le b a (Nat.not_lt.mp ha)]

theorem Batch_resize_resize_of_lt (b : Batch) (a c : Nat) (hac : a < c)
    (hk : b.kind = .list ∨ b.kind = .map → b.capacity < c → c + 1 < UINT64_MOD) :
    (b.resize a).resize c = b.resize c := by
  by_cases ha : b.capacity < a
  · have hc : b.capacity < c := by omega
    have hle : a ≤ c := Nat.le_of_lt hac
    cases b with
    | list b =>
      have hm := hk (Or.inl rfl) hc
      have h1 : (a + 1) % UINT64_MOD ≤ (c + 1) % UINT64_MOD := by
        rw [Nat.mod_eq_of_lt hm, Nat.mod_eq_of_lt (by omega)]; omega
      simp only [Batch.capacity, Batch.base] at ha hc
      simp [Batch.resize, ListVectorBatch.resize, ColumnVectorBatch.resize, ha, hc, hac,
        DataBuffer_resize_resize _ _ _ _ hle, DataBuffer_resize_resize _ _ _ _ h1]
    | map b =>
      have hm := hk (Or.inr rfl) hc
      have h1 : (a + 1) % UINT64_MOD ≤ (c + 1) % UINT64_MOD := by
        rw [Nat.mod_eq_of_lt hm, Nat.mod_eq_of_lt (by omega)]; omega
      simp only [Batch.capacity, Batch.base] at ha hc
      simp [Batch.resize, MapVectorBatch.resize, ColumnVectorBatch.resize, ha, hc, hac,
        DataBuffer_resize_resize _ _ _ _ hle, DataBuffer_resize_resize _ _ _ _ h1]
    | long b =>
      simp only [Batch.capacity, Batch.base] at ha hc
      simp [Batch.resize, LongVectorBatch.resize, ColumnVectorBatch.resize, ha, hc, hac,
        DataBuffer_resize_resize _ _ _ _ hle]
    | double b =>
      simp only [Batch.capacity, Batch.base] at ha hc
      simp [Batch.resize, DoubleVectorBatch.resize, ColumnVectorBatch.resize, ha, hc, hac,
        DataBuffer_resize_resize _ _ _ _ hle]
    | string b =>
      simp only [Batch.capacity, Batch.base] at ha hc
      simp [Batch.resize, StringVectorBatch.resize, ColumnVectorBatch.resize, ha, hc, hac,
        DataBuffer_resize_resize _ _ _ _ hle]
    | struct b =>
      simp only [Batch.capacity, Batch.base] at ha hc
      simp [Batch.resize, StructVectorBatch.resize, ColumnVectorBatch.resize, ha, hc, hac,
        DataBuffer_resize_resize _ _ _ _ hle]
    | union b =>
      simp only [Batch.capacity, Batch.base] at ha hc
      simp [Batch.resize, UnionVectorBatch.resize, ColumnVectorBatch.resize, ha, hc, hac,
        DataBuffer_resize_resize _ _ _ _ hle]
    | decimal64 b =>
      simp only [Batch.capacity, Batch.base] at ha hc
      simp [Batch.resize, Decimal64VectorBatch.resize, ColumnVectorBatch.resize, ha, hc, hac,
        DataBuffer_resize_resize _ _ _ _ hle]
    | decimal128 b =>
      simp only [Batch.capacity, Batch.base] at ha hc
      simp [Batch.resize, Decimal128VectorBatch.resize, ColumnVectorBatch.resize, ha, hc, hac,
        DataBuffer_resize_resize _ _ _ _ hle]
  · rw [Batch_resize_of_le b a (Nat.not_lt.mp ha)]

theorem Batch_resize_resize_max (b : Batch) (a c : Nat)
    (hk : b.kind = .list ∨ b.kind = .map → b.capacity < c → c + 1 < UINT64_MOD) :
    (b.resize a).resize c = b.resize (max a c) := by
  by_cases hac : a < c
  · rw [Nat.max_eq_right (Nat.le_of_lt hac)]
    exact Batch_resize_resize_of_lt b a c hac hk
  · rw [Nat.max_eq_left (Nat.not_lt.mp hac)]
    apply Batch_resize_of_le
    rw [Batch_capacity_resize]
    exact Nat.le_trans (Nat.not_lt.mp hac) (Nat.le_max_right _ _)

theorem ColumnVectorBatch_resize_resize_max (b : ColumnVectorBatch) (a c : Nat) :
    (b.resize a).resize c = b.resize (max a c) := by
  by_cases hac : a ≤ c
  · rw [Nat.max_eq_right hac]
    exact ColumnVectorBatch_resize_resize b a c hac
  · rw [Nat.max_eq_left (by omega)]
    apply ColumnVectorBatch_resize_of_le
    rw [ColumnVectorBatch_capacity_resize]
    exact Nat.le_trans (by omega) (Nat.le_max_right _ _)

/-! ## Fractional literals denote a tenth of their value (C19) -/

theorem digitChar_isDigit (d : Nat) (h : d < 10) : (digitChar d).isDigit = true := by
  interval_cases d <;> decide

theorem natToString_all_isDigit (n : Nat) : (natToString n).all Char.isDigit = true := by
  induction n using Nat.strong_induction_on with
  | _ n ih =>
    by_cases h : n < 10
    · rw [natToString_of_lt n h]
      simp [digitChar_isDigit n h]
    · rw [natToString_of_ge n (by omega), List.all_append, ih (n / 10) (by omega)]
      simp [digitChar_isDigit (n % 10) (Nat.mod_lt _ (by decide))]

theorem toDecimalString_shape (v : Int) (k : Nat) (hk : 0 < k) :
    ∃ pre frac : List Char,
      Int128.toDecimalString v (k : Int) = pre ++ '.' :: frac ∧ frac.length = k ∧
        '.' ∉ frac := by
  have hsc : ¬ ((k : Int) ≤ 0) := by omega
  have hpad : ∀ c ∈ List.replicate (k + 1 - (natToString v.natAbs).length) '0' ++
      natToString v.natAbs, c ≠ '.' := by
    intro c hc
    rcases List.mem_append.mp hc with h | h
    · rw [(List.mem_replicate.mp h).2]; decide
    · intro e
      rw [e] at h
      exact not_mem_of_all_isDigit _ '.' (by decide) (natToString_all_isDigit _) h
  have hlen : k + 1 ≤ (List.replicate (k + 1 - (natToString v.natAbs).length) '0' ++
      natToString v.natAbs).length := by
    rw [List.length_append, List.length_replicate]; omega
  have hfrac : ∀ l : List Char, k + 1 ≤ l.length → (∀ c ∈ l, c ≠ '.') →
      (l.drop (l.length - k)).length = k ∧ '.' ∉ l.drop (l.length - k) := by
    intro l hl hc
    refine ⟨by rw [List.length_drop]; omega, fun hm => ?_⟩
    exact hc '.' (List.mem_of_mem_drop hm) rfl
  obtain ⟨h1, h2⟩ := hfrac _ hlen hpad
  unfold Int128.toDecimalString
  rw [if_neg hsc]
  simp only [Int.toNat_ofNat]
  split
  · exact ⟨'-' :: _, _, rfl, h1, h2⟩
  · exact ⟨_, _, rfl, h1, h2⟩

theorem fraction_unique (pre i frac f : List Char) (h : pre ++ '.' :: frac = i ++ '.' :: f)
    (hfrac : '.' ∉ frac) (hf : '.' ∉ f) : frac = f := by
  rcases List.append_eq_append_iff.mp h with ⟨a, _, ha⟩ | ⟨a, _, ha⟩
  · cases a with
    | nil => simpa using ha
    | cons x xs =>
      have hx : frac = xs ++ '.' :: f := (List.cons.inj ha).2
      exact absurd (by rw [hx]; simp) hfrac
  · cases a with
    | nil => simpa using ha.symm
    | cons x xs =>
      have hx : f = xs ++ '.' :: frac := (List.cons.inj ha).2
      exact absurd (by rw [hx]; simp) hf

theorem Int128_construct_no_point (t : List Char) (N : Int)
    (h : Int128.construct t = .ok N) : '.' ∉ t := by
  intro hm
  rw [Int128_construct_of_not_literal t
    (not_literal_of_mem t '.' hm (by decide) (by decide))] at h
  exact absurd h (by simp)

theorem find_append_point (i f : List Char) (hi : '.' ∉ i) :
    find (i ++ '.' :: f) '.' = some i.length := by
  apply find_eq_some
  · rw [List.getElem?_append_right (Nat.le_refl _), Nat.sub_self]
    exact List.getElem?_cons_zero
  · intro j hj hc
    rw [List.getElem?_append_left hj] at hc
    obtain ⟨hlt, hget⟩ := List.getElem?_eq_some_iff.mp hc
    exact hi (hget ▸ List.getElem_mem hlt)

theorem Decimal_construct_fraction (i f : List Char) (N : Int)
    (hN : Int128.construct (i ++ f) = .ok N) :
    Decimal.construct (i ++ '.' :: f) =
      .ok { value := N, scale := toInt32 (f.length + 1) } := by
  have hno := Int128_construct_no_point _ N hN
  have hi : '.' ∉ i := fun h => hno (List.mem_append_left f h)
  have hfind := find_append_point i f hi
  have her : replace1 (i ++ '.' :: f) i.length = i ++ f := by
    rw [erase_of_find_some _ '.' _ hfind, List.erase_append_right _ hi]
    simp
  have hl : (i ++ '.' :: f).length - i.length = f.length + 1 := by
    rw [List.length_append, List.length_cons]; omega
  simp only [Decimal.construct, hfind, her, hl, hN]
  rfl

theorem Int128_digits_append (l r : List Char) (acc m : Nat)
    (h : Int128.digits acc l = some m) :
    Int128.digits acc (l ++ r) = Int128.digits m r := by
  induction l generalizing acc with
  | nil =>
    obtain rfl : acc = m := by simpa [Int128.digits] using h
    rfl
  | cons c cs ih =>
    rw [Int128.digits] at h
    rw [List.cons_append, Int128.digits]
    split
    · next hc => rw [if_pos hc] at h; exact ih _ h
    · next hc => rw [if_neg hc] at h; exact absurd h (by simp)

theorem Int128_construct_zeros_one (k : Nat) :
    Int128.construct ('0' :: (List.replicate k '0' ++ ['1'])) = .ok 1 := by
  have h0 : Int128.digits 0 (List.replicate (k + 1) '0') = some 0 := by
    rw [Int128_digits_replicate_zero, Nat.zero_mul]
  have h1 : Int128.digits 0 ('0' :: (List.replicate k '0' ++ ['1'])) = some 1 := by
    have := Int128_digits_append (List.replicate (k + 1) '0') ['1'] 0 0 h0
    rw [List.replicate_succ, List.cons_append] at this
    rw [this]
    rfl
  simp only [Int128.construct, Int128.magnitude, h1]
  rfl

theorem rat_neg_scale_ne (m : Nat) (hm : 0 < m) :
    (1 : ℚ) / (10 : ℚ) ^ (-(m : Int)) ≠ 1 / (10 : ℚ) ^ m := by
  have hx : (1 : ℚ) < (10 : ℚ) ^ m := one_lt_pow₀ (by norm_num) (Nat.pos_iff_ne_zero.mp hm)
  rw [zpow_neg, zpow_natCast, one_div, inv_inv]
  intro h
  have hne : (10 : ℚ) ^ m ≠ 0 := by positivity
  have h2 : (1 : ℚ) / (10 : ℚ) ^ m * (10 : ℚ) ^ m = 1 := div_mul_cancel₀ 1 hne
  rw [← h] at h2
  nlinarith

/-- C19, as stated, fails on a literal with `2 ^ 31 - 1` fractional digits: for
`0.` followed by `2 ^ 31 - 2` zeros and a `1`, the digits form the integer 1,
and the constructor stores value 1 with scale `-2 ^ 31`, so that
`value / 10 ^ scale` is `10 ^ (2 ^ 31)` and not `1 / 10 ^ (d + 1)`. -/
theorem decimal_fraction_int32_counterexample :
    (List.replicate (2 ^ 31 - 2) '0' ++ ['1']).length = 2 ^ 31 - 1 ∧
    Int128.construct ('0' :: (List.replicate (2 ^ 31 - 2) '0' ++ ['1'])) = .ok 1 ∧
    Decimal.construct ('0' :: '.' :: (List.replicate (2 ^ 31 - 2) '0' ++ ['1'])) =
      .ok { value := 1, scale := -2 ^ 31 } ∧
    Decimal.toRat { value := 1, scale := -2 ^ 31 } ≠ (1 : ℚ) / (10 : ℚ) ^ (2 ^ 31 - 1 + 1) := by
  have hlen : (List.replicate (2 ^ 31 - 2) '0' ++ ['1']).length = 2 ^ 31 - 1 := by
    rw [List.length_append, List.length_replicate]; norm_num
  have hs : toInt32 (2 ^ 31 - 1 + 1) = -2 ^ 31 := by norm_num [toInt32]
  refine ⟨hlen, Int128_construct_zeros_one _, ?_, ?_⟩
  · have h := Decimal_construct_fraction ['0'] (List.replicate (2 ^ 31 - 2) '0' ++ ['1']) 1
      (Int128_construct_zeros_one _)
    rw [hlen, hs] at h
    exact h
  · have key := rat_neg_scale_ne (2 ^ 31 - 1 + 1) (by norm_num)
    have e : (-((2 ^ 31 - 1 + 1 : Nat) : Int)) = -2 ^ 31 := by norm_num
    rw [e] at key
    unfold Decimal.toRat
    rw [Int.cast_one]
    exact key

/-- C19, amended. For every literal `i.f` in which `f` is a string of `d`
digits with `d + 1 < 2 ^ 31` and the text `i` followed by `f` is a valid
integer literal of value `N`: the constructor yields value `N` and scale
`d + 1`, so that the Decimal denotes `N / 10 ^ (d + 1)`, one tenth of the
number `N / 10 ^ d` the literal denotes, and `toString()` of the result differs
from the literal. -/
theorem decimal_fraction_is_one_tenth (i f : List Char) (N : Int)
    (hf : f.all Char.isDigit = true) (hN : Int128.construct (i ++ f) = .ok N)
    (hd : f.length + 1 < 2 ^ 31) :
    ∃ d : Decimal, Decimal.construct (i ++ '.' :: f) = .ok d ∧ d.value = N ∧
      d.scale = ((f.length + 1 : Nat) : Int) ∧
      d.toRat = (N : ℚ) / (10 : ℚ) ^ (f.length + 1) ∧
      d.toRat = (1 / 10) * ((N : ℚ) / (10 : ℚ) ^ f.length) ∧
      d.toString ≠ i ++ '.' :: f := by
  have hsc : toInt32 (f.length + 1) = ((f.length + 1 : Nat) : Int) := toInt32_of_lt _ hd
  have hrat : Decimal.toRat { value := N, scale := toInt32 (f.length + 1) } =
      (N : ℚ) / (10 : ℚ) ^ (f.length + 1) := by
    unfold Decimal.toRat
    rw [hsc, zpow_natCast]
  refine ⟨{ value := N, scale := toInt32 (f.length + 1) },
    Decimal_construct_fraction i f N hN, rfl, hsc, hrat, ?_, ?_⟩
  · rw [hrat, pow_succ]
    field_simp
    left
    ring
  · intro heq
    obtain ⟨pre, frac, hshape, hlen, hno⟩ := toDecimalString_shape N (f.length + 1) (by omega)
    have hstr : Decimal.toString { value := N, scale := toInt32 (f.length + 1) } =
        pre ++ '.' :: frac := by
      unfold Decimal.toString
      rw [hsc]
      exact hshape
    rw [hstr] at heq
    have := fraction_unique pre i frac f heq hno
      (not_mem_of_all_isDigit f '.' (by decide) hf)
    rw [this] at hlen
    omega

/-- Instance of C19: the literal `12.5` yields value 125 and scale 2, denotes
`125 / 100`, and renders as `1.25`. -/
theorem decimal_fraction_is_one_tenth_witness :
    (∃ d : Decimal, Decimal.construct (['1', '2'] ++ '.' :: ['5']) = .ok d ∧ d.value = 125 ∧
      d.scale = ((['5'].length + 1 : Nat) : Int) ∧
      d.toRat = ((125 : Int) : ℚ) / (10 : ℚ) ^ (['5'].length + 1) ∧
      d.toRat = (1 / 10) * (((125 : Int) : ℚ) / (10 : ℚ) ^ ['5'].length) ∧
      d.toString ≠ ['1', '2'] ++ '.' :: ['5']) ∧
    Decimal.toString { value := 125, scale := 2 } = ['1', '.', '2', '5'] :=
  ⟨decimal_fraction_is_one_tenth ['1', '2'] ['5'] 125 (by decide) (by rfl) (by decide),
    by decide⟩

/-! ## Facts about the calls that can fail -/

theorem DataBuffer_tryResize_ok (x : DataBuffer) (n : Nat) (pool : MemoryPool) (slot : Nat)
    (y : DataBuffer) (h : x.tryResize n pool slot = .ok y) :
    y = x.resize n (pool.fresh slot) ∧ (x.size < n → n + 1 < UINT64_MOD) := by
  unfold DataBuffer.tryResize at h
  split at h
  · next hle =>
    obtain rfl : x = y := by simpa using h
    exact ⟨(DataBuffer_resize_of_le x n _ hle).symm, fun hlt => absurd hle (by omega)⟩
  · split at h
    · next hs =>
      obtain rfl : x.resize n (pool.fresh slot) = y := by simpa using h
      exact ⟨rfl, fun _ => pool.bounded slot n hs⟩
    · exact absurd h (by simp)

theorem DataBuffer_tryResize_of_supplies (x : DataBuffer) (n : Nat) (pool : MemoryPool)
    (slot : Nat) (h : n ≤ x.size ∨ pool.supplies slot n = true) :
    x.tryResize n pool slot = .ok (x.resize n (pool.fresh slot)) := by
  unfold DataBuffer.tryResize
  split
  · next hle => rw [DataBuffer_resize_of_le x n _ hle]
  · next hle =>
    rcases h with h | h
    · exact absurd h hle
    · rw [if_pos h]

theorem DataBuffer_tryConstruct_ok (pool : MemoryPool) (slot n : Nat) (y : DataBuffer)
    (h : DataBuffer.tryConstruct pool slot n = .ok y) :
    y = DataBuffer.construct (pool.fresh slot) n ∧ n + 1 < UINT64_MOD := by
  obtain ⟨h1, h2⟩ := DataBuffer_tryResize_ok _ _ _ _ _ h
  refine ⟨h1, ?_⟩
  by_cases hn : n = 0
  · subst hn; decide
  · exact h2 (by simp [DataBuffer.size]; omega)

theorem ColumnVectorBatch_tryResize_ok (b : ColumnVectorBatch) (c : Nat)
    (b' : ColumnVectorBatch) (h : b.tryResize c = .ok b') :
    b' = b.resize c ∧ (b.capacity < c → b.notNull.size < c → c + 1 < UINT64_MOD) := by
  unfold ColumnVectorBatch.tryResize at h
  split at h
  · next hc =>
    rcases hn : b.notNull.tryResize c b.memoryPool 0 with e | nn
    · simp [hn, bind, Except.bind] at h
    · obtain ⟨h1, h2⟩ := DataBuffer_tryResize_ok _ _ _ _ _ hn
      simp only [hn, bind, Except.bind, pure, Except.pure, Except.ok.injEq] at h
      subst h h1
      exact ⟨by simp [ColumnVectorBatch.resize, hc], fun _ hlt => h2 hlt⟩
  · next hc =>
    obtain rfl : b = b' := by simpa [pure, Except.pure] using h
    exact ⟨(ColumnVectorBatch_resize_of_le b c (Nat.not_lt.mp hc)).symm,
      fun hlt => absurd hlt hc⟩

theorem ColumnVectorBatch_tryConstruct_ok (cap : Nat) (pool : MemoryPool)
    (b : ColumnVectorBatch) (h : ColumnVectorBatch.tryConstruct cap pool = .ok b) :
    b = ColumnVectorBatch.construct cap pool ∧ cap + 1 < UINT64_MOD := by
  unfold ColumnVectorBatch.tryConstruct at h
  rcases hn : DataBuffer.tryConstruct pool 0 cap with e | nn
  · simp [hn, bind, Except.bind] at h
  · obtain ⟨h1, h2⟩ := DataBuffer_tryConstruct_ok _ _ _ _ hn
    simp only [hn, bind, Except.bind, pure, Except.pure, Except.ok.injEq] at h
    subst h h1
    exact ⟨rfl, h2⟩

theorem LongVectorBatch_tryResize_ok (b : LongVectorBatch) (c : Nat)
    (b' : LongVectorBatch) (h : b.tryResize c = .ok b') :
    b' = b.resize c ∧ (b.capacity < c → b.notNull.size < c → c + 1 < UINT64_MOD) := by
  unfold LongVectorBatch.tryResize at h
  split at h
  · next hc =>
    rcases hb : b.toColumnVectorBatch.tryResize c with e | base
    · simp [hb, bind, Except.bind] at h
    · obtain ⟨h1, h2⟩ := ColumnVectorBatch_tryResize_ok _ _ _ hb
      rcases hd : b.data.tryResize c b.memoryPool 1 with e | data
      · simp [hb, hd, bind, Except.bind] at h
      · obtain ⟨h3, _⟩ := DataBuffer_tryResize_ok _ _ _ _ _ hd
        simp only [hb, hd, bind, Except.bind, pure, Except.pure, Except.ok.injEq] at h
        subst h h1 h3
        exact ⟨by simp [LongVectorBatch.resize, hc], h2⟩
  · next hc =>
    obtain rfl : b = b' := by simpa [pure, Except.pure] using h
    refine ⟨?_, fun hlt => absurd hlt hc⟩
    simp [LongVectorBatch.resize, hc]

theorem ColumnVectorBatch_tryResize_of_supplies (b : ColumnVectorBatch) (c : Nat)
    (h : ∀ slot n, n ≤ c + 1 → b.memoryPool.supplies slot n = true) :
    b.tryResize c = .ok (b.resize c) := by
  unfold ColumnVectorBatch.tryResize
  split
  · next hc =>
    rw [DataBuffer_tryResize_of_supplies _ _ _ _ (Or.inr (h 0 c (Nat.le_succ c)))]
    simp [ColumnVectorBatch.resize, hc, bind, Except.bind, pure, Except.pure]
  · next hc => simp [ColumnVectorBatch.resize, hc, pure, Except.pure]

theorem LongVectorBatch_tryConstruct_ok (cap : Nat) (pool : MemoryPool)
    (b : LongVectorBatch) (h : LongVectorBatch.tryConstruct cap pool = .ok b) :
    b = LongVectorBatch.construct cap pool ∧ cap + 1 < UINT64_MOD := by
  unfold LongVectorBatch.tryConstruct at h
  rcases hb : ColumnVectorBatch.tryConstruct cap pool with e | base
  · simp [hb, bind, Except.bind] at h
  · obtain ⟨h1, h2⟩ := ColumnVectorBatch_tryConstruct_ok _ _ _ hb
    rcases hd0 : DataBuffer.tryConstruct pool 1 cap with e | x0
    · simp [hb, hd0, bind, Except.bind] at h
    · obtain ⟨g0, _⟩ := DataBuffer_tryConstruct_ok _ _ _ _ hd0
      simp only [hb, hd0, bind, Except.bind, pure, Except.pure, Except.ok.injEq] at h
      subst h h1 g0
      exact ⟨rfl, h2⟩

theorem LongVectorBatch_tryResize_of_supplies (b : LongVectorBatch) (c : Nat)
    (h : ∀ slot n, n ≤ c + 1 → b.memoryPool.supplies slot n = true) :
    b.tryResize c = .ok (b.resize c) := by
  unfold LongVectorBatch.tryResize
  split
  · next hc =>
    rw [ColumnVectorBatch_tryResize_of_supplies _ _ h,
      DataBuffer_tryResize_of_supplies _ _ _ _ (Or.inr (h 1 c (Nat.le_succ c)))]
    simp [LongVectorBatch.resize, hc, bind, Except.bind, pure, Except.pure]
  · next hc => simp [LongVectorBatch.resize, hc, pure, Except.pure]

theorem DoubleVectorBatch_tryResize_ok (b : DoubleVectorBatch) (c : Nat)
    (b' : DoubleVectorBatch) (h : b.tryResize c = .ok b') :
    b' = b.resize c ∧ (b.capacity < c → b.notNull.size < c → c + 1 < UINT64_MOD) := by
  unfold DoubleVectorBatch.tryResize at h
  split at h
  · next hc =>
    rcases hb : b.toColumnVectorBatch.tryResize c with e | base
    · simp [hb, bind, Except.bind] at h
    · obtain ⟨h1, h2⟩ := ColumnVectorBatch_tryResize_ok _ _ _ hb
      rcases hd0 : b.data.tryResize c b.memoryPool 1 with e | x0
      · simp [hb, hd0, bind, Except.bind] at h
      · obtain ⟨g0, _⟩ := DataBuffer_tryResize_ok _ _ _ _ _ hd0
        simp only [hb, hd0, bind, Except.bind, pure, Except.pure, Except.ok.injEq] at h
        subst h h1 g0
        exact ⟨by simp [DoubleVectorBatch.resize, hc], h2⟩
  · next hc =>
    obtain rfl : b = b' := by simpa [pure, Except.pure] using h
    refine ⟨?_, fun hlt => absurd hlt hc⟩
    simp [DoubleVectorBatch.resize, hc]

theorem DoubleVectorBatch_tryConstruct_ok (cap : Nat) (pool : MemoryPool)
    (b : DoubleVectorBatch) (h : DoubleVectorBatch.tryConstruct cap pool = .ok b) :
    b = DoubleVectorBatch.construct cap pool ∧ cap + 1 < UINT64_MOD := by
  unfold DoubleVectorBatch.tryConstruct at h
  rcases hb : ColumnVectorBatch.tryConstruct cap pool with e | base
  · simp [hb, bind, Except.bind] at h
  · obtain ⟨h1, h2⟩ := ColumnVectorBatch_tryConstruct_ok _ _ _ hb
    rcases hd0 : DataBuffer.tryConstruct pool 1 cap with e | x0
    · simp [hb, hd0, bind, Except.bind] at h
    · obtain ⟨g0, _⟩ := DataBuffer_tryConstruct_ok _ _ _ _ hd0
      simp only [hb, hd0, bind, Except.bind, pure, Except.pure, Except.ok.injEq] at h
      subst h h1 g0
      exact ⟨rfl, h2⟩

theorem DoubleVectorBatch_tryResize_of_supplies (b : DoubleVectorBatch) (c : Nat)
    (h : ∀ slot n, n ≤ c + 1 → b.memoryPool.supplies slot n = true) :
    b.tryResize c = .ok (b.resize c) := by
  unfold DoubleVectorBatch.tryResize
  split
  · next hc =>
    rw [ColumnVectorBatch_tryResize_of_supplies _ _ h,
      DataBuffer_tryResize_of_supplies _ _ _ _ (Or.inr (h 1 c (Nat.le_succ c)))]
    simp [DoubleVectorBatch.resize, hc, bind, Except.bind, pure, Except.pure]
  · next hc => simp [DoubleVectorBatch.resize, hc, pure, Except.pure]

theorem StringVectorBatch_tryResize_ok (b : StringVectorBatch) (c : Nat)
    (b' : StringVectorBatch) (h : b.tryResize c = .ok b') :
    b' = b.resize c ∧ (b.capacity < c → b.notNull.size < c → c + 1 < UINT64_MOD) := by
  unfold StringVectorBatch.tryResize at h
  split at h
  · next hc =>
    rcases hb : b.toColumnVectorBatch.tryResize c with e | base
    · simp [hb, bind, Except.bind] at h
    · obtain ⟨h1, h2⟩ := ColumnVectorBatch_tryResize_ok _ _ _ hb
      rcases hd0 : b.data.tryResize c b.memoryPool 1 with e | x0
      · simp [hb, hd0, bind, Except.bind] at h
      · obtain ⟨g0, _⟩ := DataBuffer_tryResize_ok _ _ _ _ _ hd0
        rcases hd1 : b.length.tryResize c b.memoryPool 2 with e | x1
        · simp [hb, hd0, hd1, bind, Except.bind] at h
        · obtain ⟨g1, _⟩ := DataBuffer_tryResize_ok _ _ _ _ _ hd1
          simp only [hb, hd0, hd1, bind, Except.bind, pure, Except.pure, Except.ok.injEq] at h
          subst h h1 g0 g1
          exact ⟨by simp [StringVectorBatch.resize, hc], h2⟩
  · next hc =>
    obtain rfl : b = b' := by simpa [pure, Except.pure] using h
    refine ⟨?_, fun hlt => absurd hlt hc⟩
    simp [StringVectorBatch.resize, hc]

theorem StringVectorBatch_tryConstruct_ok (cap : Nat) (pool : MemoryPool)
    (b : StringVectorBatch) (h : StringVectorBatch.tryConstruct cap pool = .ok b) :
    b = StringVectorBatch.construct cap pool ∧ cap + 1 < UINT64_MOD := by
  unfold StringVectorBatch.tryConstruct at h
  rcases hb : ColumnVectorBatch.tryConstruct cap pool with e | base
  · simp [hb, bind, Except.bind] at h
  · obtain ⟨h1, h2⟩ := ColumnVectorBatch_tryConstruct_ok _ _ _ hb
    rcases hd0 : DataBuffer.tryConstruct pool 1 cap with e | x0
    · simp [hb, hd0, bind, Except.bind] at h
    · obtain ⟨g0, _⟩ := DataBuffer_tryConstruct_ok _ _ _ _ hd0
      rcases hd1 : DataBuffer.tryConstruct pool 2 cap with e | x1
      · simp [hb, hd0, hd1, bind, Except.bind] at h
      · obtain ⟨g1, _⟩ := DataBuffer_tryConstruct_ok _ _ _ _ hd1
        simp only [hb, hd0, hd1, bind, Except.bind, pure, Except.pure, Except.ok.injEq] at h
        subst h h1 g0 g1
        exact ⟨rfl, h2⟩

theorem StringVectorBatch_tryResize_of_supplies (b : StringVectorBatch) (c : Nat)
    (h : ∀ slot n, n ≤ c + 1 → b.memoryPool.supplies slot n = true) :
    b.tryResize c = .ok (b.resize c) := by
  unfold StringVectorBatch.tryResize
  split
  · next hc =>
    rw [ColumnVectorBatch_tryResize_of_supplies _ _ h,
      DataBuffer_tryResize_of_supplies _ _ _ _ (Or.inr (h 1 c (Nat.le_succ c))),
      DataBuffer_tryResize_of_supplies _ _ _ _ (Or.inr (h 2 c (Nat.le_succ c)))]
    simp [StringVectorBatch.resize, hc, bind, Except.bind, pure, Except.pure]
  · next hc => simp [StringVectorBatch.resize, hc, pure, Except.pure]

theorem Decimal64VectorBatch_tryResize_ok (b : Decimal64VectorBatch) (c : Nat)
    (b' : Decimal64VectorBatch) (h : b.tryResize c = .ok b') :
    b' = b.resize c ∧ (b.capacity < c → b.notNull.size < c → c + 1 < UINT64_MOD) := by
  unfold Decimal64VectorBatch.tryResize at h
  split at h
  · next hc =>
    rcases hb : b.toColumnVectorBatch.tryResize c with e | base
    · simp [hb, bind, Except.bind] at h
    · obtain ⟨h1, h2⟩ := ColumnVectorBatch_tryResize_ok _ _ _ hb
      rcases hd0 : b.values.tryResize c b.memoryPool 1 with e | x0
      · simp [hb, hd0, bind, Except.bind] at h
      · obtain ⟨g0, _⟩ := DataBuffer_tryResize_ok _ _ _ _ _ hd0
        rcases hd1 : b.readScales.tryResize c b.memoryPool 2 with e | x1
        · simp [hb, hd0, hd1, bind, Except.bind] at h
        · obtain ⟨g1, _⟩ := DataBuffer_tryResize_ok _ _ _ _ _ hd1
          simp only [hb, hd0, hd1, bind, Except.bind, pure, Except.pure, Except.ok.injEq] at h
          subst h h1 g0 g1
          exact ⟨by simp [Decimal64VectorBatch.resize, hc], h2⟩
  · next hc =>
    obtain rfl : b = b' := by simpa [pure, Except.pure] using h
    refine ⟨?_, fun hlt => absurd hlt hc⟩
    simp [Decimal64VectorBatch.resize, hc]

theorem Decimal64VectorBatch_tryConstruct_ok (cap : Nat) (pool : MemoryPool)
    (b : Decimal64VectorBatch) (h : Decimal64VectorBatch.tryConstruct cap pool = .ok b) :
    b = Decimal64VectorBatch.construct cap pool ∧ cap + 1 < UINT64_MOD := by
  unfold Decimal64VectorBatch.tryConstruct at h
  rcases hb : ColumnVectorBatch.tryConstruct cap pool with e | base
  · simp [hb, bind, Except.bind] at h
  · obtain ⟨h1, h2⟩ := ColumnVectorBatch_tryConstruct_ok _ _ _ hb
    rcases hd0 : DataBuffer.tryConstruct pool 1 cap with e | x0
    · simp [hb, hd0, bind, Except.bind] at h
    · obtain ⟨g0, _⟩ := DataBuffer_tryConstruct_ok _ _ _ _ hd0
      rcases hd1 : DataBuffer.tryConstruct pool 2 cap with e | x1
      · simp [hb, hd0, hd1, bind, Except.bind] at h
      · obtain ⟨g1, _⟩ := DataBuffer_tryConstruct_ok _ _ _ _ hd1
        simp only [hb, hd0, hd1, bind, Except.bind, pure, Except.pure, Except.ok.injEq] at h
        subst h h1 g0 g1
        exact ⟨rfl, h2⟩

theorem Decimal64VectorBatch_tryResize_of_supplies (b : Decimal64VectorBatch) (c : Nat)
    (h : ∀ slot n, n ≤ c + 1 → b.memoryPool.supplies slot n = true) :
    b.tryResize c = .ok (b.resize c) := by
  unfold Decimal64VectorBatch.tryResize
  split
  · next hc =>
    rw [ColumnVectorBatch_tryResize_of_supplies _ _ h,
      DataBuffer_tryResize_of_supplies _ _ _ _ (Or.inr (h 1 c (Nat.le_succ c))),
      DataBuffer_tryResize_of_supplies _ _ _ _ (Or.inr (h 2 c (Nat.le_succ c)))]
    simp [Decimal64VectorBatch.resize, hc, bind, Except.bind, pure, Except.pure]
  · next hc => simp [Decimal64VectorBatch.resize, hc, pure, Except.pure]

theorem Decimal128VectorBatch_tryResize_ok (b : Decimal128VectorBatch) (c : Nat)
    (b' : Decimal128VectorBatch) (h : b.tryResize c = .ok b') :
    b' = b.resize c ∧ (b.capacity < c → b.notNull.size < c → c + 1 < UINT64_MOD) := by
  unfold Decimal128VectorBatch.tryResize at h
  split at h
  · next hc =>
    rcases hb : b.toColumnVectorBatch.tryResize c with e | base
    · simp [hb, bind, Except.bind] at h
    · obtain ⟨h1, h2⟩ := ColumnVectorBatch_tryResize_ok _ _ _ hb
      rcases hd0 : b.values.tryResize c b.memoryPool 1 with e | x0
      · simp [hb, hd0, bind, Except.bind] at h
      · obtain ⟨g0, _⟩ := DataBuffer_tryResize_ok _ _ _ _ _ hd0
        rcases hd1 : b.readScales.tryResize c b.memoryPool 2 with e | x1
        · simp [hb, hd0, hd1, bind, Except.bind] at h
        · obtain ⟨g1, _⟩ := DataBuffer_tryResize_ok _ _ _ _ _ hd1
          simp only [hb, hd0, hd1, bind, Except.bind, pure, Except.pure, Except.ok.injEq] at h
          subst h h1 g0 g1
          exact ⟨by simp [Decimal128VectorBatch.resize, hc], h2⟩
  · next hc =>
    obtain rfl : b = b' := by simpa [pure, Except.pure] using h
    refine ⟨?_, fun hlt => absurd hlt hc⟩
    simp [Decimal128VectorBatch.resize, hc]

theorem Decimal128VectorBatch_tryConstruct_ok (cap : Nat) (pool : MemoryPool)
    (b : Decimal128VectorBatch) (h : Decimal128VectorBatch.tryConstruct cap pool = .ok b) :
    b = Decimal128VectorBatch.construct cap pool ∧ cap + 1 < UINT64_MOD := by
  unfold Decimal128VectorBatch.tryConstruct at h
  rcases hb : ColumnVectorBatch.tryConstruct cap pool with e | base
  · simp [hb, bind, Except.bind] at h
  · obtain ⟨h1, h2⟩ := ColumnVectorBatch_tryConstruct_ok _ _ _ hb
    rcases hd0 : DataBuffer.tryConstruct pool 1 cap with e | x0
    · simp [hb, hd0, bind, Except.bind] at h
    · obtain ⟨g0, _⟩ := DataBuffer_tryConstruct_ok _ _ _ _ hd0
      rcases hd1 : DataBuffer.tryConstruct pool 2 cap with e | x1
      · simp [hb, hd0, hd1, bind, Except.bind] at h
      · obtain ⟨g1, _⟩ := DataBuffer_tryConstruct_ok _ _ _ _ hd1
        simp only [hb, hd0, hd1, bind, Except.bind, pure, Except.pure, Except.ok.injEq] at h
        subst h h1 g0 g1
        exact ⟨rfl, h2⟩

theorem Decimal128VectorBatch_tryResize_of_supplies (b : Decimal128VectorBatch) (c : Nat)
    (h : ∀ slot n, n ≤ c + 1 → b.memoryPool.supplies slot n = true) :
    b.tryResize c = .ok (b.resize c) := by
  unfold Decimal128VectorBatch.tryResize
  split
  · next hc =>
    rw [ColumnVectorBatch_tryResize_of_supplies _ _ h,
      DataBuffer_tryResize_of_supplies _ _ _ _ (Or.inr (h 1 c (Nat.le_succ c))),
      DataBuffer_tryResize_of_supplies _ _ _ _ (Or.inr (h 2 c (Nat.le_succ c)))]
    simp [Decimal128VectorBatch.resize, hc, bind, Except.bind, pure, Except.pure]
  · next hc => simp [Decimal128VectorBatch.resize, hc, pure, Except.pure]

theorem ListVectorBatch_tryResize_ok {β : Type} (b : ListVectorBatch β) (c : Nat)
    (b' : (ListVectorBatch β)) (h : b.tryResize c = .ok b') :
    b' = b.resize c ∧ (b.capacity < c → b.notNull.size < c → c + 1 < UINT64_MOD) := by
  unfold ListVectorBatch.tryResize at h
  split at h
  · next hc =>
    rcases hb : b.toColumnVectorBatch.tryResize c with e | base
    · simp [hb, bind, Except.bind] at h
    · obtain ⟨h1, h2⟩ := ColumnVectorBatch_tryResize_ok _ _ _ hb
      rcases hd0 : b.offsets.tryResize ((c + 1) % UINT64_MOD) b.memoryPool 1 with e | x0
      · simp [hb, hd0, bind, Except.bind] at h
      · obtain ⟨g0, _⟩ := DataBuffer_tryResize_ok _ _ _ _ _ hd0
        simp only [hb, hd0, bind, Except.bind, pure, Except.pure, Except.ok.injEq] at h
        subst h h1 g0
        exact ⟨by simp [ListVectorBatch.resize, hc], h2⟩
  · next hc =>
    obtain rfl : b = b' := by simpa [pure, Except.pure] using h
    refine ⟨?_, fun hlt => absurd hlt hc⟩
    simp [ListVectorBatch.resize, hc]

theorem ListVectorBatch_tryConstruct_ok {β : Type} (cap : Nat) (pool : MemoryPool)
    (b : (ListVectorBatch β)) (h : ListVectorBatch.tryConstruct cap pool = .ok b) :
    b = ListVectorBatch.construct cap pool ∧ cap + 1 < UINT64_MOD := by
  unfold ListVectorBatch.tryConstruct at h
  rcases hb : ColumnVectorBatch.tryConstruct cap pool with e | base
  · simp [hb, bind, Except.bind] at h
  · obtain ⟨h1, h2⟩ := ColumnVectorBatch_tryConstruct_ok _ _ _ hb
    rcases hd0 : DataBuffer.tryConstruct pool 1 ((cap + 1) % UINT64_MOD) with e | x0
    · simp [hb, hd0, bind, Except.bind] at h
    · obtain ⟨g0, _⟩ := DataBuffer_tryConstruct_ok _ _ _ _ hd0
      simp only [hb, hd0, bind, Except.bind, pure, Except.pure, Except.ok.injEq] at h
      subst h h1 g0
      exact ⟨rfl, h2⟩

theorem ListVectorBatch_tryResize_of_supplies {β : Type} (b : ListVectorBatch β) (c : Nat)
    (h : ∀ slot n, n ≤ c + 1 → b.memoryPool.supplies slot n = true) :
    b.tryResize c = .ok (b.resize c) := by
  unfold ListVectorBatch.tryResize
  split
  · next hc =>
    rw [ColumnVectorBatch_tryResize_of_supplies _ _ h,
      DataBuffer_tryResize_of_supplies _ _ _ _ (Or.inr (h 1 _ (Nat.le_trans (Nat.mod_le _ _) (Nat.le_refl _))))]
    simp [ListVectorBatch.resize, hc, bind, Except.bind, pure, Except.pure]
  · next hc => simp [ListVectorBatch.resize, hc, pure, Except.pure]

theorem MapVectorBatch_tryResize_ok {β : Type} (b : MapVectorBatch β) (c : Nat)
    (b' : (MapVectorBatch β)) (h : b.tryResize c = .ok b') :
    b' = b.resize c ∧ (b.capacity < c → b.notNull.size < c → c + 1 < UINT64_MOD) := by
  unfold MapVectorBatch.tryResize at h
  split at h
  · next hc =>
    rcases hb : b.toColumnVectorBatch.tryResize c with e | base
    · simp [hb, bind, Except.bind] at h
    · obtain ⟨h1, h2⟩ := ColumnVectorBatch_tryResize_ok _ _ _ hb
      rcases hd0 : b.offsets.tryResize ((c + 1) % UINT64_MOD) b.memoryPool 1 with e | x0
      · simp [hb, hd0, bind, Except.bind] at h
      · obtain ⟨g0, _⟩ := DataBuffer_tryResize_ok _ _ _ _ _ hd0
        simp only [hb, hd0, bind, Except.bind, pure, Except.pure, Except.ok.injEq] at h
        subst h h1 g0
        exact ⟨by simp [MapVectorBatch.resize, hc], h2⟩
  · next hc =>
    obtain rfl : b = b' := by simpa [pure, Except.pure] using h
    refine ⟨?_, fun hlt => absurd hlt hc⟩
    simp [MapVectorBatch.resize, hc]

theorem MapVectorBatch_tryConstruct_ok {β : Type} (cap : Nat) (pool : MemoryPool)
    (b : (MapVectorBatch β)) (h : MapVectorBatch.tryConstruct cap pool = .ok b) :
    b = MapVectorBatch.construct cap pool ∧ cap + 1 < UINT64_MOD := by
  unfold MapVectorBatch.tryConstruct at h
  rcases hb : ColumnVectorBatch.tryConstruct cap pool with e | base
  · simp [hb, bind, Except.bind] at h
  · obtain ⟨h1, h2⟩ := ColumnVectorBatch_tryConstruct_ok _ _ _ hb
    rcases hd0 : DataBuffer.tryConstruct pool 1 ((cap + 1) % UINT64_MOD) with e | x0
    · simp [hb, hd0, bind, Except.bind] at h
    · obtain ⟨g0, _⟩ := DataBuffer_tryConstruct_ok _ _ _ _ hd0
      simp only [hb, hd0, bind, Except.bind, pure, Except.pure, Except.ok.injEq] at h
      subst h h1 g0
      exact ⟨rfl, h2⟩

theorem MapVectorBatch_tryResize_of_supplies {β : Type} (b : MapVectorBatch β) (c : Nat)
    (h : ∀ slot n, n ≤ c + 1 → b.memoryPool.supplies slot n = true) :
    b.tryResize c = .ok (b.resize c) := by
  unfold MapVectorBatch.tryResize
  split
  · next hc =>
    rw [ColumnVectorBatch_tryResize_of_supplies _ _ h,
      DataBuffer_tryResize_of_supplies _ _ _ _ (Or.inr (h 1 _ (Nat.le_trans (Nat.mod_le _ _) (Nat.le_refl _))))]
    simp [MapVectorBatch.resize, hc, bind, Except.bind, pure, Except.pure]
  · next hc => simp [MapVectorBatch.resize, hc, pure, Except.pure]

theorem UnionVectorBatch_tryResize_ok {β : Type} (b : UnionVectorBatch β) (c : Nat)
    (b' : (UnionVectorBatch β)) (h : b.tryResize c = .ok b') :
    b' = b.resize c ∧ (b.capacity < c → b.notNull.size < c → c + 1 < UINT64_MOD) := by
  unfold UnionVectorBatch.tryResize at h
  split at h
  · next hc =>
    rcases hb : b.toColumnVectorBatch.tryResize c with e | base
    · simp [hb, bind, Except.bind] at h
    · obtain ⟨h1, h2⟩ := ColumnVectorBatch_tryResize_ok _ _ _ hb
      rcases hd0 : b.tags.tryResize c b.memoryPool 1 with e | x0
      · simp [hb, hd0, bind, Except.bind] at h
      · obtain ⟨g0, _⟩ := DataBuffer_tryResize_ok _ _ _ _ _ hd0
        rcases hd1 : b.offsets.tryResize c b.memoryPool 2 with e | x1
        · simp [hb, hd0, hd1, bind, Except.bind] at h
        · obtain ⟨g1, _⟩ := DataBuffer_tryResize_ok _ _ _ _ _ hd1
          simp only [hb, hd0, hd1, bind, Except.bind, pure, Except.pure, Except.ok.injEq] at h
          subst h h1 g0 g1
          exact ⟨by simp [UnionVectorBatch.resize, hc], h2⟩
  · next hc =>
    obtain rfl : b = b' := by simpa [pure, Except.pure] using h
    refine ⟨?_, fun hlt => absurd hlt hc⟩
    simp [UnionVectorBatch.resize, hc]

theorem UnionVectorBatch_tryConstruct_ok {β : Type} (cap : Nat) (pool : MemoryPool)
    (b : (UnionVectorBatch β)) (h : UnionVectorBatch.tryConstruct cap pool = .ok b) :
    b = UnionVectorBatch.construct cap pool ∧ cap + 1 < UINT64_MOD := by
  unfold UnionVectorBatch.tryConstruct at h
  rcases hb : ColumnVectorBatch.tryConstruct cap pool with e | base
  · simp [hb, bind, Except.bind] at h
  · obtain ⟨h1, h2⟩ := ColumnVectorBatch_tryConstruct_ok _ _ _ hb
    rcases hd0 : DataBuffer.tryConstruct pool 1 cap with e | x0
    · simp [hb, hd0, bind, Except.bind] at h
    · obtain ⟨g0, _⟩ := DataBuffer_tryConstruct_ok _ _ _ _ hd0
      rcases hd1 : DataBuffer.tryConstruct pool 2 cap with e | x1
      · simp [hb, hd0, hd1, bind, Except.bind] at h
      · obtain ⟨g1, _⟩ := DataBuffer_tryConstruct_ok _ _ _ _ hd1
        simp only [hb, hd0, hd1, bind, Except.bind, pure, Except.pure, Except.ok.injEq] at h
        subst h h1 g0 g1
        exact ⟨rfl, h2⟩

theorem UnionVectorBatch_tryResize_of_supplies {β : Type} (b : UnionVectorBatch β) (c : Nat)
    (h : ∀ slot n, n ≤ c + 1 → b.memoryPool.supplies slot n = true) :
    b.tryResize c = .ok (b.resize c) := by
  unfold UnionVectorBatch.tryResize
  split
  · next hc =>
    rw [ColumnVectorBatch_tryResize_of_supplies _ _ h,
      DataBuffer_tryResize_of_supplies _ _ _ _ (Or.inr (h 1 c (Nat.le_succ c))),
      DataBuffer_tryResize_of_supplies _ _ _ _ (Or.inr (h 2 c (Nat.le_succ c)))]
    simp [UnionVectorBatch.resize, hc, bind, Except.bind, pure, Except.pure]
  · next hc => simp [UnionVectorBatch.resize, hc, pure, Except.pure]

theorem StructVectorBatch_tryResize_ok {β : Type} (b : StructVectorBatch β) (c : Nat)
    (b' : (StructVectorBatch β)) (h : b.tryResize c = .ok b') :
    b' = b.resize c ∧ (b.capacity < c → b.notNull.size < c → c + 1 < UINT64_MOD) := by
  unfold StructVectorBatch.tryResize at h
  rcases hb : b.toColumnVectorBatch.tryResize c with e | base
  · simp [hb, bind, Except.bind] at h
  · obtain ⟨h1, h2⟩ := ColumnVectorBatch_tryResize_ok _ _ _ hb
    simp only [hb, bind, Except.bind, pure, Except.pure, Except.ok.injEq] at h
    subst h h1 
    exact ⟨rfl, h2⟩

theorem StructVectorBatch_tryConstruct_ok {β : Type} (cap : Nat) (pool : MemoryPool)
    (b : (StructVectorBatch β)) (h : StructVectorBatch.tryConstruct cap pool = .ok b) :
    b = StructVectorBatch.construct cap pool ∧ cap + 1 < UINT64_MOD := by
  unfold StructVectorBatch.tryConstruct at h
  rcases hb : ColumnVectorBatch.tryConstruct cap pool with e | base
  · simp [hb, bind, Except.bind] at h
  · obtain ⟨h1, h2⟩ := ColumnVectorBatch_tryConstruct_ok _ _ _ hb
    simp only [hb, bind, Except.bind, pure, Except.pure, Except.ok.injEq] at h
    subst h h1 
    exact ⟨rfl, h2⟩

theorem StructVectorBatch_tryResize_of_supplies {β : Type} (b : StructVectorBatch β) (c : Nat)
    (h : ∀ slot n, n ≤ c + 1 → b.memoryPool.supplies slot n = true) :
    b.tryResize c = .ok (b.resize c) := by
  unfold StructVectorBatch.tryResize
  rw [ColumnVectorBatch_tryResize_of_supplies _ _ h]
  rfl

theorem Batch_tryResize_ok (b : Batch) (c : Nat) (b' : Batch) (h : b.tryResize c = .ok b') :
    b' = b.resize c ∧ (b.capacity < c → b.notNull.size < c → c + 1 < UINT64_MOD) := by
  cases b with
  | long b =>
    rcases hk : b.tryResize c with e | r <;> simp [Batch.tryResize, hk, Except.map] at h
    obtain ⟨h1, h2⟩ := LongVectorBatch_tryResize_ok b c r hk
    subst h h1; exact ⟨rfl, h2⟩
  | double b =>
    rcases hk : b.tryResize c with e | r <;> simp [Batch.tryResize, hk, Except.map] at h
    obtain ⟨h1, h2⟩ := DoubleVectorBatch_tryResize_ok b c r hk
    subst h h1; exact ⟨rfl, h2⟩
  | string b =>
    rcases hk : b.tryResize c with e | r <;> simp [Batch.tryResize, hk, Except.map] at h
    obtain ⟨h1, h2⟩ := StringVectorBatch_tryResize_ok b c r hk
    subst h h1; exact ⟨rfl, h2⟩
  | struct b =>
    rcases hk : b.tryResize c with e | r <;> simp [Batch.tryResize, hk, Except.map] at h
    obtain ⟨h1, h2⟩ := StructVectorBatch_tryResize_ok b c r hk
    subst h h1; exact ⟨rfl, h2⟩
  | list b =>
    rcases hk : b.tryResize c with e | r <;> simp [Batch.tryResize, hk, Except.map] at h
    obtain ⟨h1, h2⟩ := ListVectorBatch_tryResize_ok b c r hk
    subst h h1; exact ⟨rfl, h2⟩
  | map b =>
    rcases hk : b.tryResize c with e | r <;> simp [Batch.tryResize, hk, Except.map] at h
    obtain ⟨h1, h2⟩ := MapVectorBatch_tryResize_ok b c r hk
    subst h h1; exact ⟨rfl, h2⟩
  | union b =>
    rcases hk : b.tryResize c with e | r <;> simp [Batch.tryResize, hk, Except.map] at h
    obtain ⟨h1, h2⟩ := UnionVectorBatch_tryResize_ok b c r hk
    subst h h1; exact ⟨rfl, h2⟩
  | decimal64 b =>
    rcases hk : b.tryResize c with e | r <;> simp [Batch.tryResize, hk, Except.map] at h
    obtain ⟨h1, h2⟩ := Decimal64VectorBatch_tryResize_ok b c r hk
    subst h h1; exact ⟨rfl, h2⟩
  | decimal128 b =>
    rcases hk : b.tryResize c with e | r <;> simp [Batch.tryResize, hk, Except.map] at h
    obtain ⟨h1, h2⟩ := Decimal128VectorBatch_tryResize_ok b c r hk
    subst h h1; exact ⟨rfl, h2⟩

theorem Batch_tryConstruct_ok (k : Kind) (cap : Nat) (pool : MemoryPool) (b : Batch)
    (h : Batch.tryConstruct k cap pool = .ok b) :
    b = Batch.construct k cap pool ∧ cap + 1 < UINT64_MOD := by
  cases k with
  | long =>
    rcases hk : LongVectorBatch.tryConstruct cap pool with e | r <;>
      simp [Batch.tryConstruct, hk, Except.map] at h
    obtain ⟨h1, h2⟩ := LongVectorBatch_tryConstruct_ok cap pool r hk
    subst h h1; exact ⟨rfl, h2⟩
  | double =>
    rcases hk : DoubleVectorBatch.tryConstruct cap pool with e | r <;>
      simp [Batch.tryConstruct, hk, Except.map] at h
    obtain ⟨h1, h2⟩ := DoubleVectorBatch_tryConstruct_ok cap pool r hk
    subst h h1; exact ⟨rfl, h2⟩
  | string =>
    rcases hk : StringVectorBatch.tryConstruct cap pool with e | r <;>
      simp [Batch.tryConstruct, hk, Except.map] at h
    obtain ⟨h1, h2⟩ := StringVectorBatch_tryConstruct_ok cap pool r hk
    subst h h1; exact ⟨rfl, h2⟩
  | struct =>
    rcases hk : (StructVectorBatch.tryConstruct cap pool :
        Except ResourceError (StructVectorBatch Batch)) with e | r <;>
      simp [Batch.tryConstruct, hk, Except.map] at h
    obtain ⟨h1, h2⟩ := StructVectorBatch_tryConstruct_ok cap pool r hk
    subst h h1; exact ⟨rfl, h2⟩
  | list =>
    rcases hk : (ListVectorBatch.tryConstruct cap pool :
        Except ResourceError (ListVectorBatch Batch)) with e | r <;>
      simp [Batch.tryConstruct, hk, Except.map] at h
    obtain ⟨h1, h2⟩ := ListVectorBatch_tryConstruct_ok cap pool r hk
    subst h h1; exact ⟨rfl, h2⟩
  | map =>
    rcases hk : (MapVectorBatch.tryConstruct cap pool :
        Except ResourceError (MapVectorBatch Batch)) with e | r <;>
      simp [Batch.tryConstruct, hk, Except.map] at h
    obtain ⟨h1, h2⟩ := MapVectorBatch_tryConstruct_ok cap pool r hk
    subst h h1; exact ⟨rfl, h2⟩
  | union =>
    rcases hk : (UnionVectorBatch.tryConstruct cap pool :
        Except ResourceError (UnionVectorBatch Batch)) with e | r <;>
      simp [Batch.tryConstruct, hk, Except.map] at h
    obtain ⟨h1, h2⟩ := UnionVectorBatch_tryConstruct_ok cap pool r hk
    subst h h1; exact ⟨rfl, h2⟩
  | decimal64 =>
    rcases hk : Decimal64VectorBatch.tryConstruct cap pool with e | r <;>
      simp [Batch.tryConstruct, hk, Except.map] at h
    obtain ⟨h1, h2⟩ := Decimal64VectorBatch_tryConstruct_ok cap pool r hk
    subst h h1; exact ⟨rfl, h2⟩
  | decimal128 =>
    rcases hk : Decimal128VectorBatch.tryConstruct cap pool with e | r <;>
      simp [Batch.tryConstruct, hk, Except.map] at h
    obtain ⟨h1, h2⟩ := Decimal128VectorBatch_tryConstruct_ok cap pool r hk
    subst h h1; exact ⟨rfl, h2⟩

theorem Batch_tryResize_of_supplies (b : Batch) (c : Nat)
    (h : ∀ slot n, n ≤ c + 1 → b.base.memoryPool.supplies slot n = true) :
    b.tryResize c = .ok (b.resize c) := by
  cases b with
  | long b => simp [Batch.tryResize, Batch.resize, LongVectorBatch_tryResize_of_supplies b c h,
      Except.map]
  | double b => simp [Batch.tryResize, Batch.resize,
      DoubleVectorBatch_tryResize_of_supplies b c h, Except.map]
  | string b => simp [Batch.tryResize, Batch.resize,
      StringVectorBatch_tryResize_of_supplies b c h, Except.map]
  | struct b => simp [Batch.tryResize, Batch.resize,
      StructVectorBatch_tryResize_of_supplies b c h, Except.map]
  | list b => simp [Batch.tryResize, Batch.resize,
      ListVectorBatch_tryResize_of_supplies b c h, Except.map]
  | map b => simp [Batch.tryResize, Batch.resize,
      MapVectorBatch_tryResize_of_supplies b c h, Except.map]
  | union b => simp [Batch.tryResize, Batch.resize,
      UnionVectorBatch_tryResize_of_supplies b c h, Except.map]
  | decimal64 b => simp [Batch.tryResize, Batch.resize,
      Decimal64VectorBatch_tryResize_of_supplies b c h, Except.map]
  | decimal128 b => simp [Batch.tryResize, Batch.resize,
      Decimal128VectorBatch_tryResize_of_supplies b c h, Except.map]

/-- Invariant of the states of a run: every buffer allocated with `cap` elements
has length `capacity`, `capacity + 1` does not wrap, and every buffer allocated
with `cap+1` elements has length `capacity + 1`. -/
theorem Attained_sizes {b : Batch} (hb : Attained b) :
    (∀ x ∈ b.capacityBuffers, x.size = b.capacity) ∧ b.capacity + 1 < UINT64_MOD ∧
    (∀ x ∈ b.offsetsBuffers, x.size = b.capacity + 1) := by
  induction hb with
  | construct k cap pool b _ hc =>
    obtain ⟨rfl, hlt⟩ := Batch_tryConstruct_ok k cap pool b hc
    rw [Batch_capacity_construct]
    refine ⟨Batch_capacityBuffers_size_construct k cap pool, hlt, fun x hx => ?_⟩
    rw [Batch_offsetsBuffers_size_construct k cap pool x hx, Nat.mod_eq_of_lt hlt]
  | resize b c b' _ _ hr ih =>
    obtain ⟨rfl, hlt⟩ := Batch_tryResize_ok b c b' hr
    by_cases h : b.capacity < c
    · have hnn : b.notNull.size = b.capacity := by
        apply ih.1
        cases b <;> simp [Batch.capacityBuffers, Batch.notNull, Batch.base]
      have hc1 : c + 1 < UINT64_MOD := hlt h (by omega)
      have hcap : (b.resize c).capacity = c := by
        rw [Batch_capacity_resize]; exact Nat.max_eq_right (Nat.le_of_lt h)
      rw [hcap]
      exact ⟨Batch_capacityBuffers_size_resize b c h ih.1, hc1,
        Batch_offsetsBuffers_size_resize b c h hc1 ih.2.2⟩
    · rw [Batch_resize_of_le b c (Nat.not_lt.mp h)]
      exact ih

theorem Attained_sized {b : Batch} (hb : Attained b) : b.Sized := by
  obtain ⟨h1, h2, h3⟩ := Attained_sizes hb
  exact ⟨h1, fun x hx => by rw [h3 x hx, Nat.mod_eq_of_lt h2]⟩

theorem ResourceError_eq (e : ResourceError) : e = .allocationFailure := by
  cases e
  rfl

theorem Batch_tryResize_error (b : Batch) (c : Nat) (hc : b.capacity < c)
    (hn : b.notNull.size < c) (hw : ¬ c + 1 < UINT64_MOD) :
    b.tryResize c = .error .allocationFailure := by
  rcases h : b.tryResize c with e | b'
  · rw [ResourceError_eq e]
  · exact absurd ((Batch_tryResize_ok b c b' h).2 hc hn) hw

theorem Batch_tryConstruct_error (k : Kind) (cap : Nat) (pool : MemoryPool)
    (hw : ¬ cap + 1 < UINT64_MOD) :
    Batch.tryConstruct k cap pool = .error .allocationFailure := by
  rcases h : Batch.tryConstruct k cap pool with e | b
  · rw [ResourceError_eq e]
  · exact absurd (Batch_tryConstruct_ok k cap pool b h).2 hw

theorem Batch_sized_notNull (b : Batch) (hs : b.Sized) : b.notNull.size = b.capacity := by
  apply hs.1
  cases b <;> simp [Batch.capacityBuffers, Batch.notNull, Batch.base]

theorem Batch_memoryPool_resize (b : Batch) (c : Nat) :
    (b.resize c).base.memoryPool = b.base.memoryPool := by
  rw [Batch_base_resize, ColumnVectorBatch_memoryPool_resize]

theorem zeroPool_supplies (m : Nat) (hm : m ≤ 999) :
    ∀ slot n, n ≤ m + 1 → zeroPool.supplies slot n = true := by
  intro slot n hn
  exact decide_eq_true (by omega)

/-! ## Growth (C4) -/

/-- C4. For the base batch and for every concrete kind, for every batch whose
directly owned buffers have the lengths its constructor gave them for its
current capacity and every `c` above that capacity: when `resize(c)` returns,
the capacity is `c`, every buffer allocated with `cap` elements (notNull, data,
length, values, readScales, tags, union offsets) has length `c`, the offsets
buffer of a list or map has length `c + 1`, and every directly owned buffer
holds at each index below the prior capacity the value it held before. The call
returns whenever the pool satisfies requests for up to `c + 1` elements; for
`c = 2 ^ 64 - 1` the request for the notNull buffer is refused and the call
raises the allocation failure. -/
theorem tryResize_grows_owned_buffers :
    (∀ (b : ColumnVectorBatch) (c : Nat) (b' : ColumnVectorBatch),
      b.notNull.size = b.capacity → b.capacity < c → b.tryResize c = .ok b' →
      b'.capacity = c ∧ b'.notNull.size = c ∧
      ∀ i, i < b.capacity → b'.notNull.buf[i]? = b.notNull.buf[i]?) ∧
    (∀ (b : Batch) (c : Nat) (b' : Batch),
      b.Sized → b.capacity < c → b.tryResize c = .ok b' →
      b'.capacity = c ∧
      (∀ x ∈ b'.capacityBuffers, x.size = c) ∧
      (∀ x ∈ b'.offsetsBuffers, x.size = c + 1) ∧
      List.Forall₂ (fun o n => ∀ i, i < b.capacity → n.buf[i]? = o.buf[i]?)
        b.ownedBuffers b'.ownedBuffers) ∧
    (∀ (b : ColumnVectorBatch) (c : Nat),
      (∀ slot n, n ≤ c + 1 → b.memoryPool.supplies slot n = true) →
      b.tryResize c = .ok (b.resize c)) ∧
    (∀ (b : Batch) (c : Nat),
      (∀ slot n, n ≤ c + 1 → b.base.memoryPool.supplies slot n = true) →
      b.tryResize c = .ok (b.resize c)) ∧
    (∀ b : Batch, b.Sized → b.capacity < UINT64_MOD - 1 →
      b.tryResize (UINT64_MOD - 1) = .error .allocationFailure) := by
  refine ⟨fun b c b' hs hc h => ?_, fun b c b' hs hc h => ?_,
    ColumnVectorBatch_tryResize_of_supplies, Batch_tryResize_of_supplies, fun b hs hc => ?_⟩
  · obtain ⟨rfl, _⟩ := ColumnVectorBatch_tryResize_ok b c b' h
    exact Batch_resize_grows_owned_buffers.1 b c hs hc
  · obtain ⟨rfl, hlt⟩ := Batch_tryResize_ok b c b' h
    have hn := Batch_sized_notNull b hs
    exact Batch_resize_grows_owned_buffers.2 b c hs hc (fun _ => hlt hc (by omega))
  · have hn := Batch_sized_notNull b hs
    exact Batch_tryResize_error b _ hc (by omega) (by unfold UINT64_MOD; omega)

/-- Instance of C4: a list batch of capacity 2 resized to 5. -/
theorem tryResize_grows_owned_buffers_witness :
    ((Batch.construct .list 2 zeroPool).resize 5).capacity = 5 ∧
    (∀ x ∈ ((Batch.construct .list 2 zeroPool).resize 5).capacityBuffers, x.size = 5) ∧
    (∀ x ∈ ((Batch.construct .list 2 zeroPool).resize 5).offsetsBuffers, x.size = 5 + 1) ∧
    List.Forall₂
      (fun o n => ∀ i, i < (Batch.construct .list 2 zeroPool).capacity → n.buf[i]? = o.buf[i]?)
      (Batch.construct .list 2 zeroPool).ownedBuffers
      ((Batch.construct .list 2 zeroPool).resize 5).ownedBuffers :=
  tryResize_grows_owned_buffers.2.1 (Batch.construct .list 2 zeroPool) 5
    ((Batch.construct .list 2 zeroPool).resize 5) (Batch_sized_construct .list 2 zeroPool)
    (by decide) (Batch_tryResize_of_supplies _ 5 (zeroPool_supplies 5 (by decide)))

/-! ## Offsets of list and map batches (C5) -/

/-- C5. For list and map batches, in every state of a run, reached by a
constructor call with any `uint64_t` capacity that returned and any sequence of
`resize` calls with `uint64_t` arguments that returned, the offsets buffer has
length exactly `capacity + 1`, one more than the length of the notNull buffer;
`capacity + 1` never wraps there. A constructor call with capacity
`2 ^ 64 - 1`, the one value whose `cap+1` wraps, does not return: the request
for its notNull buffer is refused. -/
theorem offsets_size_of_attained :
    (∀ b : ListVectorBatch Batch, Attained (.list b) →
      b.offsets.size = b.capacity + 1 ∧ b.offsets.size = b.notNull.size + 1 ∧
      b.capacity + 1 < UINT64_MOD) ∧
    (∀ b : MapVectorBatch Batch, Attained (.map b) →
      b.offsets.size = b.capacity + 1 ∧ b.offsets.size = b.notNull.size + 1 ∧
      b.capacity + 1 < UINT64_MOD) ∧
    (∀ (k : Kind) (pool : MemoryPool),
      Batch.tryConstruct k (UINT64_MOD - 1) pool = .error .allocationFailure) ∧
    (∀ b : Batch, Attained b → b.tryResize (UINT64_MOD - 1) = .error .allocationFailure) := by
  refine ⟨fun b hb => ?_, fun b hb => ?_, fun k pool => ?_, fun b hb => ?_⟩
  · obtain ⟨h1, h2, h3⟩ := Attained_sizes hb
    have e1 : b.notNull.size = b.capacity := h1 b.notNull (List.mem_singleton.mpr rfl)
    have e2 : b.offsets.size = b.capacity + 1 := h3 b.offsets (List.mem_singleton.mpr rfl)
    exact ⟨e2, by rw [e1, e2], h2⟩
  · obtain ⟨h1, h2, h3⟩ := Attained_sizes hb
    have e1 : b.notNull.size = b.capacity := h1 b.notNull (List.mem_singleton.mpr rfl)
    have e2 : b.offsets.size = b.capacity + 1 := h3 b.offsets (List.mem_singleton.mpr rfl)
    exact ⟨e2, by rw [e1, e2], h2⟩
  · exact Batch_tryConstruct_error k _ pool (by unfold UINT64_MOD; omega)
  · obtain ⟨_, h2, _⟩ := Attained_sizes hb
    have hn := Batch_sized_notNull b (Attained_sized hb)
    have hlt : b.capacity < UINT64_MOD - 1 := by omega
    exact Batch_tryResize_error b _ hlt (by omega) (by unfold UINT64_MOD; omega)

/-- Instance of C5: the list batch constructed with capacity 1 and resized to 3
and then to 2 has four offsets and three notNull entries. -/
theorem offsets_size_of_attained_witness :
    sampleList.offsets.size = sampleList.capacity + 1 ∧
    sampleList.offsets.size = sampleList.notNull.size + 1 ∧
    sampleList.capacity + 1 < UINT64_MOD :=
  offsets_size_of_attained.1 sampleList
    (Attained.resize ((Batch.construct .list 1 zeroPool).resize 3) 2 (.list sampleList)
      (by decide)
      (Attained.resize (Batch.construct .list 1 zeroPool) 3
        ((Batch.construct .list 1 zeroPool).resize 3) (by decide)
        (Attained.construct .list 1 zeroPool (Batch.construct .list 1 zeroPool) (by decide)
          (by rfl))
        (Batch_tryResize_of_supplies _ 3 (zeroPool_supplies 3 (by decide))))
      (Batch_tryResize_of_supplies _ 2 (zeroPool_supplies 2 (by decide))))

/-! ## Composition of resizes (C18) -/

/-- C18. Resizes compose as a maximum and commute. For the base batch in every
state, and for every concrete kind in every state whose directly owned buffers
have the lengths its constructor gave them, which every state of a run has:
for all `a` and `b`, when `resize(a)` followed by `resize(b)`, `resize(b)`
followed by `resize(a)` and the single call `resize(max(a, b))` return, they
yield the same capacity, the same length for every directly owned buffer, and
the same entries at the indices below the original capacity. All three return
whenever the pool satisfies requests for up to `max(a, b) + 1` elements. -/
theorem tryResize_commutes :
    (∀ (b : ColumnVectorBatch) (a c : Nat) (x y z : ColumnVectorBatch),
      (b.tryResize a >>= fun b₁ => b₁.tryResize c) = .ok x →
      (b.tryResize c >>= fun b₁ => b₁.tryResize a) = .ok y →
      b.tryResize (max a c) = .ok z →
      x.capacity = y.capacity ∧ x.capacity = z.capacity ∧
      x.notNull.size = y.notNull.size ∧ x.notNull.size = z.notNull.size ∧
      (∀ i, i < b.capacity → x.notNull.buf[i]? = y.notNull.buf[i]?) ∧
      (∀ i, i < b.capacity → x.notNull.buf[i]? = z.notNull.buf[i]?)) ∧
    (∀ (b : Batch) (a c : Nat) (x y z : Batch), b.Sized →
      (b.tryResize a >>= fun b₁ => b₁.tryResize c) = .ok x →
      (b.tryResize c >>= fun b₁ => b₁.tryResize a) = .ok y →
      b.tryResize (max a c) = .ok z →
      x.capacity = y.capacity ∧ x.capacity = z.capacity ∧
      x.ownedBuffers.map DataBuffer.size = y.ownedBuffers.map DataBuffer.size ∧
      x.ownedBuffers.map DataBuffer.size = z.ownedBuffers.map DataBuffer.size ∧
      List.Forall₂ (fun p q => ∀ i, i < b.capacity → p.buf[i]? = q.buf[i]?)
        x.ownedBuffers y.ownedBuffers ∧
      List.Forall₂ (fun p q => ∀ i, i < b.capacity → p.buf[i]? = q.buf[i]?)
        x.ownedBuffers z.ownedBuffers) ∧
    (∀ b : Batch, Attained b → b.Sized) ∧
    (∀ (b : Batch) (a c : Nat),
      (∀ slot n, n ≤ max a c + 1 → b.base.memoryPool.supplies slot n = true) →
      (b.tryResize a >>= fun b₁ => b₁.tryResize c) = .ok ((b.resize a).resize c) ∧
      (b.tryResize c >>= fun b₁ => b₁.tryResize a) = .ok ((b.resize c).resize a) ∧
      b.tryResize (max a c) = .ok (b.resize (max a c))) := by
  refine ⟨fun b a c x y z hx hy hz => ?_, fun b a c x y z hs hx hy hz => ?_,
    fun b hb => Attained_sized hb, fun b a c h => ?_⟩
  · rcases h1 : b.tryResize a with e | b₁
    · simp [h1, bind, Except.bind] at hx
    rcases h2 : b.tryResize c with e | b₂
    · simp [h2, bind, Except.bind] at hy
    simp only [h1, bind, Except.bind] at hx
    simp only [h2, bind, Except.bind] at hy
    obtain ⟨rfl, _⟩ := ColumnVectorBatch_tryResize_ok b a b₁ h1
    obtain ⟨rfl, _⟩ := ColumnVectorBatch_tryResize_ok b c b₂ h2
    obtain ⟨rfl, _⟩ := ColumnVectorBatch_tryResize_ok _ c x hx
    obtain ⟨rfl, _⟩ := ColumnVectorBatch_tryResize_ok _ a y hy
    obtain ⟨rfl, _⟩ := ColumnVectorBatch_tryResize_ok _ _ z hz
    have e1 := ColumnVectorBatch_resize_resize_max b a c
    have e2 : (b.resize c).resize a = b.resize (max a c) := by
      rw [ColumnVectorBatch_resize_resize_max b c a, Nat.max_comm]
    rw [e1, e2]
    exact ⟨rfl, rfl, rfl, rfl, fun _ _ => rfl, fun _ _ => rfl⟩
  · have hn := Batch_sized_notNull b hs
    rcases h1 : b.tryResize a with e | b₁
    · simp [h1, bind, Except.bind] at hx
    rcases h2 : b.tryResize c with e | b₂
    · simp [h2, bind, Except.bind] at hy
    simp only [h1, bind, Except.bind] at hx
    simp only [h2, bind, Except.bind] at hy
    obtain ⟨rfl, ha⟩ := Batch_tryResize_ok b a b₁ h1
    obtain ⟨rfl, hc⟩ := Batch_tryResize_ok b c b₂ h2
    obtain ⟨rfl, _⟩ := Batch_tryResize_ok _ c x hx
    obtain ⟨rfl, _⟩ := Batch_tryResize_ok _ a y hy
    obtain ⟨rfl, _⟩ := Batch_tryResize_ok _ _ z hz
    have e1 := Batch_resize_resize_max b a c (fun _ h => hc h (by omega))
    have e2 : (b.resize c).resize a = b.resize (max a c) := by
      rw [Batch_resize_resize_max b c a (fun _ h => ha h (by omega)), Nat.max_comm]
    rw [e1, e2]
    exact ⟨rfl, rfl, rfl, rfl, List.forall₂_same.mpr fun _ _ _ _ => rfl,
      List.forall₂_same.mpr fun _ _ _ _ => rfl⟩
  · have ha : ∀ slot n, n ≤ a + 1 → b.base.memoryPool.supplies slot n = true :=
      fun slot n hn => h slot n (by have := Nat.le_max_left a c; omega)
    have hc : ∀ slot n, n ≤ c + 1 → b.base.memoryPool.supplies slot n = true :=
      fun slot n hn => h slot n (by have := Nat.le_max_right a c; omega)
    refine ⟨?_, ?_, Batch_tryResize_of_supplies b _ h⟩
    · rw [Batch_tryResize_of_supplies b a ha]
      exact Batch_tryResize_of_supplies (b.resize a) c
        (by rw [Batch_memoryPool_resize]; exact hc)
    · rw [Batch_tryResize_of_supplies b c hc]
      exact Batch_tryResize_of_supplies (b.resize c) a
        (by rw [Batch_memoryPool_resize]; exact ha)

/-- Instance of C18: a list batch of capacity 1 resized to 3 and 7, in both
orders and at once. -/
theorem tryResize_commutes_witness :
    (((Batch.construct .list 1 zeroPool).resize 3).resize 7).ownedBuffers.map DataBuffer.size =
      (((Batch.construct .list 1 zeroPool).resize 7).resize 3).ownedBuffers.map
        DataBuffer.size ∧
    (((Batch.construct .list 1 zeroPool).resize 3).resize 7).ownedBuffers.map DataBuffer.size =
      ((Batch.construct .list 1 zeroPool).resize (max 3 7)).ownedBuffers.map DataBuffer.size :=
  have hr := tryResize_commutes.2.2.2 (Batch.construct .list 1 zeroPool) 3 7
    (zeroPool_supplies (max 3 7) (by decide))
  have h := tryResize_commutes.2.1 (Batch.construct .list 1 zeroPool) 3 7 _ _ _
    (Batch_sized_construct .list 1 zeroPool) hr.1 hr.2.1 hr.2.2
  ⟨h.2.2.1, h.2.2.2.1⟩

/-! ## One growth decision per derived `resize` (C17) -/

